import Mathlib

/-!
# jellycleaner: staged deletion of media library items

A shallow embedding of `main.go` and of the gateway clients under `internal/`.
The first part models the fragment of Go's `time` package the program uses
(`Format` and `Parse` with the layout `"2006-01-02"`, `AddDate`, `After`);
the second part models the Jellyfin, Sonarr, Radarr and Jellyseerr gateways as
an explicit state with a fault schedule; the third part is the program itself.
-/

namespace Jellycleaner

/-! # Definitions -/

/-! ## Calendar arithmetic of Go's `time` package -/

/-- Go `time.isLeap`. -/
def isLeap (year : Int) : Bool :=
  year % 4 == 0 && (year % 100 != 0 || year % 400 == 0)

/-- Go `time.daysBefore`: the number of days in a non-leap year before month `m + 1`. -/
def daysBefore (m : Int) : Int :=
  if m ≤ 0 then 0 else if m = 1 then 31 else if m = 2 then 59 else if m = 3 then 90
  else if m = 4 then 120 else if m = 5 then 151 else if m = 6 then 181
  else if m = 7 then 212 else if m = 8 then 243 else if m = 9 then 273
  else if m = 10 then 304 else if m = 11 then 334 else 365

/-- Go `time.daysIn`. -/
def daysIn (month : Int) (year : Int) : Int :=
  if month = 2 ∧ isLeap year = true then 29
  else daysBefore month - daysBefore (month - 1)

/-- A calendar date: what Go's `Time.Date()` returns. -/
structure CivilDate where
  year : Int
  month : Int
  day : Int
deriving DecidableEq, Repr

/-- A year and a zero-based day within it. -/
structure YearDay where
  year : Int
  yday : Int
deriving DecidableEq, Repr

/-- The year part of Go `Time.absDate`, on days counted from 1970-01-01:
400-year, 100-year, 4-year and 1-year cycles are cut off in turn, the 100-year
and 1-year counts capped at 3 (`n -= n >> 2`). -/
def yearDayOf (z : Int) : YearDay :=
  let d0 := z + 719162
  let n400 := d0 / 146097
  let d1 := d0 - 146097 * n400
  let c := d1 / 36524
  let n100 := c - c / 4
  let d2 := d1 - 36524 * n100
  let n4 := d2 / 1461
  let d3 := d2 - 1461 * n4
  let k := d3 / 365
  let n1 := k - k / 4
  { year := 400 * n400 + 100 * n100 + 4 * n4 + n1 + 1, yday := d3 - 365 * n1 }

/-- The month estimate of Go `Time.absDate` for a day of a non-leap year:
month and day of the month, both counted from 1. -/
def splitDay (day : Int) : Int × Int :=
  let month := day / 31
  let e := daysBefore (month + 1)
  if day ≥ e then (month + 2, day - e + 1)
  else (month + 1, day - daysBefore month + 1)

/-- The month and day part of Go `Time.absDate`. -/
def monthDayOf (year yday : Int) : Int × Int :=
  if isLeap year = true ∧ yday = 59 then (2, 29)
  else splitDay (if isLeap year = true ∧ yday > 59 then yday - 1 else yday)

/-- The calendar date of day number `z` (days since 1970-01-01). -/
def civilFromDays (z : Int) : CivilDate :=
  let yd := yearDayOf z
  let md := monthDayOf yd.year yd.yday
  { year := yd.year, month := md.1, day := md.2 }

/-- Go `time.daysSinceEpoch`, shifted to count from 1970-01-01: the day number of
January 1 of `year`. -/
def daysSinceEpoch (year : Int) : Int :=
  let y := year - 1
  let n400 := y / 400
  let y1 := y - 400 * n400
  let n100 := y1 / 100
  let y2 := y1 - 100 * n100
  let n4 := y2 / 4
  let y3 := y2 - 4 * n4
  146097 * n400 + 36524 * n100 + 1461 * n4 + 365 * y3 - 719162

/-- The day number computed by Go `time.Date`: months outside 1..12 are
normalised into the year, the day is added as it is. -/
def daysFromCivil (year month day : Int) : Int :=
  let m0 := month - 1
  let y := year + m0 / 12
  let m := m0 % 12 + 1
  daysSinceEpoch y + daysBefore (m - 1)
    + (if isLeap y = true ∧ m ≥ 3 then 1 else 0) + (day - 1)

/-! ## Instants -/

/-- A Go `time.Time`: seconds and nanoseconds since 1970-01-01T00:00:00Z and the
offset east of UTC, in seconds, of the location the value carries (locations
are modelled as fixed offsets). -/
structure Time where
  sec : Int
  nsec : Int
  offset : Int
deriving DecidableEq, Repr

/-- Go `Time.Date()`: the calendar date in the time's own location. -/
def Time.date (t : Time) : CivilDate :=
  civilFromDays ((t.sec + t.offset) / 86400)

/-- Seconds since local midnight: Go `Time.Clock()` folded into one number. -/
def Time.clock (t : Time) : Int :=
  (t.sec + t.offset) % 86400

/-- Go `time.Date(year, month, day, 0, 0, secs, nsec, loc)` for a location of
offset `offset`. -/
def mkDate (year month day secs nsec offset : Int) : Time :=
  { sec := daysFromCivil year month day * 86400 + secs - offset, nsec := nsec, offset := offset }

/-- The value of a Go `int64` holding `x` after overflow: `x` modulo 2^64, in
the range from -2^63 up to 2^63 - 1. -/
def wrap64 (x : Int) : Int :=
  (x + 9223372036854775808) % 18446744073709551616 - 9223372036854775808

/-- The constant `unixToInternal` of Go's `time` package: the seconds from
January 1 of year 1 to 1970-01-01. A `Time` holds its seconds counted from year
1 in an `int64`. -/
def unixToInternal : Int := 62135596800

/-- Go `Time.AddDate(0, 0, days)`: `time.Date` of the date of `t` with `days`
added to the day, at the clock reading of `t`. `time.Date` computes in 64-bit
arithmetic and the result holds its seconds since year 1 in an `int64`, so a
result out of that range wraps around. -/
def Time.AddDate (t : Time) (days : Int) : Time :=
  let r := mkDate t.date.year t.date.month (t.date.day + days) t.clock t.nsec t.offset
  { r with sec := wrap64 (r.sec + unixToInternal) - unixToInternal }

/-- Go `Time.After`. -/
def Time.After (t u : Time) : Bool :=
  decide (t.sec > u.sec ∨ (t.sec = u.sec ∧ t.nsec > u.nsec))

/-! ## Formatting and parsing with the layout `"2006-01-02"` -/

/-- The byte `'0' + n`. -/
def digitChar (n : Nat) : Char := Char.ofNat (48 + n)

/-- Decimal digits of `n`, most significant first; `fuel` bounds the recursion. -/
def digitsAux : Nat → Nat → List Char
  | 0, _ => []
  | fuel + 1, n =>
    if n < 10 then [digitChar n] else digitsAux fuel (n / 10) ++ [digitChar (n % 10)]

/-- Decimal digits of `n`. -/
def natDigits (n : Nat) : List Char := digitsAux (n + 1) n

/-- Go `time.appendInt`: a minus sign for a negative number, then its digits
padded with zeros to `width`. -/
def appendInt (x : Int) (width : Nat) : List Char :=
  let ds := natDigits x.natAbs
  (if x < 0 then ['-'] else []) ++ List.replicate (width - ds.length) '0' ++ ds

/-- Go `t.Format("2006-01-02")`. -/
def formatDate (t : Time) : String :=
  String.mk (appendInt t.date.year 4 ++ ['-'] ++ appendInt t.date.month 2 ++ ['-']
    ++ appendInt t.date.day 2)

/-- Go `time.isDigit` on one byte. -/
def isDigit (c : Char) : Bool := decide (48 ≤ c.toNat ∧ c.toNat ≤ 57)

/-- The value of a digit byte. -/
def digitVal (c : Char) : Int := (c.toNat : Int) - 48

/-- Go `time.getnum`: one or two digits, exactly two when `fixed`. -/
def getnum (s : List Char) (fixed : Bool) : Option (Int × List Char) :=
  match s with
  | [] => none
  | c0 :: r0 =>
    if isDigit c0 = false then none
    else match r0 with
      | [] => if fixed then none else some (digitVal c0, r0)
      | c1 :: r1 =>
        if isDigit c1 = true then some (digitVal c0 * 10 + digitVal c1, r1)
        else if fixed then none else some (digitVal c0, r0)

/-- The `stdLongYear` case of Go `time.Parse`: exactly four digits. -/
def getYear (s : List Char) : Option (Int × List Char) :=
  match s with
  | c0 :: c1 :: c2 :: c3 :: r =>
    if isDigit c0 = true ∧ isDigit c1 = true ∧ isDigit c2 = true ∧ isDigit c3 = true then
      some (digitVal c0 * 1000 + digitVal c1 * 100 + digitVal c2 * 10 + digitVal c3, r)
    else none
  | _ => none

/-- Go `time.skip` for the one-byte literal `-` of the layout. -/
def skipDash (s : List Char) : Option (List Char) :=
  match s with
  | c :: r => if c = '-' then some r else none
  | [] => none

/-- Go `time.Parse("2006-01-02", value)`; `none` stands for the error result.
The value is four digits, `-`, two digits, `-`, two digits and nothing else;
the month must lie in 1..12 and the day in 1..`daysIn`. The result is midnight
UTC of that date. -/
def parseDate (value : String) : Option Time :=
  match getYear value.data with
  | none => none
  | some (year, v1) =>
    match skipDash v1 with
    | none => none
    | some v2 =>
      match getnum v2 true with
      | none => none
      | some (month, v3) =>
        if month ≤ 0 ∨ 12 < month then none
        else match skipDash v3 with
          | none => none
          | some v4 =>
            match getnum v4 true with
            | none => none
            | some (day, v5) =>
              if v5 ≠ [] then none
              else if day < 1 ∨ day > daysIn month year then none
              else some (mkDate year month day 0 0 0)

/-! ## Marker codec (`main.go`) -/

/-- The constant `expireTagConst` of `main.go`. -/
def expireTagConst : String := "Jellycleaner-Expire-"

/-- Go `strings.HasPrefix`. -/
def hasPrefix (s p : String) : Bool := p.data.isPrefixOf s.data

/-- Go `strings.TrimPrefix`. -/
def trimPrefix (s p : String) : String :=
  if hasPrefix s p then String.mk (s.data.drop p.data.length) else s

/-- The function `formatExpirationTag` of `main.go`. -/
def formatExpirationTag (expirationDate : Time) : String :=
  expireTagConst ++ formatDate expirationDate

/-- Modelled from the spec: the right-hand side of `dateStr :=` in
`parseExpirationDate` is missing from `main.go`. The spec says the decoder
"strips prefix, parses date"; the prefix of the codec is `expireTagConst`. -/
def dateStrOf (tag : String) : String := trimPrefix tag expireTagConst

/-- The function `parseExpirationDate` of `main.go`: `time.Parse` on `dateStr`. -/
def parseExpirationDate (tag : String) : Option Time :=
  parseDate (dateStrOf tag)

/-! ## Configuration (`config/config.go`) -/

/-- The struct `config.LibraryRules`. -/
structure LibraryRules where
  DeleteIfWatchedByAll : Bool
  MaxAgeDays : Int
deriving DecidableEq, Repr

/-- The struct `config.Library`; `Kind` is its field `Type`. -/
structure Library where
  Name : String
  Kind : String
  Rules : LibraryRules
  Exclusions : List String
deriving DecidableEq, Repr

/-- The struct `config.PlaylistConfig`. -/
structure PlaylistConfig where
  Name : String
  CheckIntervalHours : Int
  DeletionDelayDays : Int
deriving DecidableEq, Repr

/-- The struct `config.Config`: the libraries of `cfg.Jellyfin.Libraries` and the
playlist settings (the URLs play no part in the passes). -/
structure Config where
  Libraries : List Library
  HeadedOutPlaylist : PlaylistConfig
deriving DecidableEq, Repr

/-! ## Gateways (`internal/jellyfin`, `internal/sonarr`, `internal/radarr`) -/

/-- The struct `jellyfin.Item`; `Kind` is its field `Type`. -/
structure Item where
  ID : String
  Name : String
  Kind : String
  ExternalID : String
deriving DecidableEq, Repr

/-- What the Jellyfin server answers for an item: `Name`, `Type` (here `Kind`), and
the entries `Tvdb` and `Tmdb` of `ProviderIds` (the empty string for a missing key). -/
structure ItemData where
  Name : String
  Kind : String
  Tvdb : String
  Tmdb : String
deriving DecidableEq, Repr

/-- The struct `sonarr.Series`, the fields the client reads. -/
structure Series where
  ID : Int
  TVDBID : Int
deriving DecidableEq, Repr

/-- The struct `radarr.Movie`, the fields the client reads. -/
structure Movie where
  ID : Int
  TMDBID : Int
deriving DecidableEq, Repr

/-- One call of a gateway method, with its arguments and its outcome. -/
inductive Call where
  | GetLibraryItems (libraryName : String) (ok : Bool)
  | IsWatchedByAllUsers (itemID : String) (result : Option Bool)
  | GetItemAddedDate (itemID : String) (ok : Bool)
  | IsInPlaylist (itemID playlistName : String) (result : Bool)
  | AddToPlaylist (itemID playlistName : String) (ok : Bool)
  | RemoveFromPlaylist (itemID playlistName : String) (ok : Bool)
  | GetPlaylistItems (playlistName : String) (ok : Bool)
  | AddTag (itemID tag : String) (ok : Bool)
  | RemoveTag (itemID tag : String) (ok : Bool)
  | GetExpirationTags (itemID : String) (result : List String)
  | DeleteSeries (tvdbID : String) (ok : Bool)
  | DeleteMovie (tmdbID : String) (ok : Bool)
  | JellyseerrRemove (item : Item) (ok : Bool)
deriving DecidableEq, Repr

/-- Whether a call is a catalog delete: `sonarr.DeleteSeries` or `radarr.DeleteMovie`. -/
def Call.isCatalogDelete : Call → Bool
  | .DeleteSeries _ _ => true
  | .DeleteMovie _ _ => true
  | _ => false

/-- Whether a call changes Jellyfin's bookkeeping or asks the request broker to. -/
def Call.isBookkeeping : Call → Bool
  | .RemoveFromPlaylist _ _ _ => true
  | .RemoveTag _ _ _ => true
  | .JellyseerrRemove _ _ => true
  | _ => false

/-- Whether a call writes to Jellyfin: playlist membership or tags. -/
def Call.isMutation : Call → Bool
  | .AddToPlaylist _ _ _ => true
  | .RemoveFromPlaylist _ _ _ => true
  | .AddTag _ _ _ => true
  | .RemoveTag _ _ _ => true
  | _ => false

/-- The external state the program runs against, and the history of its calls.
`fault n` says that the gateway call made when `n` calls have been made fails in
transport (a timeout, a status outside 200..299). `ageInDays d` is the value of
`int(time.Since(d).Hours() / 24)`, which depends on the clock and on floating
point arithmetic; `now` is the reading of `time.Now()`, held fixed during a pass. -/
structure World where
  item : String → ItemData
  libraries : String → Option (List String)
  users : List String
  played : String → String → Bool
  dateCreated : String → Option Time
  now : Time
  ageInDays : Time → Int
  playlists : String → Option (List String)
  tags : String → List String
  series : List Series
  movies : List Movie
  fault : Nat → Bool
  trace : List Call

/-- Whether the next gateway call fails in transport. -/
def World.faulty (w : World) : Bool := w.fault w.trace.length

/-- The world after one more call has been made. -/
def World.record (w : World) (c : Call) : World := { w with trace := w.trace ++ [c] }

/-- The item the client builds from a server entry, as in `GetLibraryItems` and
`GetPlaylistItems`: `Type` is copied as it is, `ExternalID` is the TVDB id of a
series, the TMDB id of a movie, and empty otherwise. -/
def toItem (w : World) (id : String) : Item :=
  let d := w.item id
  let externalID :=
    if d.Kind = "Series" ∧ d.Tvdb ≠ "" then d.Tvdb
    else if d.Kind = "Movie" ∧ d.Tmdb ≠ "" then d.Tmdb
    else ""
  { ID := id, Name := d.Name, Kind := d.Kind, ExternalID := externalID }

/-- The method `GetLibraryItems`: `none` is the error result. -/
def GetLibraryItems (w : World) (libraryName : String) : Option (List Item) × World :=
  let r : Option (List Item) :=
    if w.faulty then none
    else match w.libraries libraryName with
      | none => none
      | some ids => some (ids.map (toItem w))
  (r, w.record (.GetLibraryItems libraryName r.isSome))

/-- The method `IsWatchedByAllUsers`: every user has played the item; `none` is
the error result. -/
def IsWatchedByAllUsers (w : World) (itemID : String) : Option Bool × World :=
  let r : Option Bool := if w.faulty then none else some (w.users.all (fun u => w.played itemID u))
  (r, w.record (.IsWatchedByAllUsers itemID r))

/-- The method `GetItemAddedDate`: `none` is the error result (transport, or a
`DateCreated` that is not RFC 3339). -/
def GetItemAddedDate (w : World) (itemID : String) : Option Time × World :=
  let r : Option Time := if w.faulty then none else w.dateCreated itemID
  (r, w.record (.GetItemAddedDate itemID r.isSome))

/-- The method `IsInPlaylist`: false on any error. -/
def IsInPlaylist (w : World) (itemID playlistName : String) : Bool × World :=
  let r : Bool :=
    if w.faulty then false
    else match w.playlists playlistName with
      | none => false
      | some ids => ids.contains itemID
  (r, w.record (.IsInPlaylist itemID playlistName r))

/-- The method `AddToPlaylist`: the playlist is created when it is not found, and
the item is appended to it. -/
def AddToPlaylist (w : World) (itemID playlistName : String) : Bool × World :=
  if w.faulty then (false, w.record (.AddToPlaylist itemID playlistName false))
  else
    let ids := (w.playlists playlistName).getD []
    (true,
      { w with playlists := fun n => if n = playlistName then some (ids ++ [itemID])
          else w.playlists n }.record (.AddToPlaylist itemID playlistName true))

/-- The method `RemoveFromPlaylist`: the entry at the index of the first
occurrence of the item is removed; an error when the playlist or the item in it
is not found. -/
def RemoveFromPlaylist (w : World) (itemID playlistName : String) : Bool × World :=
  if w.faulty then (false, w.record (.RemoveFromPlaylist itemID playlistName false))
  else match w.playlists playlistName with
    | none => (false, w.record (.RemoveFromPlaylist itemID playlistName false))
    | some ids =>
      if ids.contains itemID then
        (true,
          { w with playlists := fun n => if n = playlistName
              then some (ids.eraseIdx (ids.indexOf itemID)) else w.playlists n }.record
            (.RemoveFromPlaylist itemID playlistName true))
      else (false, w.record (.RemoveFromPlaylist itemID playlistName false))

/-- The method `GetPlaylistItems`: `none` is the error result. -/
def GetPlaylistItems (w : World) (playlistName : String) : Option (List Item) × World :=
  let r : Option (List Item) :=
    if w.faulty then none
    else match w.playlists playlistName with
      | none => none
      | some ids => some (ids.map (toItem w))
  (r, w.record (.GetPlaylistItems playlistName r.isSome))

/-- The method `AddTag`: the tag is appended to the current tags, present or not. -/
def AddTag (w : World) (itemID tag : String) : Bool × World :=
  if w.faulty then (false, w.record (.AddTag itemID tag false))
  else
    (true,
      { w with tags := fun i => if i = itemID then w.tags itemID ++ [tag] else w.tags i }.record
        (.AddTag itemID tag true))

/-- The method `RemoveTag`: every tag equal to `tag` is dropped. -/
def RemoveTag (w : World) (itemID tag : String) : Bool × World :=
  if w.faulty then (false, w.record (.RemoveTag itemID tag false))
  else
    (true,
      { w with tags := fun i => if i = itemID then (w.tags itemID).filter (fun t => t ≠ tag)
          else w.tags i }.record (.RemoveTag itemID tag true))

/-- The method `GetExpirationTags`: the tags that start with `"Expires: "`; no
tags on an error. -/
def GetExpirationTags (w : World) (itemID : String) : List String × World :=
  let r : List String :=
    if w.faulty then [] else (w.tags itemID).filter (fun tag => hasPrefix tag "Expires: ")
  (r, w.record (.GetExpirationTags itemID r))

/-- Go `strconv.Atoi`: an optional sign and decimal digits, within 64 bits. -/
def atoi (s : String) : Option Int :=
  let ds : List Char :=
    match s.data with
    | [] => []
    | c :: r => if c = '-' ∨ c = '+' then r else c :: r
  if ds = [] ∨ ds.all isDigit = false then none
  else
    let n : Int := ds.foldl (fun a d => a * 10 + digitVal d) 0
    let v : Int := if s.data.head? = some '-' then -n else n
    if v < -9223372036854775808 ∨ 9223372036854775807 < v then none else some v

/-- The method `sonarr.DeleteSeries`: the series with the TVDB id is looked up
and deleted by its Sonarr id; an error when the id is not a number, the series
is not found, or the transport fails. -/
def DeleteSeries (w : World) (tvdbID : String) : Bool × World :=
  match atoi tvdbID with
  | none => (false, w.record (.DeleteSeries tvdbID false))
  | some n =>
    if w.faulty then (false, w.record (.DeleteSeries tvdbID false))
    else match w.series.find? (fun s => s.TVDBID = n) with
      | none => (false, w.record (.DeleteSeries tvdbID false))
      | some s =>
        (true, { w with series := w.series.filter (fun x => x.ID ≠ s.ID) }.record
          (.DeleteSeries tvdbID true))

/-- The method `radarr.DeleteMovie`, the twin of `DeleteSeries`. -/
def DeleteMovie (w : World) (tmdbID : String) : Bool × World :=
  match atoi tmdbID with
  | none => (false, w.record (.DeleteMovie tmdbID false))
  | some n =>
    if w.faulty then (false, w.record (.DeleteMovie tmdbID false))
    else match w.movies.find? (fun m => m.TMDBID = n) with
      | none => (false, w.record (.DeleteMovie tmdbID false))
      | some m =>
        (true, { w with movies := w.movies.filter (fun x => x.ID ≠ m.ID) }.record
          (.DeleteMovie tmdbID true))

/-- Modelled from the spec: `jellyseerrClient.Remove`, which `main.go` calls, is
not defined in `internal/jellyseerr/client.go`. The spec has the request broker
asked to delete the matching request record, best effort; the outcome is that
of the transport, and nothing the passes read is changed. -/
def JellyseerrRemove (w : World) (item : Item) : Bool × World :=
  (!w.faulty, w.record (.JellyseerrRemove item (!w.faulty)))

/-! ## The program (`main.go`) -/

/-- The function `isExcluded`. -/
def isExcluded (itemName : String) (exclusions : List String) : Bool :=
  match exclusions with
  | [] => false
  | exclusion :: rest => if itemName = exclusion then true else isExcluded itemName rest

/-- The second check of `shouldMarkForDeletion` and its final `return false, ""`:
the item is older than the maximum age. -/
def maxAgeCheck (w : World) (item : Item) (library : Library) : (Bool × String) × World :=
  if library.Rules.MaxAgeDays > 0 then
    match GetItemAddedDate w item.ID with
    | (none, w1) => ((false, ""), w1)
    | (some addedDate, w1) =>
      if w1.ageInDays addedDate > library.Rules.MaxAgeDays then
        ((true, "Exceeds maximum age"), w1)
      else ((false, ""), w1)
  else ((false, ""), w)

/-- The function `shouldMarkForDeletion`: the watched-by-all check, then the
maximum age check. -/
def shouldMarkForDeletion (w : World) (item : Item) (library : Library) :
    (Bool × String) × World :=
  if library.Rules.DeleteIfWatchedByAll then
    match IsWatchedByAllUsers w item.ID with
    | (some true, w1) => ((true, "Watched by all users"), w1)
    | (_, w1) => maxAgeCheck w1 item library
  else maxAgeCheck w item library

/-- The catalog delete of the deletion sequence ("Delete from Sonarr or Radarr
first"): `DeleteSeries` for the type `Series`, `DeleteMovie` for the type `Movie`,
no call for any other type. The flag is false when the call returned an error,
on which the loop body does `continue`. -/
def stepA (w : World) (item : Item) : Bool × World :=
  if item.Kind = "Series" then DeleteSeries w item.ExternalID
  else if item.Kind = "Movie" then DeleteMovie w item.ExternalID
  else (true, w)

/-- The deletion sequence of `processItemsDueForDeletion` for one marker of one
item: the body of the loop over `expirationTags`. -/
def sweepTag (cfg : Config) (item : Item) (w : World) (tag : String) : World :=
  match parseExpirationDate tag with
  | none => w
  | some expDate =>
    if w.now.After expDate then
      let a := stepA w item
      if a.1 then
        let w2 := (RemoveFromPlaylist a.2 item.ID cfg.HeadedOutPlaylist.Name).2
        let w3 := (RemoveTag w2 item.ID tag).2
        (JellyseerrRemove w3 item).2
      else a.2
    else w

/-- The loop over `expirationTags` for one item. -/
def sweepTags (cfg : Config) (item : Item) (tags : List String) (w : World) : World :=
  tags.foldl (sweepTag cfg item) w

/-- The body of the loop over `playlistItems`. -/
def sweepItem (cfg : Config) (w : World) (item : Item) : World :=
  let r := GetExpirationTags w item.ID
  sweepTags cfg item r.1 r.2

/-- The function `processItemsDueForDeletion`. -/
def processItemsDueForDeletion (cfg : Config) (w : World) : World :=
  match GetPlaylistItems w cfg.HeadedOutPlaylist.Name with
  | (none, w1) => w1
  | (some playlistItems, w1) => playlistItems.foldl (sweepItem cfg) w1

/-- The body of the loop over the items of a library in `processContent`. -/
def processItem (cfg : Config) (library : Library) (w : World) (item : Item) : World :=
  if isExcluded item.Name library.Exclusions then w
  else
    let r := shouldMarkForDeletion w item library
    if r.1.1 then
      let p := IsInPlaylist r.2 item.ID cfg.HeadedOutPlaylist.Name
      if !p.1 then
        let expirationDate := p.2.now.AddDate cfg.HeadedOutPlaylist.DeletionDelayDays
        let a := AddToPlaylist p.2 item.ID cfg.HeadedOutPlaylist.Name
        if a.1 then (AddTag a.2 item.ID (formatExpirationTag expirationDate)).2
        else a.2
      else p.2
    else
      let p := IsInPlaylist r.2 item.ID cfg.HeadedOutPlaylist.Name
      if p.1 then
        let w1 := (RemoveFromPlaylist p.2 item.ID cfg.HeadedOutPlaylist.Name).2
        let t := GetExpirationTags w1 item.ID
        t.1.foldl (fun w2 tag => (RemoveTag w2 item.ID tag).2) t.2
      else p.2

/-- The body of the loop over the libraries in `processContent`. -/
def processLibrary (cfg : Config) (w : World) (library : Library) : World :=
  match GetLibraryItems w library.Name with
  | (none, w1) => w1
  | (some items, w1) => items.foldl (processItem cfg library) w1

/-- The Reconciler pass: the loop over the libraries in `processContent`. -/
def reconcile (cfg : Config) (w : World) : World :=
  cfg.Libraries.foldl (processLibrary cfg) w

/-- The function `processContent`: the Reconciler pass, then the sweep. -/
def processContent (cfg : Config) (w : World) : World :=
  processItemsDueForDeletion cfg (reconcile cfg w)

/-- The expiration markers among the tags of an item: the tags that start with
the prefix of the codec. -/
def markersOf (w : World) (itemID : String) : List String :=
  (w.tags itemID).filter (fun tag => hasPrefix tag expireTagConst)

/-- Whether the item is a member of the staging playlist. -/
def isStaged (cfg : Config) (w : World) (itemID : String) : Bool :=
  match w.playlists cfg.HeadedOutPlaylist.Name with
  | none => false
  | some ids => ids.contains itemID

/-- The calls a run has added to the history of `w`. -/
def newCalls (w : World) (after : World) : List Call := after.trace.drop w.trace.length

/-- Whether a call of the sweep is made for the given playlist item: a Jellyfin
call with the id of the item, a catalog delete of the store of its type with its
external id, or a request broker removal of the item. -/
def Call.concerns (item : Item) : Call → Bool
  | .GetExpirationTags id _ => decide (id = item.ID)
  | .RemoveFromPlaylist id _ _ => decide (id = item.ID)
  | .RemoveTag id _ _ => decide (id = item.ID)
  | .DeleteSeries ext _ => decide (item.Kind = "Series" ∧ ext = item.ExternalID)
  | .DeleteMovie ext _ => decide (item.Kind = "Movie" ∧ ext = item.ExternalID)
  | .JellyseerrRemove it _ => decide (it = item)
  | _ => false

/-- A run from `w` to `w1` that only reads: the calls it adds are `cs`, none of
them a write to Jellyfin, and clock, fault schedule, playlists and tags are those
of the world before. -/
def readsOnly (w w1 : World) (cs : List Call) : Prop :=
  w1.trace = w.trace ++ cs ∧ (∀ c ∈ cs, c.isMutation = false) ∧
  w1.now = w.now ∧ w1.fault = w.fault ∧ w1.playlists = w.playlists ∧ w1.tags = w.tags

/-! ## Example data -/

/-- An example configuration: one library `TV` (delete when watched by all users
or older than 30 days), staging playlist `Headed Out`, 7 days of delay. -/
def exampleConfig : Config :=
  { Libraries := [{ Name := "TV", Kind := "series",
                    Rules := { DeleteIfWatchedByAll := true, MaxAgeDays := 30 },
                    Exclusions := ["Keep"] }],
    HeadedOutPlaylist := { Name := "Headed Out", CheckIntervalHours := 24,
                           DeletionDelayDays := 7 } }

/-- An example world at 2023-11-14T22:13:20Z: the series `s1` (TVDB id 42, Sonarr
id 7) and the episode `e1`, both in the staging playlist; `s1` is in the library
`TV`, added on 2023-11-03, not watched by the one user; no faults. -/
def exampleWorld : World :=
  { item := fun id => if id = "s1" then ⟨"Show", "Series", "42", ""⟩
      else ⟨"Pilot", "Episode", "", ""⟩
    libraries := fun n => if n = "TV" then some ["s1"] else none
    users := ["u1"]
    played := fun _ _ => false
    dateCreated := fun _ => some ⟨1699000000, 0, 0⟩
    now := ⟨1700000000, 0, 0⟩
    ageInDays := fun d => (1700000000 - d.sec) / 86400
    playlists := fun n => if n = "Headed Out" then some ["s1", "e1"] else none
    tags := fun _ => []
    series := [⟨7, 42⟩]
    movies := []
    fault := fun _ => false
    trace := [] }

/-- The library `TV` of the example configuration. -/
def exampleLibrary : Library :=
  { Name := "TV", Kind := "series", Rules := { DeleteIfWatchedByAll := true, MaxAgeDays := 30 },
    Exclusions := ["Keep"] }

/-- The example world with only `s1` staged, carrying the given tags. -/
def stagedWorld (tags : List String) : World :=
  { exampleWorld with
    playlists := fun n => if n = "Headed Out" then some ["s1"] else none
    tags := fun i => if i = "s1" then tags else [] }

/-- What the environment does between two passes in the example: every user has
played every item by then, and the clock reads 2023-11-15T22:13:20Z. -/
def watchedNextDay (w : World) : World :=
  { w with played := fun _ _ => true, now := ⟨1700086400, 0, 0⟩ }

/-- The playlist item `s1` of the example world. -/
def exampleSeries : Item := { ID := "s1", Name := "Show", Kind := "Series", ExternalID := "42" }

/-- The playlist item `e1` of the example world: its type is neither `Series` nor
`Movie`. -/
def exampleEpisode : Item := { ID := "e1", Name := "Pilot", Kind := "Episode", ExternalID := "" }

/-! ## Notions used by the statements about whole passes -/

/-- Go `Time.Format("2006-01-02")` of a calendar date. -/
def dateString (year month day : Int) : String :=
  String.mk (appendInt year 4 ++ ['-'] ++ appendInt month 2 ++ ['-'] ++ appendInt day 2)

/-- The Jellyfin item a call of the Reconciler is made for. -/
def Call.itemID : Call → Option String
  | .IsWatchedByAllUsers id _ => some id
  | .GetItemAddedDate id _ => some id
  | .IsInPlaylist id _ _ => some id
  | .AddToPlaylist id _ _ => some id
  | .RemoveFromPlaylist id _ _ => some id
  | .AddTag id _ _ => some id
  | .RemoveTag id _ _ => some id
  | .GetExpirationTags id _ => some id
  | _ => none

/-- Two worlds with the same surroundings: everything a pass reads but never
writes (items, libraries, users, watch state, added dates, clock, fault
schedule). -/
def sameEnv (w w1 : World) : Prop :=
  w1.item = w.item ∧ w1.libraries = w.libraries ∧ w1.users = w.users ∧
  w1.played = w.played ∧ w1.dateCreated = w.dateCreated ∧ w1.now = w.now ∧
  w1.ageInDays = w.ageInDays ∧ w1.fault = w.fault

/-- What `shouldMarkForDeletion` returns when no lookup fails in transport: the
two checks on the data of the world. -/
def verdict (w : World) (item : Item) (library : Library) : Bool × String :=
  if library.Rules.DeleteIfWatchedByAll = true ∧
      w.users.all (fun u => w.played item.ID u) = true then (true, "Watched by all users")
  else if library.Rules.MaxAgeDays > 0 then
    match w.dateCreated item.ID with
    | none => (false, "")
    | some d =>
      if w.ageInDays d > library.Rules.MaxAgeDays then (true, "Exceeds maximum age")
      else (false, "")
  else (false, "")

/-- The staging playlist lists no item twice. -/
def stagedOnce (cfg : Config) (w : World) : Prop :=
  ∀ ids, w.playlists cfg.HeadedOutPlaylist.Name = some ids → ids.Nodup

/-- A step of a pass made for the item `id`: the surroundings stay, every call
added is a call for that item, and staging membership and tags of every other
item are as before. -/
def stepFor (cfg : Config) (id : String) (w w1 : World) : Prop :=
  sameEnv w w1 ∧
  (∃ cs, w1.trace = w.trace ++ cs ∧ ∀ c ∈ cs, c.itemID = some id) ∧
  (∀ j, j ≠ id → isStaged cfg w1 j = isStaged cfg w j) ∧
  (∀ j, j ≠ id → w1.tags j = w.tags j)

/-- The example world with `s1` listed twice in the staging playlist. -/
def listedTwiceWorld : World :=
  { exampleWorld with
    playlists := fun n => if n = "Headed Out" then some ["s1", "s1"] else none }

/-- The example world with only `s1` staged and played by every user, and a
fault schedule under which exactly the third gateway call fails. -/
def thirdCallFails : World :=
  { stagedWorld [] with
    played := fun _ _ => true
    fault := fun n => decide (n = 2) }

/-- A configuration that lists the library `TV` twice, under two rules: delete
when watched by all users or older than 30 days, and never delete. -/
def twoRulesConfig : Config :=
  { Libraries := [exampleLibrary,
      { exampleLibrary with Rules := { DeleteIfWatchedByAll := false, MaxAgeDays := 0 } }],
    HeadedOutPlaylist := exampleConfig.HeadedOutPlaylist }

/-- The example world before anything is staged, with every user having played
`s1`, and a fault schedule under which exactly the fifth gateway call fails. -/
def fifthCallFails : World :=
  { exampleWorld with
    played := fun _ _ => true
    playlists := fun _ => none
    fault := fun n => decide (n = 4) }

/-- The example world before anything is staged, with every user having played
`s1`; no faults. -/
def watchedWorld : World :=
  { exampleWorld with
    played := fun _ _ => true
    playlists := fun _ => none }

/-- The example world with `s1` named `Keep`, a name the library `TV` excludes:
played by every user, staged, and carrying one marker. -/
def keepWorld : World :=
  { exampleWorld with
    item := fun id => if id = "s1" then ⟨"Keep", "Series", "42", ""⟩
      else ⟨"Pilot", "Episode", "", ""⟩
    played := fun _ _ => true
    tags := fun i => if i = "s1" then ["Jellycleaner-Expire-2023-11-10"] else [] }

/-- The world a pass leaves when its `AddTag` call failed, with a fault schedule
under which no later call fails. -/
def afterPartialFailure : World :=
  { reconcile exampleConfig fifthCallFails with fault := fun _ => false }

/-- The example configuration with a delay of 200000000000000 days. -/
def farDelayConfig : Config :=
  { exampleConfig with
    HeadedOutPlaylist := { Name := "Headed Out", CheckIntervalHours := 24,
                           DeletionDelayDays := 200000000000000 } }

/-- Whether a call is a write to Jellyfin made for the item `id`. -/
def Call.writesFor (id : String) (c : Call) : Bool :=
  c.isMutation && decide (c.itemID = some id)

/-- A point of a pass started in `w` at which the item `id` has not been staged:
the surroundings are those of `w`, the item is not a member of the staging
playlist, its tags are those of `w`, and no write has been made for it. -/
def notYetStaged (cfg : Config) (w : World) (id : String) (w1 : World) : Prop :=
  sameEnv w w1 ∧ isStaged cfg w1 id = false ∧ w1.tags id = w.tags id ∧
  ∃ cs, w1.trace = w.trace ++ cs ∧ cs.filter (Call.writesFor id) = []

/-- A point of a pass started in `w` at which the item `id` has been staged with
`marker`: the surroundings are those of `w`, the item is a member of the staging
playlist, its tags are those of `w` and then `marker`, and the writes made for it
are one `AddToPlaylist` and one `AddTag` of `marker`. -/
def stagedWith (cfg : Config) (w : World) (id marker : String) (w1 : World) : Prop :=
  sameEnv w w1 ∧ isStaged cfg w1 id = true ∧ w1.tags id = w.tags id ++ [marker] ∧
  ∃ cs, w1.trace = w.trace ++ cs ∧
    cs.filter (Call.writesFor id)
      = [Call.AddToPlaylist id cfg.HeadedOutPlaylist.Name true, Call.AddTag id marker true]

/-! # Theorems -/

/-! ## Calendar lemmas -/

theorem isLeap_iff (y : Int) :
    isLeap y = true ↔ (y % 4 = 0 ∧ (y % 100 ≠ 0 ∨ y % 400 = 0)) := by
  simp [isLeap]

theorem year_arith (d0 n400 d1 c n100 d2 n4 d3 k n1 y yd : Int)
    (h1 : n400 = d0 / 146097) (h2 : d1 = d0 - 146097 * n400)
    (h3 : c = d1 / 36524) (h4 : n100 = c - c / 4) (h5 : d2 = d1 - 36524 * n100)
    (h6 : n4 = d2 / 1461) (h7 : d3 = d2 - 1461 * n4)
    (h8 : k = d3 / 365) (h9 : n1 = k - k / 4)
    (hy : y = 400 * n400 + 100 * n100 + 4 * n4 + n1 + 1) (hyd : yd = d3 - 365 * n1) :
    0 ≤ yd ∧ yd ≤ 365 ∧
    (¬ (y % 4 = 0 ∧ (y % 100 ≠ 0 ∨ y % 400 = 0)) → yd ≤ 364) ∧
    (y - 1) / 400 = n400 ∧ (y - 1 - 400 * n400) / 100 = n100 ∧
    (y - 1 - 400 * n400 - 100 * n100) / 4 = n4 ∧
    146097 * n400 + 36524 * n100 + 1461 * n4 + 365 * n1 + yd = d0 := by
  have b1 : 0 ≤ d1 ∧ d1 ≤ 146096 := by omega
  have b2 : 0 ≤ c ∧ c ≤ 4 := by omega
  have b3 : 0 ≤ n100 ∧ n100 ≤ 3 := by omega
  have b4 : 0 ≤ d2 ∧ d2 ≤ 36524 ∧ (n100 ≤ 2 → d2 ≤ 36523) := by omega
  have b5 : 0 ≤ n4 ∧ n4 ≤ 24 := by omega
  have b6 : 0 ≤ d3 ∧ d3 ≤ 1460 ∧ (n4 = 24 → n100 ≤ 2 → d3 ≤ 1459) := by omega
  have b7 : 0 ≤ k ∧ k ≤ 4 := by omega
  have b8 : 0 ≤ n1 ∧ n1 ≤ 3 := by omega
  have b9 : 0 ≤ yd ∧ yd ≤ 365 ∧ (n1 ≤ 2 → yd ≤ 364) := by omega
  refine ⟨b9.1, b9.2.1, ?_, by omega, by omega, by omega, by omega⟩
  intro hn
  by_cases h3 : n1 ≤ 2
  · exact b9.2.2 h3
  · have e1 : n1 = 3 := by omega
    have e2 : n4 = 24 ∧ n100 ≤ 2 := by omega
    omega

/-- The year and day of year of a day number: the day lies within the year, and
the first day of the year plus the day of year is the day number. -/
theorem yearDayOf_spec (z : Int) :
    0 ≤ (yearDayOf z).yday ∧ (yearDayOf z).yday ≤ 365 ∧
    (isLeap (yearDayOf z).year = false → (yearDayOf z).yday ≤ 364) ∧
    daysSinceEpoch (yearDayOf z).year + (yearDayOf z).yday = z := by
  have h := year_arith (z + 719162) _ _ _ _ _ _ _ _ _ (yearDayOf z).year (yearDayOf z).yday
    rfl rfl rfl rfl rfl rfl rfl rfl rfl rfl rfl
  obtain ⟨h1, h2, h3, h4, h5, h6, h7⟩ := h
  refine ⟨h1, h2, ?_, ?_⟩
  · intro hl
    apply h3
    rw [← isLeap_iff, hl]
    simp
  · simp only [daysSinceEpoch]
    rw [h4, h5, h6]
    simp only [yearDayOf] at h7 ⊢
    omega

theorem daysBefore_table :
    daysBefore 0 = 0 ∧ daysBefore 1 = 31 ∧ daysBefore 2 = 59 ∧ daysBefore 3 = 90 ∧
    daysBefore 4 = 120 ∧ daysBefore 5 = 151 ∧ daysBefore 6 = 181 ∧ daysBefore 7 = 212 ∧
    daysBefore 8 = 243 ∧ daysBefore 9 = 273 ∧ daysBefore 10 = 304 ∧ daysBefore 11 = 334 ∧
    daysBefore 12 = 365 := by
  decide

/-- The month estimate is right for every day of a non-leap year. -/
theorem splitDay_spec (day : Int) (h0 : 0 ≤ day) (h1 : day ≤ 364) :
    1 ≤ (splitDay day).1 ∧ (splitDay day).1 ≤ 12 ∧ 1 ≤ (splitDay day).2 ∧
    (splitDay day).2 ≤ daysBefore (splitDay day).1 - daysBefore ((splitDay day).1 - 1) ∧
    daysBefore ((splitDay day).1 - 1) + ((splitDay day).2 - 1) = day := by
  obtain ⟨t0, t1, t2, t3, t4, t5, t6, t7, t8, t9, t10, t11, t12⟩ := daysBefore_table
  have hmo : day / 31 = 0 ∨ day / 31 = 1 ∨ day / 31 = 2 ∨ day / 31 = 3 ∨ day / 31 = 4 ∨
      day / 31 = 5 ∨ day / 31 = 6 ∨ day / 31 = 7 ∨ day / 31 = 8 ∨ day / 31 = 9 ∨
      day / 31 = 10 ∨ day / 31 = 11 := by omega
  unfold splitDay
  simp only []
  rcases hmo with h | h | h | h | h | h | h | h | h | h | h | h <;> rw [h] <;> norm_num <;>
    split_ifs <;> norm_num <;> omega

/-- Which months the two halves of a non-leap year fall in. -/
theorem splitDay_month (day : Int) (h0 : 0 ≤ day) (h1 : day ≤ 364) :
    (day < 59 → (splitDay day).1 ≤ 2) ∧ (59 ≤ day → 3 ≤ (splitDay day).1) := by
  obtain ⟨t0, t1, t2, t3, t4, t5, t6, t7, t8, t9, t10, t11, t12⟩ := daysBefore_table
  have hmo : day / 31 = 0 ∨ day / 31 = 1 ∨ day / 31 = 2 ∨ day / 31 = 3 ∨ day / 31 = 4 ∨
      day / 31 = 5 ∨ day / 31 = 6 ∨ day / 31 = 7 ∨ day / 31 = 8 ∨ day / 31 = 9 ∨
      day / 31 = 10 ∨ day / 31 = 11 := by omega
  unfold splitDay
  simp only []
  rcases hmo with h | h | h | h | h | h | h | h | h | h | h | h <;> rw [h] <;> norm_num <;>
    split_ifs <;> norm_num <;> omega

/-- The month and day of `monthDayOf` are a valid date of the year and give the
day of year back. -/
theorem monthDayOf_spec (year yday : Int) (h0 : 0 ≤ yday) (h1 : yday ≤ 365)
    (h2 : isLeap year = false → yday ≤ 364) :
    1 ≤ (monthDayOf year yday).1 ∧ (monthDayOf year yday).1 ≤ 12 ∧
    1 ≤ (monthDayOf year yday).2 ∧
    (monthDayOf year yday).2 ≤ daysIn (monthDayOf year yday).1 year ∧
    daysBefore ((monthDayOf year yday).1 - 1)
      + (if isLeap year = true ∧ (monthDayOf year yday).1 ≥ 3 then 1 else 0)
      + ((monthDayOf year yday).2 - 1) = yday := by
  obtain ⟨t0, t1, t2, t3, t4, t5, t6, t7, t8, t9, t10, t11, t12⟩ := daysBefore_table
  unfold monthDayOf daysIn
  cases hl : isLeap year
  · have hy := h2 hl
    simp only [Bool.false_eq_true, false_and, and_false, if_false]
    obtain ⟨a, b, c, d, e⟩ := splitDay_spec yday h0 hy
    exact ⟨a, b, c, d, by omega⟩
  · simp only [true_and, and_true]
    by_cases h59 : yday = 59
    · subst h59
      simp [t1]
    · simp only [h59, if_false]
      by_cases hgt : yday > 59
      · simp only [hgt, if_true]
        obtain ⟨a, b, c, d, e⟩ := splitDay_spec (yday - 1) (by omega) (by omega)
        obtain ⟨_, g⟩ := splitDay_month (yday - 1) (by omega) (by omega)
        have g3 := g (by omega)
        have hne : ¬ (splitDay (yday - 1)).1 = 2 := by omega
        simp only [hne, if_false, ge_iff_le, g3, if_true]
        exact ⟨a, b, c, d, by omega⟩
      · simp only [hgt, if_false]
        obtain ⟨a, b, c, d, e⟩ := splitDay_spec yday h0 (by omega)
        obtain ⟨g, _⟩ := splitDay_month yday h0 (by omega)
        have g2 := g (by omega)
        have hne : ¬ (3 ≤ (splitDay yday).1) := by omega
        simp only [ge_iff_le, hne, if_false]
        refine ⟨a, b, c, ?_, by omega⟩
        by_cases hm2 : (splitDay yday).1 = 2
        · rw [hm2] at d
          norm_num at d
          simp only [hm2, if_true]
          omega
        · simp only [hm2, if_false]
          exact d

/-- The calendar date of a day number is a valid date, and `daysFromCivil` maps it
back to the day number. -/
theorem civilFromDays_spec (z : Int) :
    1 ≤ (civilFromDays z).month ∧ (civilFromDays z).month ≤ 12 ∧
    1 ≤ (civilFromDays z).day ∧
    (civilFromDays z).day ≤ daysIn (civilFromDays z).month (civilFromDays z).year ∧
    daysFromCivil (civilFromDays z).year (civilFromDays z).month (civilFromDays z).day = z := by
  obtain ⟨a0, a1, a2, a3⟩ := yearDayOf_spec z
  obtain ⟨b0, b1, b2, b3, b4⟩ := monthDayOf_spec (yearDayOf z).year (yearDayOf z).yday a0 a1 a2
  simp only [civilFromDays]
  refine ⟨b0, b1, b2, b3, ?_⟩
  simp only [daysFromCivil]
  have e1 : ((monthDayOf (yearDayOf z).year (yearDayOf z).yday).1 - 1) / 12 = 0 := by omega
  have e2 : ((monthDayOf (yearDayOf z).year (yearDayOf z).yday).1 - 1) % 12 + 1
      = (monthDayOf (yearDayOf z).year (yearDayOf z).yday).1 := by omega
  rw [e1, e2, add_zero]
  omega

/-! ## Formatting and parsing lemmas -/

theorem digitChar_spec :
    ∀ n, n < 10 → isDigit (digitChar n) = true ∧ digitVal (digitChar n) = (n : Int) := by
  decide

theorem digitsAux_fuel (f : Nat) : ∀ n, n < f → digitsAux f n = digitsAux (n + 1) n := by
  induction f using Nat.strong_induction_on with
  | _ f ih =>
    intro n hn
    cases f with
    | zero => omega
    | succ f =>
      by_cases h10 : n < 10
      · simp [digitsAux, h10]
      · simp only [digitsAux, h10, if_false]
        have e1 : digitsAux f (n / 10) = digitsAux (n / 10 + 1) (n / 10) :=
          ih f (by omega) (n / 10) (by omega)
        have e2 : digitsAux n (n / 10) = digitsAux (n / 10 + 1) (n / 10) :=
          ih n (by omega) (n / 10) (by omega)
        rw [e1, e2]

theorem natDigits_small (n : Nat) (h : n < 10) : natDigits n = [digitChar n] := by
  simp [natDigits, digitsAux, h]

theorem natDigits_step (n : Nat) (h : 10 ≤ n) :
    natDigits n = natDigits (n / 10) ++ [digitChar (n % 10)] := by
  have h10 : ¬ n < 10 := by omega
  have e : digitsAux (n + 1) n = digitsAux n (n / 10) ++ [digitChar (n % 10)] := by
    simp [digitsAux, h10]
  unfold natDigits
  rw [e, digitsAux_fuel n (n / 10) (by omega)]

/-- A two-digit field: a number below 100 is written as its two digits. -/
theorem appendInt_two (x : Int) (h0 : 0 ≤ x) (h1 : x < 100) :
    appendInt x 2 = [digitChar (x.toNat / 10), digitChar (x.toNat % 10)] := by
  obtain ⟨n, rfl⟩ := Int.eq_ofNat_of_zero_le h0
  have hn : n < 100 := by omega
  have hneg : ¬ ((n : Int) < 0) := by omega
  simp only [appendInt, Int.natAbs_ofNat, Int.toNat_ofNat, hneg, if_false, List.nil_append]
  by_cases h10 : n < 10
  · rw [natDigits_small n h10]
    have : n / 10 = 0 := by omega
    have : n % 10 = n := by omega
    simp [*, List.replicate, digitChar]
  · rw [natDigits_step n (by omega), natDigits_small (n / 10) (by omega)]
    simp

/-- A four-digit field: a number below 10000 is written as its four digits. -/
theorem appendInt_four (x : Int) (h0 : 0 ≤ x) (h1 : x < 10000) :
    appendInt x 4 = [digitChar (x.toNat / 1000), digitChar (x.toNat / 100 % 10),
      digitChar (x.toNat / 10 % 10), digitChar (x.toNat % 10)] := by
  obtain ⟨n, rfl⟩ := Int.eq_ofNat_of_zero_le h0
  have hn : n < 10000 := by omega
  have hneg : ¬ ((n : Int) < 0) := by omega
  simp only [appendInt, Int.natAbs_ofNat, Int.toNat_ofNat, hneg, if_false, List.nil_append]
  by_cases h10 : n < 10
  · rw [natDigits_small n h10]
    have : n / 1000 = 0 := by omega
    have : n / 100 = 0 := by omega
    have : n / 10 = 0 := by omega
    have : n % 10 = n := by omega
    simp [*, List.replicate, digitChar]
  · by_cases h100 : n < 100
    · rw [natDigits_step n (by omega), natDigits_small (n / 10) (by omega)]
      have : n / 1000 = 0 := by omega
      have : n / 100 = 0 := by omega
      have : n / 10 % 10 = n / 10 := by omega
      simp [*, List.replicate, digitChar]
    · by_cases h1000 : n < 1000
      · rw [natDigits_step n (by omega), natDigits_step (n / 10) (by omega),
          natDigits_small (n / 10 / 10) (by omega)]
        have : n / 1000 = 0 := by omega
        have : n / 10 / 10 = n / 100 := by omega
        have : n / 100 % 10 = n / 100 := by omega
        simp [*, List.replicate, digitChar]
      · rw [natDigits_step n (by omega), natDigits_step (n / 10) (by omega),
          natDigits_step (n / 10 / 10) (by omega), natDigits_small (n / 10 / 10 / 10) (by omega)]
        have q1 : n / 10 / 10 / 10 = n / 1000 := by omega
        have q2 : n / 10 / 10 = n / 100 := by omega
        have q3 : n / 10 / 10 % 10 = n / 100 % 10 := by omega
        rw [q1, q3]
        simp

/-- Stripping the codec prefix from a tag that starts with it leaves the rest. -/
theorem dateStrOf_append (s : String) : dateStrOf (expireTagConst ++ s) = s := by
  simp [dateStrOf, trimPrefix, hasPrefix, String.data_append]

/-- Parsing a formatted date: for a valid date with a year of four digits,
`parseDate` returns midnight UTC of that date. -/
theorem parseDate_digits (y m d : Int) (hy0 : 0 ≤ y) (hy1 : y < 10000)
    (hm0 : 1 ≤ m) (hm1 : m ≤ 12) (hd0 : 1 ≤ d) (hd1 : d ≤ daysIn m y) :
    parseDate (String.mk (appendInt y 4 ++ ['-'] ++ appendInt m 2 ++ ['-'] ++ appendInt d 2))
      = some (mkDate y m d 0 0 0) := by
  have hd31 : d < 100 := by
    have : daysIn m y ≤ 31 := by
      obtain ⟨t0, t1, t2, t3, t4, t5, t6, t7, t8, t9, t10, t11, t12⟩ := daysBefore_table
      have hm : m = 1 ∨ m = 2 ∨ m = 3 ∨ m = 4 ∨ m = 5 ∨ m = 6 ∨ m = 7 ∨ m = 8 ∨ m = 9 ∨
        m = 10 ∨ m = 11 ∨ m = 12 := by omega
      unfold daysIn
      rcases hm with h | h | h | h | h | h | h | h | h | h | h | h <;> subst h <;>
        split_ifs <;> norm_num <;> omega
    omega
  rw [appendInt_four y hy0 hy1, appendInt_two m (by omega) (by omega),
    appendInt_two d (by omega) hd31]
  obtain ⟨a1, a2⟩ := digitChar_spec (y.toNat / 1000) (by omega)
  obtain ⟨b1, b2⟩ := digitChar_spec (y.toNat / 100 % 10) (by omega)
  obtain ⟨c1, c2⟩ := digitChar_spec (y.toNat / 10 % 10) (by omega)
  obtain ⟨e1, e2⟩ := digitChar_spec (y.toNat % 10) (by omega)
  obtain ⟨f1, f2⟩ := digitChar_spec (m.toNat / 10) (by omega)
  obtain ⟨g1, g2⟩ := digitChar_spec (m.toNat % 10) (by omega)
  obtain ⟨i1, i2⟩ := digitChar_spec (d.toNat / 10) (by omega)
  obtain ⟨j1, j2⟩ := digitChar_spec (d.toNat % 10) (by omega)
  have ey : (1000 : Int) * ((y.toNat / 1000 : Nat) : Int) + 100 * ((y.toNat / 100 % 10 : Nat) : Int)
      + 10 * ((y.toNat / 10 % 10 : Nat) : Int) + ((y.toNat % 10 : Nat) : Int) = y := by omega
  have em : (10 : Int) * ((m.toNat / 10 : Nat) : Int) + ((m.toNat % 10 : Nat) : Int) = m := by omega
  have ed : (10 : Int) * ((d.toNat / 10 : Nat) : Int) + ((d.toNat % 10 : Nat) : Int) = d := by omega
  simp only [parseDate, List.cons_append, List.nil_append, getYear, a1, b1, c1, e1, and_self,
    if_true, skipDash, getnum, f1, g1, i1, j1, a2, b2, c2, e2, f2, g2, i2, j2]
  have ey2 : ((y.toNat / 1000 : Nat) : Int) * 1000 + ((y.toNat / 100 % 10 : Nat) : Int) * 100
      + ((y.toNat / 10 % 10 : Nat) : Int) * 10 + ((y.toNat % 10 : Nat) : Int) = y := by omega
  have em2 : ((m.toNat / 10 : Nat) : Int) * 10 + ((m.toNat % 10 : Nat) : Int) = m := by omega
  have ed2 : ((d.toNat / 10 : Nat) : Int) * 10 + ((d.toNat % 10 : Nat) : Int) = d := by omega
  simp only [ey2, em2, ed2]
  have hmr : ¬ (m ≤ 0 ∨ 12 < m) := by omega
  have hdr : ¬ (d < 1 ∨ d > daysIn m y) := by omega
  simp only [hmr, i1, j1, i2, j2, ed2, Bool.true_eq_false, if_false, if_true, hdr, ne_eq,
    not_true_eq_false]

/-! ## Marker codec -/

/-- The date of a time and midnight UTC of that date are the same calendar date. -/
theorem mkDate_date (t : Time) :
    (mkDate t.date.year t.date.month t.date.day 0 0 0).date = t.date ∧
    (mkDate t.date.year t.date.month t.date.day 0 0 0).clock = 0 := by
  obtain ⟨_, _, _, _, h⟩ := civilFromDays_spec ((t.sec + t.offset) / 86400)
  simp only [Time.date, Time.clock, mkDate] at h ⊢
  rw [h]
  constructor
  · congr 1
    omega
  · omega

/-- C1, as amended: for every expiration time whose calendar year lies in 0..9999,
decoding the encoded marker succeeds and yields midnight UTC of the calendar date
of that time: same year, month and day, no time of day. -/
theorem marker_round_trip (t : Time) (h0 : 0 ≤ t.date.year) (h1 : t.date.year ≤ 9999) :
    ∃ p, parseExpirationDate (formatExpirationTag t) = some p ∧
      p.date = t.date ∧ p.clock = 0 ∧ p.nsec = 0 ∧ p.offset = 0 := by
  obtain ⟨m0, m1, d0, d1, _⟩ := civilFromDays_spec ((t.sec + t.offset) / 86400)
  refine ⟨mkDate t.date.year t.date.month t.date.day 0 0 0, ?_, (mkDate_date t).1,
    (mkDate_date t).2, rfl, rfl⟩
  unfold parseExpirationDate formatExpirationTag
  rw [dateStrOf_append]
  exact parseDate_digits _ _ _ h0 (by omega) m0 m1 d0 d1

/-- C1 witness: 2023-11-14T22:13:20Z. -/
theorem marker_round_trip_witness :
    ∃ p, parseExpirationDate (formatExpirationTag ⟨1700000000, 0, 0⟩) = some p ∧
      p.date = (⟨1700000000, 0, 0⟩ : Time).date ∧ p.clock = 0 ∧ p.nsec = 0 ∧ p.offset = 0 :=
  marker_round_trip ⟨1700000000, 0, 0⟩ (by decide) (by decide)

/-- C1 counterexample: midnight UTC of 10000-01-01 is encoded with a year of five
digits, `Jellycleaner-Expire-10000-01-01`, which the decoder rejects. -/
theorem marker_round_trip_fails_year_10000 :
    (⟨253402300800, 0, 0⟩ : Time).date = ⟨10000, 1, 1⟩ ∧
    formatExpirationTag ⟨253402300800, 0, 0⟩ = "Jellycleaner-Expire-10000-01-01" ∧
    parseExpirationDate (formatExpirationTag ⟨253402300800, 0, 0⟩) = none := by
  decide

/-! ## Eligibility evaluator -/

theorem IsWatchedByAllUsers_trace (w : World) (id : String) :
    (IsWatchedByAllUsers w id).2.trace
      = w.trace ++ [Call.IsWatchedByAllUsers id (IsWatchedByAllUsers w id).1] := by
  simp [IsWatchedByAllUsers, World.record]

theorem GetItemAddedDate_trace (w : World) (id : String) :
    (GetItemAddedDate w id).2.trace
      = w.trace ++ [Call.GetItemAddedDate id (GetItemAddedDate w id).1.isSome] := by
  simp [GetItemAddedDate, World.record]

theorem newCalls_append (w w1 : World) (cs : List Call) (h : w1.trace = w.trace ++ cs) :
    newCalls w w1 = cs := by
  simp [newCalls, h]

/-- The first check decides: the rule asks for the watched lookup and it returns
true. -/
theorem shouldMarkForDeletion_watched (w : World) (item : Item) (library : Library)
    (h1 : library.Rules.DeleteIfWatchedByAll = true)
    (h2 : (IsWatchedByAllUsers w item.ID).1 = some true) :
    shouldMarkForDeletion w item library
      = ((true, "Watched by all users"), (IsWatchedByAllUsers w item.ID).2) := by
  have e : IsWatchedByAllUsers w item.ID = (some true, (IsWatchedByAllUsers w item.ID).2) := by
    rw [← h2]
  unfold shouldMarkForDeletion
  rw [if_pos h1, e]

/-- The first check does not decide: the result is that of the maximum age check,
run after the watched lookup when the rule asks for one. -/
theorem shouldMarkForDeletion_not_watched (w : World) (item : Item) (library : Library)
    (hn : ¬ (library.Rules.DeleteIfWatchedByAll = true ∧
        (IsWatchedByAllUsers w item.ID).1 = some true)) :
    shouldMarkForDeletion w item library
      = maxAgeCheck (if library.Rules.DeleteIfWatchedByAll = true
          then (IsWatchedByAllUsers w item.ID).2 else w) item library := by
  by_cases h1 : library.Rules.DeleteIfWatchedByAll = true
  · have h2 : (IsWatchedByAllUsers w item.ID).1 ≠ some true := fun h => hn ⟨h1, h⟩
    unfold shouldMarkForDeletion
    rw [if_pos h1, if_pos h1]
    cases hr : IsWatchedByAllUsers w item.ID with
    | mk r w1 =>
      rw [hr] at h2
      cases r with
      | none => rfl
      | some b =>
        cases b with
        | true => exact absurd rfl h2
        | false => rfl
  · unfold shouldMarkForDeletion
    rw [if_neg h1, if_neg h1]

theorem maxAgeCheck_spec (w : World) (item : Item) (library : Library) :
    ((maxAgeCheck w item library).1 = (true, "Exceeds maximum age") ↔
      (library.Rules.MaxAgeDays > 0 ∧
        ∃ d, (GetItemAddedDate w item.ID).1 = some d ∧
          w.ageInDays d > library.Rules.MaxAgeDays)) ∧
    ((maxAgeCheck w item library).1 = (true, "Exceeds maximum age") ∨
      (maxAgeCheck w item library).1 = (false, "")) := by
  unfold maxAgeCheck
  by_cases hm : library.Rules.MaxAgeDays > 0
  · simp only [hm, if_true, true_and]
    cases hg : (GetItemAddedDate w item.ID).1 with
    | none =>
      have : GetItemAddedDate w item.ID = (none, (GetItemAddedDate w item.ID).2) := by
        rw [← hg]
      rw [this]
      simp
    | some d =>
      have e : GetItemAddedDate w item.ID = (some d, (GetItemAddedDate w item.ID).2) := by
        rw [← hg]
      have hage2 : (GetItemAddedDate w item.ID).2.ageInDays = w.ageInDays := by
        simp [GetItemAddedDate, World.record]
      rw [e]
      simp only [hage2]
      by_cases ha : w.ageInDays d > library.Rules.MaxAgeDays
      · simp [ha]
      · simp [ha]
  · simp [hm]

theorem maxAgeCheck_trace (w : World) (item : Item) (library : Library) :
    (maxAgeCheck w item library).2.trace
      = w.trace ++ (if library.Rules.MaxAgeDays > 0
          then [Call.GetItemAddedDate item.ID (GetItemAddedDate w item.ID).1.isSome] else []) := by
  unfold maxAgeCheck
  by_cases hm : library.Rules.MaxAgeDays > 0
  · simp only [hm, if_true]
    cases hg : (GetItemAddedDate w item.ID).1 with
    | none =>
      have e : GetItemAddedDate w item.ID = (none, (GetItemAddedDate w item.ID).2) := by
        rw [← hg]
      rw [e]
      simp only []
      rw [GetItemAddedDate_trace, hg]
    | some d =>
      have e : GetItemAddedDate w item.ID = (some d, (GetItemAddedDate w item.ID).2) := by
        rw [← hg]
      rw [e]
      simp only []
      split_ifs <;> rw [GetItemAddedDate_trace, hg]
  · simp [hm]

theorem IsWatchedByAllUsers_ageInDays (w : World) (id : String) :
    (IsWatchedByAllUsers w id).2.ageInDays = w.ageInDays := by
  simp [IsWatchedByAllUsers, World.record]

theorem afterWatched_ageInDays (w : World) (item : Item) (library : Library) :
    (if library.Rules.DeleteIfWatchedByAll = true
      then (IsWatchedByAllUsers w item.ID).2 else w).ageInDays = w.ageInDays := by
  split_ifs
  · exact IsWatchedByAllUsers_ageInDays w item.ID
  · rfl

/-- C6: the evaluator checks watched-by-all first and maximum age second. When
the rule has `DeleteIfWatchedByAll` and the watched lookup succeeds with true,
the item is eligible with reason watched-by-all and the only call made is that
lookup (the added date is not consulted). Otherwise the item is eligible, with
reason maximum age, exactly when `MaxAgeDays > 0`, the added-date lookup
succeeds and `ageInDays` is strictly greater than `MaxAgeDays`; and otherwise
the result is not eligible with the empty reason. With `DeleteIfWatchedByAll`
false and `MaxAgeDays` 0 every item is not eligible. -/
theorem shouldMarkForDeletion_reference (w : World) (item : Item) (library : Library) :
    (library.Rules.DeleteIfWatchedByAll = true →
      (IsWatchedByAllUsers w item.ID).1 = some true →
      (shouldMarkForDeletion w item library).1 = (true, "Watched by all users") ∧
      newCalls w (shouldMarkForDeletion w item library).2
        = [Call.IsWatchedByAllUsers item.ID (some true)]) ∧
    (¬ (library.Rules.DeleteIfWatchedByAll = true ∧
        (IsWatchedByAllUsers w item.ID).1 = some true) →
      ((shouldMarkForDeletion w item library).1 = (true, "Exceeds maximum age") ↔
        (library.Rules.MaxAgeDays > 0 ∧
          ∃ d, (GetItemAddedDate
              (if library.Rules.DeleteIfWatchedByAll = true then (IsWatchedByAllUsers w item.ID).2
                else w) item.ID).1 = some d ∧
            w.ageInDays d > library.Rules.MaxAgeDays)) ∧
      ((shouldMarkForDeletion w item library).1 = (true, "Exceeds maximum age") ∨
        (shouldMarkForDeletion w item library).1 = (false, ""))) ∧
    (library.Rules.DeleteIfWatchedByAll = false → library.Rules.MaxAgeDays = 0 →
      (shouldMarkForDeletion w item library).1 = (false, "")) := by
  refine ⟨?_, ?_, ?_⟩
  · intro h1 h2
    rw [shouldMarkForDeletion_watched w item library h1 h2]
    refine ⟨rfl, newCalls_append _ _ _ ?_⟩
    rw [IsWatchedByAllUsers_trace, h2]
  · intro hn
    rw [shouldMarkForDeletion_not_watched w item library hn]
    have h := maxAgeCheck_spec (if library.Rules.DeleteIfWatchedByAll = true
      then (IsWatchedByAllUsers w item.ID).2 else w) item library
    rw [afterWatched_ageInDays] at h
    exact h
  · intro h1 h2
    unfold shouldMarkForDeletion maxAgeCheck
    simp [h1, h2]

/-- C6 witness: in the example world with every user having played `s1`, the item
is eligible as watched by all, and the watched lookup is the only call. -/
theorem shouldMarkForDeletion_reference_witness :
    (shouldMarkForDeletion { exampleWorld with played := fun _ _ => true }
        exampleSeries exampleLibrary).1 = (true, "Watched by all users") ∧
    newCalls { exampleWorld with played := fun _ _ => true }
        (shouldMarkForDeletion { exampleWorld with played := fun _ _ => true }
          exampleSeries exampleLibrary).2
      = [Call.IsWatchedByAllUsers exampleSeries.ID (some true)] :=
  (shouldMarkForDeletion_reference { exampleWorld with played := fun _ _ => true }
    exampleSeries exampleLibrary).1 (by decide) (by decide)

/-- C7: the evaluator is fail-closed and total. When the watched lookup returns
an error the result is that of the maximum age check, run after it (with
`MaxAgeDays > 0` the added date is looked up next); when every lookup that is
consulted returns an error the item is not eligible; an eligible result always
rests on a lookup that succeeded; and the result is always one of the three
outcomes. -/
theorem shouldMarkForDeletion_fail_closed (w : World) (item : Item) (library : Library) :
    (library.Rules.DeleteIfWatchedByAll = true →
      (IsWatchedByAllUsers w item.ID).1 = none →
      shouldMarkForDeletion w item library
        = maxAgeCheck (IsWatchedByAllUsers w item.ID).2 item library ∧
      (library.Rules.MaxAgeDays > 0 →
        newCalls w (shouldMarkForDeletion w item library).2
          = [Call.IsWatchedByAllUsers item.ID none,
             Call.GetItemAddedDate item.ID
               (GetItemAddedDate (IsWatchedByAllUsers w item.ID).2 item.ID).1.isSome])) ∧
    ((library.Rules.DeleteIfWatchedByAll = true → (IsWatchedByAllUsers w item.ID).1 = none) →
      (library.Rules.MaxAgeDays > 0 →
        (GetItemAddedDate
          (if library.Rules.DeleteIfWatchedByAll = true then (IsWatchedByAllUsers w item.ID).2
            else w) item.ID).1 = none) →
      (shouldMarkForDeletion w item library).1 = (false, "")) ∧
    ((shouldMarkForDeletion w item library).1.1 = true →
      (library.Rules.DeleteIfWatchedByAll = true ∧
        (IsWatchedByAllUsers w item.ID).1 = some true) ∨
      (library.Rules.MaxAgeDays > 0 ∧
        ∃ d, (GetItemAddedDate
            (if library.Rules.DeleteIfWatchedByAll = true then (IsWatchedByAllUsers w item.ID).2
              else w) item.ID).1 = some d ∧
          w.ageInDays d > library.Rules.MaxAgeDays)) ∧
    ((shouldMarkForDeletion w item library).1 = (true, "Watched by all users") ∨
      (shouldMarkForDeletion w item library).1 = (true, "Exceeds maximum age") ∨
      (shouldMarkForDeletion w item library).1 = (false, "")) := by
  have hspec := maxAgeCheck_spec (if library.Rules.DeleteIfWatchedByAll = true
      then (IsWatchedByAllUsers w item.ID).2 else w) item library
  rw [afterWatched_ageInDays] at hspec
  refine ⟨?_, ?_, ?_, ?_⟩
  · intro h1 h2
    have hn : ¬ (library.Rules.DeleteIfWatchedByAll = true ∧
        (IsWatchedByAllUsers w item.ID).1 = some true) := by
      rw [h2]; simp
    have hs := shouldMarkForDeletion_not_watched w item library hn
    rw [if_pos h1] at hs
    refine ⟨hs, ?_⟩
    intro hm
    apply newCalls_append
    rw [hs, maxAgeCheck_trace, if_pos hm, IsWatchedByAllUsers_trace, h2]
    simp
  · intro h1 h2
    have hn : ¬ (library.Rules.DeleteIfWatchedByAll = true ∧
        (IsWatchedByAllUsers w item.ID).1 = some true) := by
      intro h
      rw [h1 h.1] at h
      simp at h
    rw [shouldMarkForDeletion_not_watched w item library hn]
    rcases hspec.2 with h | h
    · obtain ⟨hm, d, hd, _⟩ := hspec.1.mp h
      rw [h2 hm] at hd
      simp at hd
    · exact h
  · intro he
    by_cases hw : library.Rules.DeleteIfWatchedByAll = true ∧
        (IsWatchedByAllUsers w item.ID).1 = some true
    · exact Or.inl hw
    · right
      rw [shouldMarkForDeletion_not_watched w item library hw] at he
      rcases hspec.2 with h | h
      · exact hspec.1.mp h
      · rw [h] at he
        simp at he
  · by_cases hw : library.Rules.DeleteIfWatchedByAll = true ∧
        (IsWatchedByAllUsers w item.ID).1 = some true
    · left
      rw [shouldMarkForDeletion_watched w item library hw.1 hw.2]
    · right
      rw [shouldMarkForDeletion_not_watched w item library hw]
      exact hspec.2

/-- C7 witness: in the example world with every user having played `s1`, added
more than 30 days before, and Jellyfin unreachable, both lookups fail and the
item is not eligible. -/
theorem shouldMarkForDeletion_fail_closed_witness :
    (shouldMarkForDeletion
        { exampleWorld with played := fun _ _ => true, dateCreated := fun _ => some ⟨0, 0, 0⟩,
                            fault := fun _ => true }
        exampleSeries exampleLibrary).1 = (false, "") :=
  (shouldMarkForDeletion_fail_closed
    { exampleWorld with played := fun _ _ => true, dateCreated := fun _ => some ⟨0, 0, 0⟩,
                        fault := fun _ => true }
    exampleSeries exampleLibrary).2.1 (fun _ => by decide) (fun _ => by decide)

/-! ## Sweep executor -/

/-- What the catalog delete leaves untouched, and the calls it adds: none for a
type other than `Series` and `Movie`, one catalog delete otherwise. -/
theorem stepA_shape (w : World) (item : Item) :
    (stepA w item).2.now = w.now ∧ (stepA w item).2.fault = w.fault ∧
    (stepA w item).2.item = w.item ∧ (stepA w item).2.playlists = w.playlists ∧
    (stepA w item).2.tags = w.tags ∧
    ((item.Kind = "Series" ∧ (stepA w item).2.trace
        = w.trace ++ [Call.DeleteSeries item.ExternalID (stepA w item).1]) ∨
     (item.Kind ≠ "Series" ∧ item.Kind = "Movie" ∧ (stepA w item).2.trace
        = w.trace ++ [Call.DeleteMovie item.ExternalID (stepA w item).1]) ∨
     (item.Kind ≠ "Series" ∧ item.Kind ≠ "Movie" ∧ (stepA w item).1 = true ∧
        (stepA w item).2 = w)) := by
  unfold stepA
  by_cases hs : item.Kind = "Series"
  · simp only [hs, if_true]
    unfold DeleteSeries
    cases atoi item.ExternalID with
    | none => simp [World.record]
    | some n =>
      by_cases hf : w.faulty = true
      · simp [World.record, hf]
      · cases hfind : w.series.find? (fun s => s.TVDBID = n) with
        | none => simp [World.record, hf, hfind]
        | some s => simp [World.record, hf, hfind]
  · by_cases hm : item.Kind = "Movie"
    · simp only [hs, hm, if_true, if_false]
      unfold DeleteMovie
      cases atoi item.ExternalID with
      | none => simp [World.record]
      | some n =>
        by_cases hf : w.faulty = true
        · simp [World.record, hf]
        · cases hfind : w.movies.find? (fun s => s.TMDBID = n) with
          | none => simp [World.record, hf, hfind]
          | some s => simp [World.record, hf, hfind]
    · simp [hs, hm]

theorem RemoveFromPlaylist_shape (w : World) (id name : String) :
    (RemoveFromPlaylist w id name).2.now = w.now ∧
    (RemoveFromPlaylist w id name).2.fault = w.fault ∧
    (RemoveFromPlaylist w id name).2.item = w.item ∧
    (RemoveFromPlaylist w id name).2.tags = w.tags ∧
    (RemoveFromPlaylist w id name).2.trace
      = w.trace ++ [Call.RemoveFromPlaylist id name (RemoveFromPlaylist w id name).1] := by
  unfold RemoveFromPlaylist
  by_cases hf : w.faulty = true
  · simp [World.record, hf]
  · cases hp : w.playlists name with
    | none => simp [World.record, hf, hp]
    | some ids =>
      by_cases hc : id ∈ ids
      · simp [World.record, hf, hp, hc]
      · simp [World.record, hf, hp, hc]

theorem RemoveTag_shape (w : World) (id tag : String) :
    (RemoveTag w id tag).2.now = w.now ∧ (RemoveTag w id tag).2.fault = w.fault ∧
    (RemoveTag w id tag).2.item = w.item ∧
    (RemoveTag w id tag).2.playlists = w.playlists ∧
    (RemoveTag w id tag).2.trace
      = w.trace ++ [Call.RemoveTag id tag (RemoveTag w id tag).1] := by
  unfold RemoveTag
  by_cases hf : w.faulty = true
  · simp [World.record, hf]
  · simp [World.record, hf]

theorem JellyseerrRemove_shape (w : World) (item : Item) :
    (JellyseerrRemove w item).2.now = w.now ∧ (JellyseerrRemove w item).2.fault = w.fault ∧
    (JellyseerrRemove w item).2.item = w.item ∧
    (JellyseerrRemove w item).2.playlists = w.playlists ∧
    (JellyseerrRemove w item).2.tags = w.tags ∧
    (JellyseerrRemove w item).2.trace
      = w.trace ++ [Call.JellyseerrRemove item (JellyseerrRemove w item).1] := by
  simp [JellyseerrRemove, World.record]

theorem append_three {α : Type} (l : List α) (a b c : α) :
    l ++ [a] ++ [b] ++ [c] = l ++ [a, b, c] := by
  simp

theorem append_four {α : Type} (l : List α) (a b c d : α) :
    l ++ [a] ++ [b] ++ [c] ++ [d] = l ++ [a, b, c, d] := by
  simp

/-- The three ways through the loop body for one marker: skipped (the marker
does not decode, or is not due), aborted after a failed catalog delete, or run
to the end. -/
theorem sweepTag_cases (cfg : Config) (item : Item) (w : World) (tag : String) :
    ((parseExpirationDate tag = none ∨
        ∃ d, parseExpirationDate tag = some d ∧ w.now.After d = false) ∧
      sweepTag cfg item w tag = w) ∨
    ((∃ d, parseExpirationDate tag = some d ∧ w.now.After d = true) ∧
      (stepA w item).1 = false ∧ sweepTag cfg item w tag = (stepA w item).2) ∨
    ((∃ d, parseExpirationDate tag = some d ∧ w.now.After d = true) ∧
      (stepA w item).1 = true ∧
      sweepTag cfg item w tag
        = (JellyseerrRemove (RemoveTag (RemoveFromPlaylist (stepA w item).2 item.ID
            cfg.HeadedOutPlaylist.Name).2 item.ID tag).2 item).2) := by
  unfold sweepTag
  cases hp : parseExpirationDate tag with
  | none => simp
  | some d =>
    by_cases hdue : w.now.After d = true
    · by_cases ha : (stepA w item).1 = true
      · right; right
        simp [hdue, ha]
      · right; left
        simp [hdue, ha]
    · left
      simp [hdue]

/-- The calls the loop body adds for one marker: the clock is not touched, and a
catalog delete among them is a delete by the external id of the item, for a
marker that decodes to a date the clock is after. -/
theorem sweepTag_trace (cfg : Config) (item : Item) (w : World) (tag : String) :
    (sweepTag cfg item w tag).now = w.now ∧
    ∃ cs, (sweepTag cfg item w tag).trace = w.trace ++ cs ∧
      ∀ c ∈ cs, c.concerns item = true ∧ (c.isCatalogDelete = true →
        (∃ ok, c = Call.DeleteSeries item.ExternalID ok ∨
          c = Call.DeleteMovie item.ExternalID ok) ∧
        ∃ d, parseExpirationDate tag = some d ∧ w.now.After d = true) := by
  obtain ⟨a1, a2, a3, a4, a5, a6⟩ := stepA_shape w item
  rcases sweepTag_cases cfg item w tag with ⟨_, h⟩ | ⟨hd, hf, h⟩ | ⟨hd, ht, h⟩
  · rw [h]
    exact ⟨rfl, [], by simp, by simp⟩
  · rw [h]
    refine ⟨a1, ?_⟩
    rcases a6 with ⟨k, e⟩ | ⟨_, k, e⟩ | ⟨_, _, e, _⟩
    · exact ⟨_, e, by
        intro c hc
        simp only [List.mem_singleton] at hc
        exact ⟨by rw [hc]; simp [Call.concerns, k], fun _ => ⟨⟨_, Or.inl hc⟩, hd⟩⟩⟩
    · exact ⟨_, e, by
        intro c hc
        simp only [List.mem_singleton] at hc
        exact ⟨by rw [hc]; simp [Call.concerns, k], fun _ => ⟨⟨_, Or.inr hc⟩, hd⟩⟩⟩
    · rw [e] at hf
      simp at hf
  · rw [h]
    obtain ⟨b1, b2, b3, b4, b5⟩ := RemoveFromPlaylist_shape (stepA w item).2 item.ID
      cfg.HeadedOutPlaylist.Name
    obtain ⟨c1, c2, c3, c4, c5⟩ := RemoveTag_shape (RemoveFromPlaylist (stepA w item).2 item.ID
      cfg.HeadedOutPlaylist.Name).2 item.ID tag
    obtain ⟨d1, d2, d3, d4, d5, d6⟩ := JellyseerrRemove_shape (RemoveTag (RemoveFromPlaylist
      (stepA w item).2 item.ID cfg.HeadedOutPlaylist.Name).2 item.ID tag).2 item
    refine ⟨by rw [d1, c1, b1, a1], ?_⟩
    rw [d6, c5, b5]
    rcases a6 with ⟨k, e⟩ | ⟨_, k, e⟩ | ⟨_, _, _, e⟩
    · rw [e]
      refine ⟨_, append_four _ _ _ _ _, ?_⟩
      intro c hc
      simp only [List.mem_cons, List.mem_singleton, List.not_mem_nil, or_false] at hc
      rcases hc with hc | hc | hc | hc
      · exact ⟨by rw [hc]; simp [Call.concerns, k], fun _ => ⟨⟨_, Or.inl hc⟩, hd⟩⟩
      · rw [hc]; simp [Call.isCatalogDelete, Call.concerns]
      · rw [hc]; simp [Call.isCatalogDelete, Call.concerns]
      · rw [hc]; simp [Call.isCatalogDelete, Call.concerns]
    · rw [e]
      refine ⟨_, append_four _ _ _ _ _, ?_⟩
      intro c hc
      simp only [List.mem_cons, List.mem_singleton, List.not_mem_nil, or_false] at hc
      rcases hc with hc | hc | hc | hc
      · exact ⟨by rw [hc]; simp [Call.concerns, k], fun _ => ⟨⟨_, Or.inr hc⟩, hd⟩⟩
      · rw [hc]; simp [Call.isCatalogDelete, Call.concerns]
      · rw [hc]; simp [Call.isCatalogDelete, Call.concerns]
      · rw [hc]; simp [Call.isCatalogDelete, Call.concerns]
    · rw [e]
      refine ⟨_, append_three _ _ _ _, ?_⟩
      intro c hc
      simp only [List.mem_cons, List.mem_singleton, List.not_mem_nil, or_false] at hc
      rcases hc with hc | hc | hc
      · rw [hc]; simp [Call.isCatalogDelete, Call.concerns]
      · rw [hc]; simp [Call.isCatalogDelete, Call.concerns]
      · rw [hc]; simp [Call.isCatalogDelete, Call.concerns]

/-- The calls the marker loop of one item adds. -/
theorem sweepTags_trace (cfg : Config) (item : Item) (tags : List String) :
    ∀ w : World, (sweepTags cfg item tags w).now = w.now ∧
    ∃ cs, (sweepTags cfg item tags w).trace = w.trace ++ cs ∧
      ∀ c ∈ cs, c.concerns item = true ∧ (c.isCatalogDelete = true →
        (∃ ok, c = Call.DeleteSeries item.ExternalID ok ∨
          c = Call.DeleteMovie item.ExternalID ok) ∧
        ∃ tag ∈ tags, ∃ d, parseExpirationDate tag = some d ∧ w.now.After d = true) := by
  induction tags with
  | nil =>
    intro w
    exact ⟨rfl, [], by simp [sweepTags], by simp⟩
  | cons tag rest ih =>
    intro w
    obtain ⟨n1, cs1, e1, p1⟩ := sweepTag_trace cfg item w tag
    obtain ⟨n2, cs2, e2, p2⟩ := ih (sweepTag cfg item w tag)
    have hs : sweepTags cfg item (tag :: rest) w
        = sweepTags cfg item rest (sweepTag cfg item w tag) := by
      simp [sweepTags]
    rw [hs]
    refine ⟨by rw [n2, n1], cs1 ++ cs2, by rw [e2, e1, List.append_assoc], ?_⟩
    intro c hc
    rcases List.mem_append.mp hc with h | h
    · refine ⟨(p1 c h).1, fun hcd => ?_⟩
      obtain ⟨q1, d, q2, q3⟩ := (p1 c h).2 hcd
      exact ⟨q1, tag, by simp, d, q2, q3⟩
    · refine ⟨(p2 c h).1, fun hcd => ?_⟩
      obtain ⟨q1, t, ht, d, q2, q3⟩ := (p2 c h).2 hcd
      rw [n1] at q3
      exact ⟨q1, t, by simp [ht], d, q2, q3⟩

theorem After_le (t u : Time) (h : t.After u = true) : u.sec ≤ t.sec := by
  simp only [Time.After, decide_eq_true_eq] at h
  omega

/-- C4: a failed catalog delete aborts the sequence for that marker. For a due
marker, when the catalog delete returns an error (which only `DeleteSeries` and
`DeleteMovie` can), the loop body makes that one call and no other: no
`RemoveFromPlaylist`, no `RemoveTag`, no request broker removal; playlists and
tags are as before. -/
theorem stepA_failure_aborts (cfg : Config) (item : Item) (w : World) (tag : String) (d : Time)
    (hp : parseExpirationDate tag = some d) (hdue : w.now.After d = true)
    (hfail : (stepA w item).1 = false) :
    (item.Kind = "Series" ∨ item.Kind = "Movie") ∧
    (newCalls w (sweepTag cfg item w tag) = [Call.DeleteSeries item.ExternalID false] ∨
      newCalls w (sweepTag cfg item w tag) = [Call.DeleteMovie item.ExternalID false]) ∧
    (∀ c ∈ newCalls w (sweepTag cfg item w tag), c.isBookkeeping = false) ∧
    (sweepTag cfg item w tag).playlists = w.playlists ∧
    (sweepTag cfg item w tag).tags = w.tags := by
  obtain ⟨a1, a2, a3, a4, a5, a6⟩ := stepA_shape w item
  have hs : sweepTag cfg item w tag = (stepA w item).2 := by
    rcases sweepTag_cases cfg item w tag with ⟨h, _⟩ | ⟨_, _, h⟩ | ⟨_, ht, _⟩
    · rcases h with h | ⟨d2, h1, h2⟩
      · rw [hp] at h; simp at h
      · rw [hp] at h1
        simp only [Option.some.injEq] at h1
        rw [← h1, hdue] at h2
        simp at h2
    · exact h
    · rw [hfail] at ht; simp at ht
  rw [hs]
  rcases a6 with ⟨k, e⟩ | ⟨_, k, e⟩ | ⟨_, _, e, _⟩
  · rw [hfail] at e
    rw [newCalls_append w _ _ e]
    exact ⟨Or.inl k, Or.inl rfl, by simp [Call.isBookkeeping], a4, a5⟩
  · rw [hfail] at e
    rw [newCalls_append w _ _ e]
    exact ⟨Or.inr k, Or.inr rfl, by simp [Call.isBookkeeping], a4, a5⟩
  · rw [hfail] at e
    simp at e

/-- C4 witness: in the example world with Sonarr unreachable, the due marker of
`s1` leads to one failed `DeleteSeries` call and nothing else. -/
theorem stepA_failure_aborts_witness :
    newCalls { exampleWorld with fault := fun _ => true }
      (sweepTag exampleConfig exampleSeries { exampleWorld with fault := fun _ => true }
        "Jellycleaner-Expire-2020-01-01") = [Call.DeleteSeries "42" false] ∨
    newCalls { exampleWorld with fault := fun _ => true }
      (sweepTag exampleConfig exampleSeries { exampleWorld with fault := fun _ => true }
        "Jellycleaner-Expire-2020-01-01") = [Call.DeleteMovie "42" false] :=
  (stepA_failure_aborts exampleConfig exampleSeries { exampleWorld with fault := fun _ => true }
    "Jellycleaner-Expire-2020-01-01" ⟨1577836800, 0, 0⟩ (by decide) (by decide) (by decide)).2.1

theorem GetExpirationTags_shape (w : World) (id : String) :
    (GetExpirationTags w id).2.now = w.now ∧ (GetExpirationTags w id).2.fault = w.fault ∧
    (GetExpirationTags w id).2.item = w.item ∧
    (GetExpirationTags w id).2.playlists = w.playlists ∧
    (GetExpirationTags w id).2.tags = w.tags ∧
    (GetExpirationTags w id).2.trace
      = w.trace ++ [Call.GetExpirationTags id (GetExpirationTags w id).1] := by
  simp [GetExpirationTags, World.record]

theorem RemoveTag_tags_subset (w : World) (id tag : String) (i t : String)
    (h : t ∈ (RemoveTag w id tag).2.tags i) : t ∈ w.tags i := by
  unfold RemoveTag at h
  by_cases hf : w.faulty = true
  · simpa [hf, World.record] using h
  · by_cases hi : i = id
    · subst hi
      simp only [hf, World.record, if_true, Bool.false_eq_true, if_false, List.mem_filter] at h
      exact h.1
    · simpa [hf, World.record, hi] using h

/-- The loop body for one marker removes tags at most. -/
theorem sweepTag_tags_subset (cfg : Config) (item : Item) (w : World) (tag : String)
    (i t : String) (h : t ∈ (sweepTag cfg item w tag).tags i) : t ∈ w.tags i := by
  obtain ⟨_, _, _, _, a5, _⟩ := stepA_shape w item
  rcases sweepTag_cases cfg item w tag with ⟨_, e⟩ | ⟨_, _, e⟩ | ⟨_, _, e⟩
  · rw [e] at h
    exact h
  · rw [e, a5] at h
    exact h
  · obtain ⟨_, _, _, b4, _⟩ := RemoveFromPlaylist_shape (stepA w item).2 item.ID
      cfg.HeadedOutPlaylist.Name
    obtain ⟨_, _, _, _, d5, _⟩ := JellyseerrRemove_shape (RemoveTag (RemoveFromPlaylist
      (stepA w item).2 item.ID cfg.HeadedOutPlaylist.Name).2 item.ID tag).2 item
    rw [e, d5] at h
    have h2 := RemoveTag_tags_subset _ _ _ _ _ h
    rw [b4, a5] at h2
    exact h2

theorem sweepTags_tags_subset (cfg : Config) (item : Item) (tags : List String) :
    ∀ (w : World) (i t : String), t ∈ (sweepTags cfg item tags w).tags i → t ∈ w.tags i := by
  induction tags with
  | nil =>
    intro w i t h
    exact h
  | cons tag rest ih =>
    intro w i t h
    have hs : sweepTags cfg item (tag :: rest) w
        = sweepTags cfg item rest (sweepTag cfg item w tag) := by
      simp [sweepTags]
    rw [hs] at h
    exact sweepTag_tags_subset cfg item w tag i t (ih _ i t h)

/-- The visit of one playlist item: the clock is not touched, tags are removed at
most, and a catalog delete is backed by a tag of the item that decodes to a date
the clock is after. -/
theorem sweepItem_deletes (cfg : Config) (w : World) (item : Item) :
    (sweepItem cfg w item).now = w.now ∧
    (∀ i t, t ∈ (sweepItem cfg w item).tags i → t ∈ w.tags i) ∧
    ∃ cs, (sweepItem cfg w item).trace = w.trace ++ cs ∧
      ∀ c ∈ cs, c.isCatalogDelete = true →
        ∃ tag ∈ w.tags item.ID, ∃ d, parseExpirationDate tag = some d ∧
          w.now.After d = true := by
  obtain ⟨g1, _, _, _, g5, g6⟩ := GetExpirationTags_shape w item.ID
  obtain ⟨n, cs, e2, p⟩ := sweepTags_trace cfg item (GetExpirationTags w item.ID).1
    (GetExpirationTags w item.ID).2
  have hsub : ∀ tag ∈ (GetExpirationTags w item.ID).1, tag ∈ w.tags item.ID := by
    intro tag ht
    unfold GetExpirationTags at ht
    by_cases hf : w.faulty = true
    · simp [hf] at ht
    · simp only [hf, Bool.false_eq_true, if_false, List.mem_filter] at ht
      exact ht.1
  refine ⟨?_, ?_, Call.GetExpirationTags item.ID (GetExpirationTags w item.ID).1 :: cs, ?_, ?_⟩
  · unfold sweepItem
    simp only []
    rw [n, g1]
  · intro i t h
    unfold sweepItem at h
    have h2 := sweepTags_tags_subset cfg item _ _ i t h
    rw [g5] at h2
    exact h2
  · unfold sweepItem
    simp only []
    rw [e2, g6]
    simp
  · intro c hc hcd
    rcases List.mem_cons.mp hc with h | h
    · rw [h] at hcd
      simp [Call.isCatalogDelete] at hcd
    · obtain ⟨_, tag, ht, d, q2, q3⟩ := (p c h).2 hcd
      rw [g1] at q3
      exact ⟨tag, hsub tag ht, d, q2, q3⟩

/-- The loop over the playlist items, seen from the world it starts in. -/
theorem sweepItems_deletes (cfg : Config) (items : List Item) :
    ∀ w : World, (items.foldl (sweepItem cfg) w).now = w.now ∧
    (∀ i t, t ∈ (items.foldl (sweepItem cfg) w).tags i → t ∈ w.tags i) ∧
    ∃ cs, (items.foldl (sweepItem cfg) w).trace = w.trace ++ cs ∧
      ∀ c ∈ cs, c.isCatalogDelete = true →
        ∃ it ∈ items, ∃ tag ∈ w.tags it.ID, ∃ d, parseExpirationDate tag = some d ∧
          w.now.After d = true := by
  induction items with
  | nil =>
    intro w
    exact ⟨rfl, fun _ _ h => h, [], by simp, by simp⟩
  | cons item rest ih =>
    intro w
    obtain ⟨n1, s1, cs1, e1, p1⟩ := sweepItem_deletes cfg w item
    obtain ⟨n2, s2, cs2, e2, p2⟩ := ih (sweepItem cfg w item)
    simp only [List.foldl_cons]
    refine ⟨by rw [n2, n1], fun i t h => s1 i t (s2 i t h), cs1 ++ cs2,
      by rw [e2, e1, List.append_assoc], ?_⟩
    intro c hc hcd
    rcases List.mem_append.mp hc with h | h
    · obtain ⟨tag, ht, d, q2, q3⟩ := p1 c h hcd
      exact ⟨item, by simp, tag, ht, d, q2, q3⟩
    · obtain ⟨it, hit, tag, ht, d, q2, q3⟩ := p2 c h hcd
      rw [n1] at q3
      exact ⟨it, by simp [hit], tag, s1 _ _ ht, d, q2, q3⟩

/-- The whole sweep: a catalog delete is backed by a member of the staging
playlist carrying a tag that decodes to a date the clock is after. -/
theorem processItemsDueForDeletion_deletes (cfg : Config) (w : World) :
    ∀ c ∈ newCalls w (processItemsDueForDeletion cfg w), c.isCatalogDelete = true →
      ∃ id, isStaged cfg w id = true ∧ ∃ tag ∈ w.tags id, ∃ d,
        parseExpirationDate tag = some d ∧ w.now.After d = true := by
  unfold processItemsDueForDeletion
  by_cases hf : w.faulty = true
  · simp [GetPlaylistItems, hf, World.record, newCalls, Call.isCatalogDelete]
  · cases hp : w.playlists cfg.HeadedOutPlaylist.Name with
    | none => simp [GetPlaylistItems, hf, hp, World.record, newCalls, Call.isCatalogDelete]
    | some ids =>
      have hg : GetPlaylistItems w cfg.HeadedOutPlaylist.Name
          = (some (ids.map (toItem w)),
              w.record (Call.GetPlaylistItems cfg.HeadedOutPlaylist.Name true)) := by
        simp [GetPlaylistItems, hf, hp]
      rw [hg]
      simp only []
      obtain ⟨_, _, cs, e, p⟩ := sweepItems_deletes cfg (ids.map (toItem w))
        (w.record (Call.GetPlaylistItems cfg.HeadedOutPlaylist.Name true))
      have e2 : ((ids.map (toItem w)).foldl (sweepItem cfg)
          (w.record (Call.GetPlaylistItems cfg.HeadedOutPlaylist.Name true))).trace
          = w.trace ++ (Call.GetPlaylistItems cfg.HeadedOutPlaylist.Name true :: cs) := by
        rw [e]
        simp [World.record]
      rw [newCalls_append w _ _ e2]
      intro c hc hcd
      rcases List.mem_cons.mp hc with h | h
      · rw [h] at hcd
        simp [Call.isCatalogDelete] at hcd
      · obtain ⟨it, hit, tag, ht, d, q2, q3⟩ := p c h hcd
        obtain ⟨id, hid, rfl⟩ := List.mem_map.mp hit
        refine ⟨id, by simp [isStaged, hp, hid], tag, ?_, d, q2, ?_⟩
        · simpa [World.record, toItem] using ht
        · simpa [World.record] using q3

/-- C2: sweep safety. A catalog delete issued by `processItemsDueForDeletion` is
backed by a member of the staging playlist that carries a tag which decodes and
whose date the clock is after (so the date is at or before now). The same on the
marker loop for one staged item and any list of markers it runs over: every
catalog delete is a delete by the external id of that item and is backed by a
marker of the list that decodes and whose date the clock is after; and when no
marker that decodes has a date before now, no catalog delete is issued. -/
theorem sweep_safety (cfg : Config) (item : Item) (tags : List String) (w : World) :
    (∀ c ∈ newCalls w (processItemsDueForDeletion cfg w), c.isCatalogDelete = true →
      ∃ id, isStaged cfg w id = true ∧ ∃ tag ∈ w.tags id, ∃ d,
        parseExpirationDate tag = some d ∧ w.now.After d = true ∧ d.sec ≤ w.now.sec) ∧
    (∀ c ∈ newCalls w (sweepTags cfg item tags w), c.isCatalogDelete = true →
      (∃ ok, c = Call.DeleteSeries item.ExternalID ok ∨
        c = Call.DeleteMovie item.ExternalID ok) ∧
      ∃ tag ∈ tags, ∃ d, parseExpirationDate tag = some d ∧ w.now.After d = true ∧
        d.sec ≤ w.now.sec) ∧
    ((∀ tag ∈ tags, ∀ d, parseExpirationDate tag = some d → w.now.After d = false) →
      ∀ c ∈ newCalls w (sweepTags cfg item tags w), c.isCatalogDelete = false) := by
  obtain ⟨_, cs, e, p⟩ := sweepTags_trace cfg item tags w
  rw [newCalls_append w _ cs e]
  refine ⟨?_, ?_, ?_⟩
  · intro c hc hd
    obtain ⟨id, h1, tag, ht, d, q2, q3⟩ := processItemsDueForDeletion_deletes cfg w c hc hd
    exact ⟨id, h1, tag, ht, d, q2, q3, After_le _ _ q3⟩
  · intro c hc hd
    obtain ⟨q1, tag, ht, d, q2, q3⟩ := (p c hc).2 hd
    exact ⟨q1, tag, ht, d, q2, q3, After_le _ _ q3⟩
  · intro hall c hc
    cases hcd : c.isCatalogDelete with
    | false => rfl
    | true =>
      obtain ⟨_, tag, ht, d, q2, q3⟩ := (p c hc).2 hcd
      rw [hall tag ht d q2] at q3
      exact absurd q3 (by simp)

/-- C2 witness: in the example world the series `s1` carries one marker dated
2020-01-01 and one dated 2030-01-01; the one catalog delete of the loop is backed
by the first. -/
theorem sweep_safety_witness :
    Call.DeleteSeries "42" true ∈ newCalls exampleWorld
      (sweepTags exampleConfig exampleSeries
        ["Jellycleaner-Expire-2020-01-01", "Jellycleaner-Expire-2030-01-01"] exampleWorld) ∧
    ∃ tag ∈ ["Jellycleaner-Expire-2020-01-01", "Jellycleaner-Expire-2030-01-01"],
      ∃ d, parseExpirationDate tag = some d ∧ exampleWorld.now.After d = true ∧
        d.sec ≤ exampleWorld.now.sec :=
  ⟨by decide,
    ((sweep_safety exampleConfig exampleSeries
      ["Jellycleaner-Expire-2020-01-01", "Jellycleaner-Expire-2030-01-01"] exampleWorld).2.1
      (Call.DeleteSeries "42" true) (by decide) rfl).2⟩

/-! ## Reconciler -/

theorem maxAgeCheck_reads (w : World) (item : Item) (library : Library) :
    ∃ cs, readsOnly w (maxAgeCheck w item library).2 cs := by
  unfold maxAgeCheck
  by_cases hm : library.Rules.MaxAgeDays > 0
  · simp only [hm, if_true]
    have hg : readsOnly w (GetItemAddedDate w item.ID).2
        [Call.GetItemAddedDate item.ID (GetItemAddedDate w item.ID).1.isSome] := by
      simp [readsOnly, GetItemAddedDate, World.record, Call.isMutation]
    cases hr : GetItemAddedDate w item.ID with
    | mk r w1 =>
      rw [hr] at hg
      cases r with
      | none => exact ⟨_, hg⟩
      | some d =>
        simp only []
        split_ifs
        · exact ⟨_, hg⟩
        · exact ⟨_, hg⟩
  · simp only [hm, if_false]
    exact ⟨[], by simp [readsOnly]⟩

theorem readsOnly_trans (w w1 w2 : World) (cs1 cs2 : List Call)
    (h1 : readsOnly w w1 cs1) (h2 : readsOnly w1 w2 cs2) : readsOnly w w2 (cs1 ++ cs2) := by
  obtain ⟨a1, a2, a3, a4, a5, a6⟩ := h1
  obtain ⟨b1, b2, b3, b4, b5, b6⟩ := h2
  refine ⟨by rw [b1, a1, List.append_assoc], ?_, by rw [b3, a3], by rw [b4, a4],
    by rw [b5, a5], by rw [b6, a6]⟩
  intro c hc
  rcases List.mem_append.mp hc with h | h
  · exact a2 c h
  · exact b2 c h

/-- The evaluator only reads. -/
theorem shouldMarkForDeletion_reads (w : World) (item : Item) (library : Library) :
    ∃ cs, readsOnly w (shouldMarkForDeletion w item library).2 cs := by
  have hw : readsOnly w (IsWatchedByAllUsers w item.ID).2
      [Call.IsWatchedByAllUsers item.ID (IsWatchedByAllUsers w item.ID).1] := by
    simp [readsOnly, IsWatchedByAllUsers, World.record, Call.isMutation]
  by_cases h : library.Rules.DeleteIfWatchedByAll = true ∧
      (IsWatchedByAllUsers w item.ID).1 = some true
  · rw [shouldMarkForDeletion_watched w item library h.1 h.2]
    exact ⟨_, hw⟩
  · rw [shouldMarkForDeletion_not_watched w item library h]
    by_cases h1 : library.Rules.DeleteIfWatchedByAll = true
    · rw [if_pos h1]
      obtain ⟨cs, hcs⟩ := maxAgeCheck_reads (IsWatchedByAllUsers w item.ID).2 item library
      exact ⟨_, readsOnly_trans _ _ _ _ _ hw hcs⟩
    · rw [if_neg h1]
      exact maxAgeCheck_reads w item library

theorem faulty_false (w : World) (h : ∀ n, w.fault n = false) : w.faulty = false := by
  simp [World.faulty, h]

theorem filter_reads (cs : List Call) (h : ∀ c ∈ cs, c.isMutation = false) :
    cs.filter Call.isMutation = [] := by
  rw [List.filter_eq_nil_iff]
  intro c hc
  rw [h c hc]
  simp

theorem IsInPlaylist_shape (w : World) (id name : String) :
    (IsInPlaylist w id name).2.now = w.now ∧ (IsInPlaylist w id name).2.fault = w.fault ∧
    (IsInPlaylist w id name).2.playlists = w.playlists ∧
    (IsInPlaylist w id name).2.tags = w.tags ∧
    (IsInPlaylist w id name).2.trace
      = w.trace ++ [Call.IsInPlaylist id name (IsInPlaylist w id name).1] := by
  simp [IsInPlaylist, World.record]

theorem IsInPlaylist_result (cfg : Config) (w : World) (id : String)
    (hf : w.faulty = false) :
    (IsInPlaylist w id cfg.HeadedOutPlaylist.Name).1 = isStaged cfg w id := by
  unfold IsInPlaylist isStaged
  simp [hf]

theorem AddToPlaylist_ok (w : World) (id name : String) (hf : w.faulty = false) :
    (AddToPlaylist w id name).1 = true ∧
    (AddToPlaylist w id name).2.playlists name = some ((w.playlists name).getD [] ++ [id]) ∧
    (AddToPlaylist w id name).2.now = w.now ∧ (AddToPlaylist w id name).2.fault = w.fault ∧
    (AddToPlaylist w id name).2.tags = w.tags ∧
    (AddToPlaylist w id name).2.trace = w.trace ++ [Call.AddToPlaylist id name true] := by
  simp [AddToPlaylist, World.record, hf]

theorem AddTag_ok (w : World) (id tag : String) (hf : w.faulty = false) :
    (AddTag w id tag).1 = true ∧
    (AddTag w id tag).2.tags id = w.tags id ++ [tag] ∧
    (∀ i, i ≠ id → (AddTag w id tag).2.tags i = w.tags i) ∧
    (AddTag w id tag).2.playlists = w.playlists ∧
    (AddTag w id tag).2.now = w.now ∧ (AddTag w id tag).2.fault = w.fault ∧
    (AddTag w id tag).2.trace = w.trace ++ [Call.AddTag id tag true] := by
  simp only [AddTag, World.record, hf]
  simp
  intro i hi
  simp [hi]

/-- The loop body on an item that is not excluded, that the evaluator finds
eligible and that is not a member of the staging playlist, when no gateway call
fails: the item is added to the staging playlist and one tag is appended to its
tags, the marker of the date `AddDate` returns; the only writes are that
`AddToPlaylist` and that `AddTag`. -/
theorem processItem_stages_eligible (cfg : Config) (library : Library) (w : World)
    (item : Item)
    (hex : isExcluded item.Name library.Exclusions = false)
    (hel : (shouldMarkForDeletion w item library).1.1 = true)
    (hns : isStaged cfg w item.ID = false)
    (hok : ∀ n, w.fault n = false) :
    isStaged cfg (processItem cfg library w item) item.ID = true ∧
    (processItem cfg library w item).tags item.ID
      = w.tags item.ID
        ++ [formatExpirationTag (w.now.AddDate cfg.HeadedOutPlaylist.DeletionDelayDays)] ∧
    (∀ id, id ≠ item.ID → (processItem cfg library w item).tags id = w.tags id) ∧
    (newCalls w (processItem cfg library w item)).filter Call.isMutation
      = [Call.AddToPlaylist item.ID cfg.HeadedOutPlaylist.Name true,
         Call.AddTag item.ID
           (formatExpirationTag (w.now.AddDate cfg.HeadedOutPlaylist.DeletionDelayDays)) true] := by
  obtain ⟨cs, r1, r2, r3, r4, r5, r6⟩ := shouldMarkForDeletion_reads w item library
  generalize hr : shouldMarkForDeletion w item library = r at hel r1 r3 r4 r5 r6
  have hf1 : r.2.faulty = false := faulty_false _ (by rw [r4]; exact hok)
  obtain ⟨p1, p2, p3, p4, p5⟩ := IsInPlaylist_shape r.2 item.ID cfg.HeadedOutPlaylist.Name
  have hin : (IsInPlaylist r.2 item.ID cfg.HeadedOutPlaylist.Name).1 = false := by
    rw [IsInPlaylist_result cfg r.2 item.ID hf1]
    unfold isStaged at hns ⊢
    rw [r5]
    exact hns
  generalize hq : IsInPlaylist r.2 item.ID cfg.HeadedOutPlaylist.Name = q at p1 p2 p3 p4 p5 hin
  have hf2 : q.2.faulty = false := faulty_false _ (by rw [p2, r4]; exact hok)
  obtain ⟨a1, a2, a3, a4, a5, a6⟩ := AddToPlaylist_ok q.2 item.ID cfg.HeadedOutPlaylist.Name hf2
  generalize ha : AddToPlaylist q.2 item.ID cfg.HeadedOutPlaylist.Name = a at a1 a2 a3 a4 a5 a6
  have hf3 : a.2.faulty = false := faulty_false _ (by rw [a4, p2, r4]; exact hok)
  obtain ⟨t1, t2, t3, t4, t5, t6, t7⟩ := AddTag_ok a.2 item.ID
    (formatExpirationTag (w.now.AddDate cfg.HeadedOutPlaylist.DeletionDelayDays)) hf3
  have hp : processItem cfg library w item
      = (AddTag a.2 item.ID
          (formatExpirationTag (w.now.AddDate cfg.HeadedOutPlaylist.DeletionDelayDays))).2 := by
    unfold processItem
    rw [hex, hr]
    simp only [Bool.false_eq_true, if_false, hel, if_true, hq, hin, Bool.not_false, ha, a1]
    rw [p1, r3]
  rw [hp]
  refine ⟨?_, ?_, ?_, ?_⟩
  · unfold isStaged
    rw [t4, a2]
    simp
  · rw [t2, a5, p4, r6]
  · intro id hid
    rw [t3 id hid, a5, p4, r6]
  · have ht : (AddTag a.2 item.ID
          (formatExpirationTag (w.now.AddDate cfg.HeadedOutPlaylist.DeletionDelayDays))).2.trace
        = w.trace ++ (cs ++ [Call.IsInPlaylist item.ID cfg.HeadedOutPlaylist.Name false,
            Call.AddToPlaylist item.ID cfg.HeadedOutPlaylist.Name true,
            Call.AddTag item.ID (formatExpirationTag
              (w.now.AddDate cfg.HeadedOutPlaylist.DeletionDelayDays)) true]) := by
      rw [t7, a6, p5, r1, hin]
      simp
    rw [newCalls_append w _ _ ht, List.filter_append, filter_reads cs r2]
    simp [Call.isMutation]

/-- The filter of `GetExpirationTags` and the prefix of the codec exclude each
other: a tag that starts with `"Expires: "` does not start with `expireTagConst`. -/
theorem expires_not_marker (tag : String) (h : hasPrefix tag "Expires: " = true) :
    hasPrefix tag expireTagConst = false := by
  unfold hasPrefix expireTagConst at *
  cases ht : tag.data with
  | nil =>
    rw [ht] at h
    exact absurd h (by decide)
  | cons c r =>
    rw [ht] at h
    have hc : c = 'E' := by
      have e : ("Expires: " : String).data = 'E' :: ("xpires: " : String).data := by decide
      rw [e] at h
      simp only [List.isPrefixOf, Bool.and_eq_true, beq_iff_eq] at h
      exact h.1.symm
    subst hc
    have e2 : ("Jellycleaner-Expire-" : String).data
        = 'J' :: ("ellycleaner-Expire-" : String).data := by decide
    rw [e2]
    simp [List.isPrefixOf]

/-- Removing a tag that is not a marker leaves the markers of every item as they
are, whether the call succeeds or not. -/
theorem RemoveTag_markers (w : World) (id tag : String)
    (h : hasPrefix tag expireTagConst = false) (i : String) :
    markersOf (RemoveTag w id tag).2 i = markersOf w i := by
  unfold markersOf RemoveTag
  by_cases hf : w.faulty = true
  · simp [hf, World.record]
  · by_cases hi : i = id
    · subst hi
      simp only [hf, World.record, if_true, Bool.false_eq_true, if_false]
      rw [List.filter_filter]
      apply List.filter_congr
      intro t _
      by_cases hm : hasPrefix t expireTagConst = true
      · have hne : t ≠ tag := by
          intro e
          rw [e, h] at hm
          simp at hm
        simp [hm, hne]
      · simp [hm]
    · simp [hf, World.record, hi]

/-- Removing, one after the other, tags that are not markers leaves the markers
of every item as they are. -/
theorem RemoveTags_markers (id : String) (tags : List String)
    (h : ∀ t ∈ tags, hasPrefix t expireTagConst = false) (i : String) :
    ∀ w : World,
      markersOf (tags.foldl (fun w2 tag => (RemoveTag w2 id tag).2) w) i = markersOf w i := by
  induction tags with
  | nil => intro w; rfl
  | cons t rest ih =>
    intro w
    simp only [List.foldl_cons]
    rw [ih (fun x hx => h x (by simp [hx])) (RemoveTag w id t).2,
      RemoveTag_markers w id t (h t (by simp)) i]

theorem GetExpirationTags_result (w : World) (id : String) :
    ∀ t ∈ (GetExpirationTags w id).1, hasPrefix t expireTagConst = false := by
  intro t ht
  apply expires_not_marker
  unfold GetExpirationTags at ht
  by_cases hf : w.faulty = true
  · simp [hf] at ht
  · simp only [hf, Bool.false_eq_true, if_false, List.mem_filter] at ht
    exact ht.2

/-- C9, what the code does for an item the evaluator finds not eligible: whatever
the staging state and whichever calls fail, the loop body of the Reconciler
leaves every expiration marker (every tag that starts with `expireTagConst`, as
`formatExpirationTag` writes them) on every item; the tags it removes are those
`GetExpirationTags` returns, which start with `"Expires: "`. -/
theorem processItem_not_eligible_keeps_markers (cfg : Config) (library : Library) (w : World)
    (item : Item) (hel : (shouldMarkForDeletion w item library).1.1 = false) (id : String) :
    markersOf (processItem cfg library w item) id = markersOf w id := by
  obtain ⟨cs, r1, r2, r3, r4, r5, r6⟩ := shouldMarkForDeletion_reads w item library
  unfold processItem
  by_cases hex : isExcluded item.Name library.Exclusions = true
  · simp [hex]
  · simp only [hex, Bool.false_eq_true, if_false, hel]
    obtain ⟨p1, p2, p3, p4, p5⟩ := IsInPlaylist_shape (shouldMarkForDeletion w item library).2
      item.ID cfg.HeadedOutPlaylist.Name
    by_cases hin : (IsInPlaylist (shouldMarkForDeletion w item library).2 item.ID
        cfg.HeadedOutPlaylist.Name).1 = true
    · simp only [hin, if_true]
      obtain ⟨_, _, _, b4, _⟩ := RemoveFromPlaylist_shape
        (IsInPlaylist (shouldMarkForDeletion w item library).2 item.ID
          cfg.HeadedOutPlaylist.Name).2 item.ID cfg.HeadedOutPlaylist.Name
      obtain ⟨_, _, _, _, g5, _⟩ := GetExpirationTags_shape
        (RemoveFromPlaylist (IsInPlaylist (shouldMarkForDeletion w item library).2 item.ID
          cfg.HeadedOutPlaylist.Name).2 item.ID cfg.HeadedOutPlaylist.Name).2 item.ID
      rw [RemoveTags_markers item.ID _ (GetExpirationTags_result _ item.ID) id]
      unfold markersOf
      rw [g5, b4, p4, r6]
    · simp only [hin, Bool.false_eq_true, if_false]
      unfold markersOf
      rw [p4, r6]

/-- C9, the code at the failing input: `s1` is staged and carries two markers
written by `formatExpirationTag`; it is not eligible (not watched by all, 11 days
old against a maximum of 30). With every gateway call succeeding, the Reconciler
pass removes it from the staging playlist, reads its expiration tags as the empty
list, removes no tag, and leaves both markers on the item. -/
theorem reconcile_unstages_but_keeps_markers :
    markersOf (processItem exampleConfig exampleLibrary
        (stagedWorld ["Jellycleaner-Expire-2023-11-21", "Jellycleaner-Expire-2023-11-22"])
        exampleSeries) "s1"
      = markersOf
        (stagedWorld ["Jellycleaner-Expire-2023-11-21", "Jellycleaner-Expire-2023-11-22"]) "s1" ∧
    formatExpirationTag ⟨1700604800, 0, 0⟩ = "Jellycleaner-Expire-2023-11-21" ∧
    formatExpirationTag ⟨1700691200, 0, 0⟩ = "Jellycleaner-Expire-2023-11-22" ∧
    newCalls (stagedWorld ["Jellycleaner-Expire-2023-11-21", "Jellycleaner-Expire-2023-11-22"])
        (reconcile exampleConfig
          (stagedWorld ["Jellycleaner-Expire-2023-11-21", "Jellycleaner-Expire-2023-11-22"]))
      = [Call.GetLibraryItems "TV" true,
         Call.IsWatchedByAllUsers "s1" (some false),
         Call.GetItemAddedDate "s1" true,
         Call.IsInPlaylist "s1" "Headed Out" true,
         Call.RemoveFromPlaylist "s1" "Headed Out" true,
         Call.GetExpirationTags "s1" []] ∧
    isStaged exampleConfig
      (reconcile exampleConfig
        (stagedWorld ["Jellycleaner-Expire-2023-11-21", "Jellycleaner-Expire-2023-11-22"]))
      "s1" = false ∧
    markersOf
      (reconcile exampleConfig
        (stagedWorld ["Jellycleaner-Expire-2023-11-21", "Jellycleaner-Expire-2023-11-22"]))
      "s1" = ["Jellycleaner-Expire-2023-11-21", "Jellycleaner-Expire-2023-11-22"] :=
  ⟨processItem_not_eligible_keeps_markers exampleConfig exampleLibrary
      (stagedWorld ["Jellycleaner-Expire-2023-11-21", "Jellycleaner-Expire-2023-11-22"])
      exampleSeries (by decide) "s1",
    by decide, by decide, by decide, by decide, by decide⟩

/-- C10, the code at the failing input: `s1` is staged with one marker and no
other item carries a tag. A first Reconciler pass finds it not eligible and
unstages it, leaving the marker; by the next pass every user has watched it, and
that pass stages it again and appends a second marker. No gateway call fails. -/
theorem reconcile_twice_leaves_two_markers :
    (∀ id, (markersOf (stagedWorld ["Jellycleaner-Expire-2023-11-10"]) id).length ≤ 1) ∧
    markersOf (reconcile exampleConfig (stagedWorld ["Jellycleaner-Expire-2023-11-10"])) "s1"
      = ["Jellycleaner-Expire-2023-11-10"] ∧
    isStaged exampleConfig
      (reconcile exampleConfig (stagedWorld ["Jellycleaner-Expire-2023-11-10"])) "s1" = false ∧
    markersOf
      (reconcile exampleConfig
        (watchedNextDay (reconcile exampleConfig (stagedWorld ["Jellycleaner-Expire-2023-11-10"]))))
      "s1" = ["Jellycleaner-Expire-2023-11-10", "Jellycleaner-Expire-2023-11-22"] ∧
    newCalls
        (watchedNextDay (reconcile exampleConfig (stagedWorld ["Jellycleaner-Expire-2023-11-10"])))
        (reconcile exampleConfig
          (watchedNextDay
            (reconcile exampleConfig (stagedWorld ["Jellycleaner-Expire-2023-11-10"]))))
      = [Call.GetLibraryItems "TV" true,
         Call.IsWatchedByAllUsers "s1" (some true),
         Call.IsInPlaylist "s1" "Headed Out" false,
         Call.AddToPlaylist "s1" "Headed Out" true,
         Call.AddTag "s1" "Jellycleaner-Expire-2023-11-22" true] := by
  refine ⟨?_, by decide, by decide, by decide, by decide⟩
  intro id
  by_cases h : id = "s1"
  · subst h
    decide
  · simp [markersOf, stagedWorld, exampleWorld, h]

/-! ## Steps of the Reconciler made for one item -/

theorem sameEnv_refl (w : World) : sameEnv w w := by
  simp [sameEnv]

theorem sameEnv_trans (w w1 w2 : World) (h1 : sameEnv w w1) (h2 : sameEnv w1 w2) :
    sameEnv w w2 := by
  obtain ⟨a1, a2, a3, a4, a5, a6, a7, a8⟩ := h1
  obtain ⟨b1, b2, b3, b4, b5, b6, b7, b8⟩ := h2
  exact ⟨by rw [b1, a1], by rw [b2, a2], by rw [b3, a3], by rw [b4, a4], by rw [b5, a5],
    by rw [b6, a6], by rw [b7, a7], by rw [b8, a8]⟩

theorem stepFor_refl (cfg : Config) (id : String) (w : World) : stepFor cfg id w w := by
  refine ⟨sameEnv_refl w, ⟨[], by simp, by simp⟩, fun _ _ => rfl, fun _ _ => rfl⟩

theorem stepFor_trans (cfg : Config) (id : String) (w w1 w2 : World)
    (h1 : stepFor cfg id w w1) (h2 : stepFor cfg id w1 w2) : stepFor cfg id w w2 := by
  obtain ⟨a1, ⟨cs1, a2, a3⟩, a4, a5⟩ := h1
  obtain ⟨b1, ⟨cs2, b2, b3⟩, b4, b5⟩ := h2
  refine ⟨sameEnv_trans w w1 w2 a1 b1, ⟨cs1 ++ cs2, by rw [b2, a2, List.append_assoc], ?_⟩,
    fun j hj => by rw [b4 j hj, a4 j hj], fun j hj => by rw [b5 j hj, a5 j hj]⟩
  intro c hc
  rcases List.mem_append.mp hc with h | h
  · exact a3 c h
  · exact b3 c h

/-- A step that adds one call for the item and changes nothing else. -/
theorem stepFor_record (cfg : Config) (id : String) (w : World) (c : Call)
    (hc : c.itemID = some id) : stepFor cfg id w (w.record c) := by
  refine ⟨by simp [sameEnv, World.record], ⟨[c], by simp [World.record], by simpa using hc⟩,
    fun _ _ => rfl, fun _ _ => rfl⟩

theorem IsWatchedByAllUsers_stepFor (cfg : Config) (w : World) (id : String) :
    stepFor cfg id w (IsWatchedByAllUsers w id).2 :=
  stepFor_record cfg id w _ rfl

theorem GetItemAddedDate_stepFor (cfg : Config) (w : World) (id : String) :
    stepFor cfg id w (GetItemAddedDate w id).2 :=
  stepFor_record cfg id w _ rfl

theorem IsInPlaylist_stepFor (cfg : Config) (w : World) (id name : String) :
    stepFor cfg id w (IsInPlaylist w id name).2 :=
  stepFor_record cfg id w _ rfl

theorem GetExpirationTags_stepFor (cfg : Config) (w : World) (id : String) :
    stepFor cfg id w (GetExpirationTags w id).2 :=
  stepFor_record cfg id w _ rfl

theorem AddToPlaylist_stepFor (cfg : Config) (w : World) (id : String) :
    stepFor cfg id w (AddToPlaylist w id cfg.HeadedOutPlaylist.Name).2 := by
  unfold AddToPlaylist
  by_cases hf : w.faulty = true
  · rw [if_pos hf]
    exact stepFor_record cfg id w _ rfl
  · rw [if_neg hf]
    refine ⟨by simp [sameEnv, World.record],
      ⟨[Call.AddToPlaylist id cfg.HeadedOutPlaylist.Name true], by simp [World.record],
        by simp [Call.itemID]⟩, ?_, fun _ _ => rfl⟩
    intro j hj
    unfold isStaged
    cases hp : w.playlists cfg.HeadedOutPlaylist.Name with
    | none => simp [World.record, hp, hj]
    | some ids => simp [World.record, hp, hj]

theorem RemoveFromPlaylist_stepFor (cfg : Config) (w : World) (id : String) :
    stepFor cfg id w (RemoveFromPlaylist w id cfg.HeadedOutPlaylist.Name).2 := by
  unfold RemoveFromPlaylist
  by_cases hf : w.faulty = true
  · rw [if_pos hf]
    exact stepFor_record cfg id w _ rfl
  · rw [if_neg hf]
    cases hp : w.playlists cfg.HeadedOutPlaylist.Name with
    | none => exact stepFor_record cfg id w _ rfl
    | some ids =>
      by_cases hc : ids.contains id = true
      · simp only [hc, if_true]
        refine ⟨by simp [sameEnv, World.record],
          ⟨[Call.RemoveFromPlaylist id cfg.HeadedOutPlaylist.Name true], by simp [World.record],
            by simp [Call.itemID]⟩, ?_, fun _ _ => rfl⟩
        intro j hj
        unfold isStaged
        simp only [World.record, if_true, hp]
        rw [List.eraseIdx_indexOf_eq_erase]
        have := List.mem_erase_of_ne hj (l := ids)
        simp only [List.contains_eq_any_beq, List.any_eq, beq_iff_eq, exists_eq_right] at *
        simp [this]
      · simp only [hc, Bool.false_eq_true, if_false]
        exact stepFor_record cfg id w _ rfl

theorem AddTag_stepFor (cfg : Config) (w : World) (id tag : String) :
    stepFor cfg id w (AddTag w id tag).2 := by
  unfold AddTag
  by_cases hf : w.faulty = true
  · rw [if_pos hf]
    exact stepFor_record cfg id w _ rfl
  · rw [if_neg hf]
    refine ⟨by simp [sameEnv, World.record],
      ⟨[Call.AddTag id tag true], by simp [World.record], by simp [Call.itemID]⟩,
      fun _ _ => rfl, ?_⟩
    intro j hj
    simp [World.record, hj]

theorem RemoveTag_stepFor (cfg : Config) (w : World) (id tag : String) :
    stepFor cfg id w (RemoveTag w id tag).2 := by
  unfold RemoveTag
  by_cases hf : w.faulty = true
  · rw [if_pos hf]
    exact stepFor_record cfg id w _ rfl
  · rw [if_neg hf]
    refine ⟨by simp [sameEnv, World.record],
      ⟨[Call.RemoveTag id tag true], by simp [World.record], by simp [Call.itemID]⟩,
      fun _ _ => rfl, ?_⟩
    intro j hj
    simp [World.record, hj]

theorem RemoveTags_stepFor (cfg : Config) (id : String) (tags : List String) :
    ∀ w : World, stepFor cfg id w (tags.foldl (fun w2 tag => (RemoveTag w2 id tag).2) w) := by
  induction tags with
  | nil => intro w; exact stepFor_refl cfg id w
  | cons t rest ih =>
    intro w
    simp only [List.foldl_cons]
    exact stepFor_trans cfg id _ _ _ (RemoveTag_stepFor cfg w id t) (ih _)

theorem maxAgeCheck_stepFor (cfg : Config) (w : World) (item : Item) (library : Library) :
    stepFor cfg item.ID w (maxAgeCheck w item library).2 := by
  unfold maxAgeCheck
  by_cases hm : library.Rules.MaxAgeDays > 0
  · simp only [hm, if_true]
    have hg := GetItemAddedDate_stepFor cfg w item.ID
    cases hr : GetItemAddedDate w item.ID with
    | mk r w1 =>
      rw [hr] at hg
      cases r with
      | none => exact hg
      | some d =>
        simp only []
        split_ifs
        · exact hg
        · exact hg
  · simp only [hm, if_false]
    exact stepFor_refl cfg item.ID w

theorem shouldMarkForDeletion_stepFor (cfg : Config) (w : World) (item : Item)
    (library : Library) : stepFor cfg item.ID w (shouldMarkForDeletion w item library).2 := by
  have hw := IsWatchedByAllUsers_stepFor cfg w item.ID
  by_cases h : library.Rules.DeleteIfWatchedByAll = true ∧
      (IsWatchedByAllUsers w item.ID).1 = some true
  · rw [shouldMarkForDeletion_watched w item library h.1 h.2]
    exact hw
  · rw [shouldMarkForDeletion_not_watched w item library h]
    by_cases h1 : library.Rules.DeleteIfWatchedByAll = true
    · rw [if_pos h1]
      exact stepFor_trans cfg item.ID _ _ _ hw (maxAgeCheck_stepFor cfg _ item library)
    · rw [if_neg h1]
      exact maxAgeCheck_stepFor cfg w item library

/-- The loop body of the Reconciler is a step made for its item: whichever calls
fail, every call it makes is a call for that item, and staging membership and
tags of every other item are as before. -/
theorem processItem_stepFor (cfg : Config) (library : Library) (w : World) (item : Item) :
    stepFor cfg item.ID w (processItem cfg library w item) := by
  unfold processItem
  by_cases hex : isExcluded item.Name library.Exclusions = true
  · rw [if_pos hex]
    exact stepFor_refl cfg item.ID w
  · rw [if_neg hex]
    dsimp only
    have hr := shouldMarkForDeletion_stepFor cfg w item library
    generalize shouldMarkForDeletion w item library = r at hr
    have hp := IsInPlaylist_stepFor cfg r.2 item.ID cfg.HeadedOutPlaylist.Name
    generalize IsInPlaylist r.2 item.ID cfg.HeadedOutPlaylist.Name = p at hp
    have hrp := stepFor_trans cfg item.ID _ _ _ hr hp
    by_cases hel : r.1.1 = true
    · simp only [hel, if_true]
      by_cases hin : p.1 = true
      · simp only [hin, Bool.not_true, Bool.false_eq_true, if_false]
        exact hrp
      · simp only [hin, Bool.not_false, if_true]
        have ha := AddToPlaylist_stepFor cfg p.2 item.ID
        generalize AddToPlaylist p.2 item.ID cfg.HeadedOutPlaylist.Name = a at ha
        have hra := stepFor_trans cfg item.ID _ _ _ hrp ha
        by_cases hok : a.1 = true
        · simp only [hok, if_true]
          exact stepFor_trans cfg item.ID _ _ _ hra (AddTag_stepFor cfg a.2 item.ID _)
        · simp only [hok, Bool.false_eq_true, if_false]
          exact hra
    · simp only [hel, Bool.false_eq_true, if_false]
      by_cases hin : p.1 = true
      · simp only [hin, if_true]
        have hd := RemoveFromPlaylist_stepFor cfg p.2 item.ID
        generalize (RemoveFromPlaylist p.2 item.ID cfg.HeadedOutPlaylist.Name).2 = w1 at hd
        have hg := GetExpirationTags_stepFor cfg w1 item.ID
        generalize GetExpirationTags w1 item.ID = t at hg
        exact stepFor_trans cfg item.ID _ _ _ hrp (stepFor_trans cfg item.ID _ _ _ hd
          (stepFor_trans cfg item.ID _ _ _ hg (RemoveTags_stepFor cfg item.ID t.1 t.2)))
      · simp only [hin, Bool.false_eq_true, if_false]
        exact hrp

/-! ## The Reconciler when no call fails -/

theorem maxAgeCheck_verdict (w : World) (item : Item) (library : Library)
    (hf : w.faulty = false) (ha : ∀ c, (w.record c).ageInDays = w.ageInDays) :
    (maxAgeCheck w item library).1
      = if library.Rules.MaxAgeDays > 0 then
          match w.dateCreated item.ID with
          | none => (false, "")
          | some d =>
            if w.ageInDays d > library.Rules.MaxAgeDays then (true, "Exceeds maximum age")
            else (false, "")
        else (false, "") := by
  unfold maxAgeCheck
  by_cases hm : library.Rules.MaxAgeDays > 0
  · rw [if_pos hm, if_pos hm]
    have e : GetItemAddedDate w item.ID
        = (w.dateCreated item.ID,
            w.record (Call.GetItemAddedDate item.ID (w.dateCreated item.ID).isSome)) := by
      simp [GetItemAddedDate, hf]
    rw [e]
    cases w.dateCreated item.ID with
    | none => rfl
    | some d =>
      simp only [ha]
      split_ifs <;> rfl
  · rw [if_neg hm, if_neg hm]

/-- When no call fails, the evaluator returns the verdict on the data of the world. -/
theorem shouldMarkForDeletion_verdict (w : World) (item : Item) (library : Library)
    (hok : ∀ n, w.fault n = false) :
    (shouldMarkForDeletion w item library).1 = verdict w item library := by
  have hf : w.faulty = false := faulty_false w hok
  have hw : (IsWatchedByAllUsers w item.ID).1 = some (w.users.all (fun u => w.played item.ID u)) := by
    simp [IsWatchedByAllUsers, hf]
  by_cases h : library.Rules.DeleteIfWatchedByAll = true ∧
      (IsWatchedByAllUsers w item.ID).1 = some true
  · rw [shouldMarkForDeletion_watched w item library h.1 h.2]
    have h2 : w.users.all (fun u => w.played item.ID u) = true := by
      have := h.2
      rw [hw] at this
      injection this
    unfold verdict
    rw [if_pos ⟨h.1, h2⟩]
  · rw [shouldMarkForDeletion_not_watched w item library h]
    have hn : ¬ (library.Rules.DeleteIfWatchedByAll = true ∧
        w.users.all (fun u => w.played item.ID u) = true) := by
      intro hc
      exact h ⟨hc.1, by rw [hw, hc.2]⟩
    unfold verdict
    rw [if_neg hn]
    by_cases h1 : library.Rules.DeleteIfWatchedByAll = true
    · rw [if_pos h1]
      rw [maxAgeCheck_verdict _ item library
        (faulty_false _ (by simpa [IsWatchedByAllUsers, World.record] using hok))
        (by intro c; rfl)]
      rfl
    · rw [if_neg h1]
      exact maxAgeCheck_verdict w item library hf (by intro c; rfl)

/-- The verdict depends on the surroundings only. -/
theorem verdict_env (w w1 : World) (item : Item) (library : Library) (h : sameEnv w w1) :
    verdict w1 item library = verdict w item library := by
  obtain ⟨_, _, a3, a4, a5, _, a7, _⟩ := h
  unfold verdict
  rw [a3, a4, a5, a7]

theorem RemoveFromPlaylist_ok (w : World) (id name : String) (ids : List String)
    (hf : w.faulty = false) (hp : w.playlists name = some ids) (hc : id ∈ ids) :
    (RemoveFromPlaylist w id name).1 = true ∧
    (RemoveFromPlaylist w id name).2.playlists name = some (ids.erase id) ∧
    (RemoveFromPlaylist w id name).2.tags = w.tags ∧
    (RemoveFromPlaylist w id name).2.fault = w.fault ∧
    (RemoveFromPlaylist w id name).2.trace = w.trace ++ [Call.RemoveFromPlaylist id name true] := by
  unfold RemoveFromPlaylist
  simp [hf, hp, hc, World.record, List.eraseIdx_indexOf_eq_erase]

theorem RemoveTags_playlists (id : String) (tags : List String) :
    ∀ w : World,
      (tags.foldl (fun w2 tag => (RemoveTag w2 id tag).2) w).playlists = w.playlists := by
  induction tags with
  | nil => intro w; rfl
  | cons t rest ih =>
    intro w
    simp only [List.foldl_cons]
    rw [ih, (RemoveTag_shape w id t).2.2.2.1]

/-- The loop body of the Reconciler on an item whose staging membership already
is what the evaluator says: when no call fails, it only reads. -/
theorem processItem_settled (cfg : Config) (library : Library) (w : World) (item : Item)
    (hok : ∀ n, w.fault n = false)
    (hst : isExcluded item.Name library.Exclusions = false →
      isStaged cfg w item.ID = (verdict w item library).1) :
    ∃ cs, readsOnly w (processItem cfg library w item) cs := by
  unfold processItem
  by_cases hex : isExcluded item.Name library.Exclusions = true
  · rw [if_pos hex]
    exact ⟨[], by simp [readsOnly]⟩
  · rw [if_neg hex]
    dsimp only
    have hst := hst (Bool.eq_false_iff.mpr hex)
    obtain ⟨cs, hr⟩ := shouldMarkForDeletion_reads w item library
    have hv := shouldMarkForDeletion_verdict w item library hok
    generalize shouldMarkForDeletion w item library = r at hr hv
    obtain ⟨r1, r2, r3, r4, r5, r6⟩ := hr
    have hf1 : r.2.faulty = false := faulty_false _ (by rw [r4]; exact hok)
    have hin : (IsInPlaylist r.2 item.ID cfg.HeadedOutPlaylist.Name).1 = r.1.1 := by
      rw [IsInPlaylist_result cfg r.2 item.ID hf1, hv, ← hst]
      unfold isStaged
      rw [r5]
    obtain ⟨p1, p2, p3, p4, p5⟩ := IsInPlaylist_shape r.2 item.ID cfg.HeadedOutPlaylist.Name
    generalize IsInPlaylist r.2 item.ID cfg.HeadedOutPlaylist.Name = p at hin p1 p2 p3 p4 p5
    have hfin : readsOnly w p.2 (cs ++ [Call.IsInPlaylist item.ID cfg.HeadedOutPlaylist.Name p.1]) :=
      readsOnly_trans _ _ _ _ _ ⟨r1, r2, r3, r4, r5, r6⟩
        ⟨p5, by simp [Call.isMutation], p1, p2, p3, p4⟩
    by_cases hel : r.1.1 = true
    · have hp1 : p.1 = true := by rw [hin, hel]
      simp only [hel, if_true, hp1, Bool.not_true, Bool.false_eq_true, if_false]
      exact ⟨_, hfin⟩
    · have hp1 : p.1 = false := by rw [hin]; simpa using hel
      simp only [hel, Bool.false_eq_true, if_false, hp1]
      exact ⟨_, hfin⟩

/-- The loop body of the Reconciler on an item that is not excluded: when no
call fails and the staging playlist lists no item twice, afterwards the item is
a member of the staging playlist exactly when the evaluator says it is
eligible, and the playlist still lists no item twice. -/
theorem processItem_converges (cfg : Config) (library : Library) (w : World) (item : Item)
    (hok : ∀ n, w.fault n = false)
    (hex : isExcluded item.Name library.Exclusions = false)
    (hnd : stagedOnce cfg w) :
    stagedOnce cfg (processItem cfg library w item) ∧
    isStaged cfg (processItem cfg library w item) item.ID = (verdict w item library).1 := by
  unfold processItem
  rw [hex]
  simp only [Bool.false_eq_true, if_false]
  obtain ⟨cs, hr⟩ := shouldMarkForDeletion_reads w item library
  have hv := shouldMarkForDeletion_verdict w item library hok
  generalize shouldMarkForDeletion w item library = r at hr hv
  obtain ⟨r1, r2, r3, r4, r5, r6⟩ := hr
  have hf1 : r.2.faulty = false := faulty_false _ (by rw [r4]; exact hok)
  have hin : (IsInPlaylist r.2 item.ID cfg.HeadedOutPlaylist.Name).1 = isStaged cfg w item.ID := by
    rw [IsInPlaylist_result cfg r.2 item.ID hf1]
    unfold isStaged
    rw [r5]
  obtain ⟨p1, p2, p3, p4, p5⟩ := IsInPlaylist_shape r.2 item.ID cfg.HeadedOutPlaylist.Name
  generalize IsInPlaylist r.2 item.ID cfg.HeadedOutPlaylist.Name = p at hin p1 p2 p3 p4 p5
  have hpl : p.2.playlists = w.playlists := by rw [p3, r5]
  have hf2 : p.2.faulty = false := faulty_false _ (by rw [p2, r4]; exact hok)
  rw [← hv]
  by_cases hel : r.1.1 = true
  · simp only [hel, if_true]
    by_cases hs : p.1 = true
    · simp only [hs, Bool.not_true, Bool.false_eq_true, if_false]
      refine ⟨?_, ?_⟩
      · intro ids hids
        rw [hpl] at hids
        exact hnd ids hids
      · unfold isStaged
        rw [hpl]
        rw [hs] at hin
        unfold isStaged at hin
        exact hin.symm
    · simp only [hs, Bool.not_false, if_true]
      obtain ⟨a1, a2, a3, a4, a5, a6⟩ :=
        AddToPlaylist_ok p.2 item.ID cfg.HeadedOutPlaylist.Name hf2
      generalize AddToPlaylist p.2 item.ID cfg.HeadedOutPlaylist.Name = a at a1 a2 a3 a4 a5 a6
      have hf3 : a.2.faulty = false := faulty_false _ (by rw [a4, p2, r4]; exact hok)
      obtain ⟨t1, t2, t3, t4, t5, t6, t7⟩ := AddTag_ok a.2 item.ID
        (formatExpirationTag (p.2.now.AddDate cfg.HeadedOutPlaylist.DeletionDelayDays)) hf3
      simp only [a1, if_true]
      have hns : isStaged cfg w item.ID = false := by
        rw [← hin]
        simpa using hs
      refine ⟨?_, ?_⟩
      · intro ids hids
        rw [t4, a2, hpl] at hids
        injection hids with hids
        subst hids
        unfold isStaged at hns
        cases hw : w.playlists cfg.HeadedOutPlaylist.Name with
        | none => simp
        | some l =>
          rw [hw] at hns
          have hl := hnd l hw
          simp only [Option.getD_some]
          rw [List.nodup_append]
          refine ⟨hl, by simp, ?_⟩
          intro x hx hx2
          rw [List.mem_singleton] at hx2
          rw [hx2] at hx
          simp only [List.contains_eq_any_beq, List.any_eq_false, beq_iff_eq] at hns
          exact hns _ hx rfl
      · unfold isStaged
        rw [t4, a2]
        simp
  · simp only [hel, Bool.false_eq_true, if_false]
    by_cases hs : p.1 = true
    · simp only [hs, if_true]
      have hst : isStaged cfg w item.ID = true := by rw [← hin]; exact hs
      unfold isStaged at hst
      cases hw : w.playlists cfg.HeadedOutPlaylist.Name with
      | none => rw [hw] at hst; simp at hst
      | some l =>
        rw [hw] at hst
        have hmem : item.ID ∈ l := by simpa using hst
        obtain ⟨d1, d2, d3, d4, d5⟩ := RemoveFromPlaylist_ok p.2 item.ID
          cfg.HeadedOutPlaylist.Name l hf2 (by rw [hpl]; exact hw) hmem
        generalize RemoveFromPlaylist p.2 item.ID cfg.HeadedOutPlaylist.Name = d
          at d1 d2 d3 d4 d5
        have hg := (GetExpirationTags_shape d.2 item.ID)
        have hfinal : (List.foldl (fun w2 tag => (RemoveTag w2 item.ID tag).2)
            (GetExpirationTags d.2 item.ID).2 (GetExpirationTags d.2 item.ID).1).playlists
              cfg.HeadedOutPlaylist.Name = some (l.erase item.ID) := by
          rw [RemoveTags_playlists]
          have : (GetExpirationTags d.2 item.ID).2.playlists = d.2.playlists := by
            simp [GetExpirationTags, World.record]
          rw [this, d2]
        refine ⟨?_, ?_⟩
        · intro ids hids
          rw [hfinal] at hids
          injection hids with hids
          subst hids
          exact List.Nodup.erase _ (hnd l hw)
        · unfold isStaged
          rw [hfinal]
          have := List.Nodup.not_mem_erase (hnd l hw) (a := item.ID)
          simpa using this
    · simp only [hs, Bool.false_eq_true, if_false]
      refine ⟨?_, ?_⟩
      · intro ids hids
        rw [hpl] at hids
        exact hnd ids hids
      · unfold isStaged
        rw [hpl]
        have hs2 : p.1 = false := by simpa using hs
        rw [hs2] at hin
        unfold isStaged at hin
        rw [← hin]

/-! ## Whole passes of the Reconciler -/

theorem foldl_invariant {α β : Type} (f : β → α → β) (P : β → Prop) (l : List α)
    (h : ∀ x ∈ l, ∀ b, P b → P (f b x)) : ∀ b, P b → P (l.foldl f b) := by
  induction l with
  | nil => intro b hb; exact hb
  | cons x rest ih =>
    intro b hb
    simp only [List.foldl_cons]
    exact ih (fun y hy => h y (List.mem_cons_of_mem x hy)) _ (h x (List.mem_cons_self x rest) b hb)

theorem foldl_reaches {α β : Type} (f : β → α → β) (P0 P1 : β → Prop) (l : List α) (x0 : α)
    (hx : x0 ∈ l) (h0 : ∀ x ∈ l, ∀ b, P0 b → P0 (f b x)) (h1 : ∀ x ∈ l, ∀ b, P1 b → P1 (f b x))
    (ht : ∀ b, P0 b → P1 (f b x0)) : ∀ b, P0 b → P1 (l.foldl f b) := by
  induction l with
  | nil => simp at hx
  | cons x rest ih =>
    intro b hb
    simp only [List.foldl_cons]
    rcases List.mem_cons.mp hx with e | hm
    · subst e
      exact foldl_invariant f P1 rest (fun y hy => h1 y (List.mem_cons_of_mem _ hy)) _ (ht b hb)
    · exact ih hm (fun y hy => h0 y (List.mem_cons_of_mem x hy))
        (fun y hy => h1 y (List.mem_cons_of_mem x hy)) _ (h0 x (List.mem_cons_self x rest) b hb)

theorem toItem_env (w w0 : World) (h : w.item = w0.item) : toItem w = toItem w0 := by
  funext id
  simp [toItem, h]

theorem toItem_ID (w : World) (id : String) : (toItem w id).ID = id := rfl

/-- The two outcomes of `GetLibraryItems`: an error, or the items of the library. -/
theorem GetLibraryItems_cases (w : World) (name : String) :
    GetLibraryItems w name = (none, w.record (Call.GetLibraryItems name false)) ∨
    ∃ ids, w.libraries name = some ids ∧
      GetLibraryItems w name
        = (some (ids.map (toItem w)), w.record (Call.GetLibraryItems name true)) := by
  unfold GetLibraryItems
  by_cases hf : w.faulty = true
  · left
    simp [hf]
  · cases hl : w.libraries name with
    | none =>
      left
      simp [hf]
    | some ids =>
      right
      exact ⟨ids, rfl, by simp [hf]⟩

theorem GetLibraryItems_ok (w : World) (name : String) (ids : List String)
    (hf : w.faulty = false) (hl : w.libraries name = some ids) :
    GetLibraryItems w name
      = (some (ids.map (toItem w)), w.record (Call.GetLibraryItems name true)) := by
  unfold GetLibraryItems
  simp [hf, hl]

/-- A property of the world that the listing of a library and every loop body
keep is kept by the loop over the items of a library. -/
theorem processLibrary_invariant (cfg : Config) (w0 : World) (P : World → Prop)
    (library : Library)
    (henv : ∀ w, P w → w.item = w0.item ∧ w.libraries = w0.libraries)
    (hrec : ∀ w name ok, P w → P (w.record (Call.GetLibraryItems name ok)))
    (hitem : ∀ w ids id, P w → w0.libraries library.Name = some ids → id ∈ ids →
      P (processItem cfg library w (toItem w0 id))) :
    ∀ w, P w → P (processLibrary cfg w library) := by
  intro w hw
  unfold processLibrary
  rcases GetLibraryItems_cases w library.Name with e | ⟨ids, hl, e⟩
  · rw [e]
    exact hrec w _ _ hw
  · rw [e]
    simp only []
    rw [toItem_env w w0 (henv w hw).1, List.foldl_map]
    rw [(henv w hw).2] at hl
    exact foldl_invariant (fun b id => processItem cfg library b (toItem w0 id)) P ids
      (fun id hid b hb => hitem b ids id hb hl hid) _ (hrec w _ _ hw)

/-- A property of the world that the listing of a library and every loop body
keep is kept by the Reconciler pass. -/
theorem reconcile_invariant (cfg : Config) (w0 : World) (P : World → Prop)
    (henv : ∀ w, P w → w.item = w0.item ∧ w.libraries = w0.libraries)
    (hrec : ∀ w name ok, P w → P (w.record (Call.GetLibraryItems name ok)))
    (hitem : ∀ w library ids id, P w → library ∈ cfg.Libraries →
      w0.libraries library.Name = some ids → id ∈ ids →
      P (processItem cfg library w (toItem w0 id))) :
    ∀ w, P w → P (reconcile cfg w) := by
  intro w hw
  unfold reconcile
  exact foldl_invariant (processLibrary cfg) P cfg.Libraries
    (fun library hl b hb => processLibrary_invariant cfg w0 P library henv hrec
      (fun w1 ids id h1 h2 h3 => hitem w1 library ids id h1 hl h2 h3) b hb) w hw

/-- A property that the loop body for one listed item establishes, and that the
listing of a library and every loop body keep, holds after the Reconciler pass
when no call fails. -/
theorem reconcile_reaches (cfg : Config) (w0 : World) (P0 P1 : World → Prop)
    (library : Library) (ids : List String) (id : String)
    (hlib : library ∈ cfg.Libraries) (hids : w0.libraries library.Name = some ids)
    (hid : id ∈ ids)
    (henv0 : ∀ w, P0 w → w.item = w0.item ∧ w.libraries = w0.libraries ∧ w.faulty = false)
    (henv1 : ∀ w, P1 w → w.item = w0.item ∧ w.libraries = w0.libraries)
    (hrec0 : ∀ w name ok, P0 w → P0 (w.record (Call.GetLibraryItems name ok)))
    (hrec1 : ∀ w name ok, P1 w → P1 (w.record (Call.GetLibraryItems name ok)))
    (hitem0 : ∀ w l ids1 id1, P0 w → l ∈ cfg.Libraries →
      w0.libraries l.Name = some ids1 → id1 ∈ ids1 →
      P0 (processItem cfg l w (toItem w0 id1)))
    (hitem1 : ∀ w l ids1 id1, P1 w → l ∈ cfg.Libraries →
      w0.libraries l.Name = some ids1 → id1 ∈ ids1 →
      P1 (processItem cfg l w (toItem w0 id1)))
    (ht : ∀ w, P0 w → P1 (processItem cfg library w (toItem w0 id))) :
    ∀ w, P0 w → P1 (reconcile cfg w) := by
  intro w hw
  unfold reconcile
  refine foldl_reaches (processLibrary cfg) P0 P1 cfg.Libraries library hlib
    (fun l hl b hb => processLibrary_invariant cfg w0 P0 l
      (fun w1 h1 => ⟨(henv0 w1 h1).1, (henv0 w1 h1).2.1⟩) hrec0
      (fun w1 ids1 id1 h1 h2 h3 => hitem0 w1 l ids1 id1 h1 hl h2 h3) b hb)
    (fun l hl b hb => processLibrary_invariant cfg w0 P1 l henv1 hrec1
      (fun w1 ids1 id1 h1 h2 h3 => hitem1 w1 l ids1 id1 h1 hl h2 h3) b hb)
    ?_ w hw
  intro b hb
  obtain ⟨e1, e2, e3⟩ := henv0 b hb
  unfold processLibrary
  rw [GetLibraryItems_ok b library.Name ids e3 (by rw [e2]; exact hids)]
  simp only []
  rw [toItem_env b w0 e1, List.foldl_map]
  exact foldl_reaches (fun b1 i => processItem cfg library b1 (toItem w0 i)) P0 P1 ids id hid
    (fun i hi b1 hb1 => hitem0 b1 library ids i hb1 hlib hids hi)
    (fun i hi b1 hb1 => hitem1 b1 library ids i hb1 hlib hids hi)
    ht _ (hrec0 b _ _ hb)

theorem processItem_excluded (cfg : Config) (library : Library) (w : World) (item : Item)
    (hex : isExcluded item.Name library.Exclusions = true) :
    processItem cfg library w item = w := by
  unfold processItem
  rw [if_pos hex]

theorem sameEnv_record (w : World) (c : Call) : sameEnv w (w.record c) := by
  simp [sameEnv, World.record]

theorem sameEnv_fault (w w1 : World) (h : sameEnv w w1) (hok : ∀ n, w.fault n = false) :
    ∀ n, w1.fault n = false := by
  intro n
  rw [h.2.2.2.2.2.2.2]
  exact hok n

/-- One loop body of a pass in which no call fails, on a world whose staging
playlist lists no item twice: the surroundings and that property are kept, the
membership of every other item is kept, and the item itself, unless excluded,
ends up a member exactly when the evaluator says it is eligible. -/
theorem processItem_visit (cfg : Config) (w : World) (hok : ∀ n, w.fault n = false)
    (w1 : World) (library : Library) (id : String)
    (hp : sameEnv w w1 ∧ stagedOnce cfg w1) :
    (sameEnv w (processItem cfg library w1 (toItem w id)) ∧
      stagedOnce cfg (processItem cfg library w1 (toItem w id))) ∧
    (∀ j, j ≠ id → isStaged cfg (processItem cfg library w1 (toItem w id)) j
      = isStaged cfg w1 j) ∧
    (isExcluded (toItem w id).Name library.Exclusions = false →
      isStaged cfg (processItem cfg library w1 (toItem w id)) id
        = (shouldMarkForDeletion w (toItem w id) library).1.1) ∧
    (isExcluded (toItem w id).Name library.Exclusions = true →
      processItem cfg library w1 (toItem w id) = w1) := by
  obtain ⟨s1, s2, s3, _⟩ := processItem_stepFor cfg library w1 (toItem w id)
  have hok1 := sameEnv_fault w w1 hp.1 hok
  refine ⟨⟨sameEnv_trans _ _ _ hp.1 s1, ?_⟩, s3, ?_, processItem_excluded cfg library w1 _⟩
  · by_cases hex : isExcluded (toItem w id).Name library.Exclusions = true
    · rw [processItem_excluded cfg library w1 _ hex]
      exact hp.2
    · exact (processItem_converges cfg library w1 (toItem w id) hok1
        (Bool.eq_false_iff.mpr hex) hp.2).1
  · intro hex
    have h := (processItem_converges cfg library w1 (toItem w id) hok1 hex hp.2).2
    rw [toItem_ID] at h
    rw [h, verdict_env w w1 _ _ hp.1, shouldMarkForDeletion_verdict w _ _ hok]

/-- Convergence of a pass: when no call fails, the staging playlist lists no item
twice, and `e` is what the evaluator says of each item under every library that
lists it without excluding it, then after the pass each such item is a member of
the staging playlist exactly when `e` says it is eligible; the surroundings are
those of before, and the playlist still lists no item twice. -/
theorem reconcile_staged (cfg : Config) (w : World) (e : String → Bool)
    (hok : ∀ n, w.fault n = false) (hnd : stagedOnce cfg w)
    (he : ∀ l ∈ cfg.Libraries, ∀ ids, w.libraries l.Name = some ids → ∀ id ∈ ids,
      isExcluded (toItem w id).Name l.Exclusions = false →
      (shouldMarkForDeletion w (toItem w id) l).1.1 = e id)
    (library : Library) (hlib : library ∈ cfg.Libraries) (ids : List String)
    (hids : w.libraries library.Name = some ids) (id : String) (hid : id ∈ ids)
    (hex : isExcluded (toItem w id).Name library.Exclusions = false) :
    (sameEnv w (reconcile cfg w) ∧ stagedOnce cfg (reconcile cfg w)) ∧
    isStaged cfg (reconcile cfg w) id = e id := by
  refine reconcile_reaches cfg w (fun w1 => sameEnv w w1 ∧ stagedOnce cfg w1)
    (fun w1 => (sameEnv w w1 ∧ stagedOnce cfg w1) ∧ isStaged cfg w1 id = e id)
    library ids id hlib hids hid ?_ ?_ ?_ ?_ ?_ ?_ ?_ w ⟨sameEnv_refl w, hnd⟩
  · intro w1 h1
    exact ⟨h1.1.1, h1.1.2.1, faulty_false w1 (sameEnv_fault w w1 h1.1 hok)⟩
  · intro w1 h1
    exact ⟨h1.1.1.1, h1.1.1.2.1⟩
  · intro w1 name ok h1
    exact ⟨sameEnv_trans _ _ _ h1.1 (sameEnv_record w1 _), h1.2⟩
  · intro w1 name ok h1
    exact ⟨⟨sameEnv_trans _ _ _ h1.1.1 (sameEnv_record w1 _), h1.1.2⟩, h1.2⟩
  · intro w1 l ids1 id1 h1 _ _ _
    exact (processItem_visit cfg w hok w1 l id1 h1).1
  · intro w1 l ids1 id1 h1 hl hids1 hid1
    obtain ⟨v1, v2, v3, v4⟩ := processItem_visit cfg w hok w1 l id1 h1.1
    refine ⟨v1, ?_⟩
    by_cases hj : id = id1
    · subst hj
      by_cases hx : isExcluded (toItem w id).Name l.Exclusions = true
      · rw [v4 hx]
        exact h1.2
      · rw [v3 (Bool.eq_false_iff.mpr hx)]
        exact he l hl ids1 hids1 id hid1 (Bool.eq_false_iff.mpr hx)
    · rw [v2 id hj]
      exact h1.2
  · intro w1 h1
    obtain ⟨v1, _, v3, _⟩ := processItem_visit cfg w hok w1 library id h1
    refine ⟨v1, ?_⟩
    rw [v3 hex]
    exact he library hlib ids hids id hid hex

/-- A pass on a settled world only reads: when no call fails and every listed
item that is not excluded is a member of the staging playlist exactly when the
evaluator says it is eligible, the pass makes no write and leaves playlists and
tags as they are. -/
theorem reconcile_settled (cfg : Config) (w : World) (hok : ∀ n, w.fault n = false)
    (hst : ∀ l ∈ cfg.Libraries, ∀ ids, w.libraries l.Name = some ids → ∀ id ∈ ids,
      isExcluded (toItem w id).Name l.Exclusions = false →
      isStaged cfg w id = (verdict w (toItem w id) l).1) :
    ∃ cs, readsOnly w (reconcile cfg w) cs := by
  have h := reconcile_invariant cfg w
    (fun w1 => sameEnv w w1 ∧ ∃ cs, readsOnly w w1 cs) ?_ ?_ ?_ w
    ⟨sameEnv_refl w, [], by simp [readsOnly]⟩
  · exact h.2
  · intro w1 h1
    exact ⟨h1.1.1, h1.1.2.1⟩
  · intro w1 name ok h1
    obtain ⟨cs, hcs⟩ := h1.2
    refine ⟨sameEnv_trans _ _ _ h1.1 (sameEnv_record w1 _), _,
      readsOnly_trans _ _ _ _ _ hcs
        (by simp [readsOnly, World.record, Call.isMutation] :
          readsOnly w1 (w1.record (Call.GetLibraryItems name ok))
            [Call.GetLibraryItems name ok])⟩
  · intro w1 l ids id h1 hl hids hid
    obtain ⟨cs, hcs⟩ := h1.2
    obtain ⟨s1, _⟩ := processItem_stepFor cfg l w1 (toItem w id)
    have hok1 := sameEnv_fault w w1 h1.1 hok
    obtain ⟨cs2, hcs2⟩ := processItem_settled cfg l w1 (toItem w id) hok1 (by
      intro hex
      rw [toItem_ID, verdict_env w w1 _ _ h1.1, ← hst l hl ids hids id hid hex]
      unfold isStaged
      rw [hcs.2.2.2.2.1])
    exact ⟨sameEnv_trans _ _ _ h1.1 s1, _, readsOnly_trans _ _ _ _ _ hcs hcs2⟩

/-- A pass leaves alone an item that every library listing it excludes:
whichever calls fail, no call of the pass is made for the item, and its staging
membership and its tags are as before. -/
theorem reconcile_avoids (cfg : Config) (w : World) (id : String)
    (hex : ∀ l ∈ cfg.Libraries, ∀ ids, w.libraries l.Name = some ids → id ∈ ids →
      isExcluded (toItem w id).Name l.Exclusions = true) :
    (∃ cs, (reconcile cfg w).trace = w.trace ++ cs ∧ ∀ c ∈ cs, c.itemID ≠ some id) ∧
    isStaged cfg (reconcile cfg w) id = isStaged cfg w id ∧
    (reconcile cfg w).tags id = w.tags id := by
  have h := reconcile_invariant cfg w
    (fun w1 => sameEnv w w1 ∧
      (∃ cs, w1.trace = w.trace ++ cs ∧ ∀ c ∈ cs, c.itemID ≠ some id) ∧
      isStaged cfg w1 id = isStaged cfg w id ∧ w1.tags id = w.tags id) ?_ ?_ ?_ w
    ⟨sameEnv_refl w, ⟨[], by simp, by simp⟩, rfl, rfl⟩
  · exact h.2
  · intro w1 h1
    exact ⟨h1.1.1, h1.1.2.1⟩
  · intro w1 name ok h1
    obtain ⟨e1, ⟨cs, c1, c2⟩, e2, e3⟩ := h1
    refine ⟨sameEnv_trans _ _ _ e1 (sameEnv_record w1 _),
      ⟨cs ++ [Call.GetLibraryItems name ok], by simp [World.record, c1], ?_⟩, e2, e3⟩
    intro c hc
    rcases List.mem_append.mp hc with h | h
    · exact c2 c h
    · rw [List.mem_singleton] at h
      rw [h]
      simp [Call.itemID]
  · intro w1 l ids id1 h1 hl hids hid
    obtain ⟨e1, ⟨cs, c1, c2⟩, e2, e3⟩ := h1
    by_cases hj : id1 = id
    · subst hj
      rw [processItem_excluded cfg l w1 _ (hex l hl ids hids hid)]
      exact ⟨e1, ⟨cs, c1, c2⟩, e2, e3⟩
    · obtain ⟨s1, ⟨cs2, s2, s3⟩, s4, s5⟩ := processItem_stepFor cfg l w1 (toItem w id1)
      rw [toItem_ID] at s3 s4 s5
      refine ⟨sameEnv_trans _ _ _ e1 s1,
        ⟨cs ++ cs2, by rw [s2, c1, List.append_assoc], ?_⟩,
        by rw [s4 id (Ne.symm hj), e2], by rw [s5 id (Ne.symm hj), e3]⟩
      intro c hc
      rcases List.mem_append.mp hc with h | h
      · exact c2 c h
      · rw [s3 c h]
        intro hc2
        injection hc2 with hc2
        exact hj hc2

/-- A pass keeps the surroundings. -/
theorem reconcile_env (cfg : Config) (w : World) : sameEnv w (reconcile cfg w) := by
  refine reconcile_invariant cfg w (fun w1 => sameEnv w w1) ?_ ?_ ?_ w (sameEnv_refl w)
  · intro w1 h1
    exact ⟨h1.1, h1.2.1⟩
  · intro w1 name ok h1
    exact sameEnv_trans _ _ _ h1 (sameEnv_record w1 _)
  · intro w1 l ids id h1 _ _ _
    exact sameEnv_trans _ _ _ h1 (processItem_stepFor cfg l w1 (toItem w id)).1

theorem isExcluded_iff (name : String) (exclusions : List String) :
    isExcluded name exclusions = true ↔ name ∈ exclusions := by
  induction exclusions with
  | nil => simp [isExcluded]
  | cons x rest ih =>
    unfold isExcluded
    by_cases h : name = x
    · simp [h]
    · simp [h, ih]

/-- C11, as the code has it: idempotence of the Reconciler pass on a staging
playlist that lists no item twice. When no gateway call fails, the staging
playlist lists no item twice, and `e` is the eligibility assignment (what
`shouldMarkForDeletion` says of each item under every library that lists it
without excluding it), a second pass on the world the first pass produced makes
no `AddToPlaylist`, `RemoveFromPlaylist`, `AddTag` or `RemoveTag` call and leaves
every playlist and the tags of every item as the first pass left them. -/
theorem reconcile_idempotent (cfg : Config) (w : World) (e : String → Bool)
    (hok : ∀ n, w.fault n = false) (hnd : stagedOnce cfg w)
    (he : ∀ l ∈ cfg.Libraries, ∀ ids, w.libraries l.Name = some ids → ∀ id ∈ ids,
      isExcluded (toItem w id).Name l.Exclusions = false →
      (shouldMarkForDeletion w (toItem w id) l).1.1 = e id) :
    (newCalls (reconcile cfg w) (reconcile cfg (reconcile cfg w))).filter Call.isMutation = [] ∧
    (reconcile cfg (reconcile cfg w)).playlists = (reconcile cfg w).playlists ∧
    (reconcile cfg (reconcile cfg w)).tags = (reconcile cfg w).tags := by
  have henv := reconcile_env cfg w
  have hok1 := sameEnv_fault w _ henv hok
  obtain ⟨cs, c1, c2, _, _, c5, c6⟩ := reconcile_settled cfg (reconcile cfg w) hok1 (by
    intro l hl ids hids id hid hex
    rw [toItem_env _ w henv.1] at hex ⊢
    rw [henv.2.1] at hids
    rw [(reconcile_staged cfg w e hok hnd he l hl ids hids id hid hex).2,
      verdict_env w _ _ _ henv, ← shouldMarkForDeletion_verdict w _ _ hok,
      he l hl ids hids id hid hex])
  exact ⟨by rw [newCalls_append _ _ cs c1]; exact filter_reads cs c2, c5, c6⟩

/-- C11 witness: in the example world with nothing staged and `s1` played by
every user, the first pass stages `s1`; the second pass makes no write. -/
theorem reconcile_idempotent_witness :
    (newCalls (reconcile exampleConfig watchedWorld)
      (reconcile exampleConfig (reconcile exampleConfig watchedWorld))).filter Call.isMutation
      = [] ∧
    isStaged exampleConfig (reconcile exampleConfig watchedWorld) "s1" = true :=
  ⟨(reconcile_idempotent exampleConfig watchedWorld (fun _ => true) (fun _ => rfl)
      (by intro ids hids; simp [watchedWorld, exampleConfig] at hids)
      (by
        intro l hl ids hids id hid _
        simp only [exampleConfig, List.mem_singleton] at hl
        subst hl
        have hi : ids = ["s1"] := by
          simp [watchedWorld, exampleWorld] at hids
          exact hids.symm
        subst hi
        simp only [List.mem_singleton] at hid
        subst hid
        decide)).1,
    by decide⟩

/-- C11, the claim as written fails on a staging playlist that lists an item
twice: `s1` is listed twice and not eligible; no call fails. The first pass
removes one entry, and the second pass, on the world the first pass produced,
calls `RemoveFromPlaylist` again and changes the playlist. A pass itself leaves
such a playlist when its `IsInPlaylist` call fails for a staged, eligible item.
The claim also fails when two libraries of the configuration list an item under
rules that disagree on it: each pass stages the item and unstages it again. -/
theorem reconcile_second_pass_writes_when_listed_twice :
    (∀ n, listedTwiceWorld.fault n = false) ∧
    (shouldMarkForDeletion listedTwiceWorld exampleSeries exampleLibrary).1 = (false, "") ∧
    (shouldMarkForDeletion (reconcile exampleConfig listedTwiceWorld) exampleSeries
      exampleLibrary).1 = (false, "") ∧
    (newCalls (reconcile exampleConfig listedTwiceWorld)
      (reconcile exampleConfig (reconcile exampleConfig listedTwiceWorld))).filter Call.isMutation
      = [Call.RemoveFromPlaylist "s1" "Headed Out" true] ∧
    (reconcile exampleConfig listedTwiceWorld).playlists "Headed Out" = some ["s1"] ∧
    (reconcile exampleConfig (reconcile exampleConfig listedTwiceWorld)).playlists "Headed Out"
      = some [] ∧
    thirdCallFails.playlists "Headed Out" = some ["s1"] ∧
    (reconcile exampleConfig thirdCallFails).playlists "Headed Out" = some ["s1", "s1"] ∧
    (newCalls (reconcile twoRulesConfig watchedWorld)
      (reconcile twoRulesConfig (reconcile twoRulesConfig watchedWorld))).filter Call.isMutation
      = [Call.AddToPlaylist "s1" "Headed Out" true,
         Call.AddTag "s1" "Jellycleaner-Expire-2023-11-21" true,
         Call.RemoveFromPlaylist "s1" "Headed Out" true] :=
  ⟨fun _ => rfl, by decide, by decide, by decide, by decide, by decide, by decide, by decide,
    by decide⟩

/-- C12, as the code has it: convergence of the Reconciler pass on a staging
playlist that lists no item twice. When no gateway call fails, the staging
playlist lists no item twice, and `e` is the eligibility assignment (what
`shouldMarkForDeletion` says of each item under every library that lists it
without excluding it), then after one pass every item of a configured library
that the library does not exclude is a member of the staging playlist exactly
when `shouldMarkForDeletion` returns eligible for it. -/
theorem reconcile_converges (cfg : Config) (w : World) (e : String → Bool)
    (hok : ∀ n, w.fault n = false) (hnd : stagedOnce cfg w)
    (he : ∀ l ∈ cfg.Libraries, ∀ ids, w.libraries l.Name = some ids → ∀ id ∈ ids,
      isExcluded (toItem w id).Name l.Exclusions = false →
      (shouldMarkForDeletion w (toItem w id) l).1.1 = e id)
    (library : Library) (hlib : library ∈ cfg.Libraries) (ids : List String)
    (hids : w.libraries library.Name = some ids) (id : String) (hid : id ∈ ids)
    (hex : isExcluded (toItem w id).Name library.Exclusions = false) :
    (isStaged cfg (reconcile cfg w) id = true ↔
      (shouldMarkForDeletion (reconcile cfg w) (toItem (reconcile cfg w) id) library).1.1
        = true) ∧
    (shouldMarkForDeletion (reconcile cfg w) (toItem (reconcile cfg w) id) library).1.1
      = (shouldMarkForDeletion w (toItem w id) library).1.1 := by
  have henv := reconcile_env cfg w
  have hok1 := sameEnv_fault w _ henv hok
  have h1 : (shouldMarkForDeletion (reconcile cfg w) (toItem (reconcile cfg w) id) library).1.1
      = (shouldMarkForDeletion w (toItem w id) library).1.1 := by
    rw [toItem_env _ w henv.1, shouldMarkForDeletion_verdict _ _ _ hok1,
      verdict_env w _ _ _ henv, ← shouldMarkForDeletion_verdict w _ _ hok]
  refine ⟨?_, h1⟩
  rw [h1, (reconcile_staged cfg w e hok hnd he library hlib ids hids id hid hex).2,
    he library hlib ids hids id hid hex]

/-- C12 witness: in the example world `s1` is staged and not eligible; after the
pass it is not a member of the staging playlist. -/
theorem reconcile_converges_witness :
    (isStaged exampleConfig (reconcile exampleConfig exampleWorld) "s1" = true ↔
      (shouldMarkForDeletion (reconcile exampleConfig exampleWorld)
        (toItem (reconcile exampleConfig exampleWorld) "s1") exampleLibrary).1.1 = true) ∧
    isStaged exampleConfig exampleWorld "s1" = true ∧
    isStaged exampleConfig (reconcile exampleConfig exampleWorld) "s1" = false :=
  ⟨(reconcile_converges exampleConfig exampleWorld (fun _ => false) (fun _ => rfl)
      (by
        intro ids hids
        have hi : ids = ["s1", "e1"] := by
          simp [exampleWorld, exampleConfig] at hids
          exact hids.symm
        subst hi
        decide)
      (by
        intro l hl ids hids id hid _
        simp only [exampleConfig, List.mem_singleton] at hl
        subst hl
        have hi : ids = ["s1"] := by
          simp [exampleWorld] at hids
          exact hids.symm
        subst hi
        simp only [List.mem_singleton] at hid
        subst hid
        decide)
      exampleLibrary (by decide) ["s1"] (by decide) "s1" (by decide) (by decide)).1,
    by decide, by decide⟩

/-- C12, the claim as written fails on a staging playlist that lists an item
twice: `s1` is listed twice, not excluded and not eligible; no call fails, and
after the pass `s1` still is a member of the staging playlist. It also fails
when two libraries of the configuration list an item under rules that disagree
on it: after the pass `s1` is not staged, and eligible under the first rule. -/
theorem reconcile_leaves_staged_when_listed_twice :
    (∀ n, listedTwiceWorld.fault n = false) ∧
    isExcluded exampleSeries.Name exampleLibrary.Exclusions = false ∧
    toItem (reconcile exampleConfig listedTwiceWorld) "s1" = exampleSeries ∧
    (shouldMarkForDeletion (reconcile exampleConfig listedTwiceWorld) exampleSeries
      exampleLibrary).1 = (false, "") ∧
    isStaged exampleConfig (reconcile exampleConfig listedTwiceWorld) "s1" = true ∧
    newCalls listedTwiceWorld (reconcile exampleConfig listedTwiceWorld)
      = [Call.GetLibraryItems "TV" true,
         Call.IsWatchedByAllUsers "s1" (some false),
         Call.GetItemAddedDate "s1" true,
         Call.IsInPlaylist "s1" "Headed Out" true,
         Call.RemoveFromPlaylist "s1" "Headed Out" true,
         Call.GetExpirationTags "s1" []] ∧
    isStaged twoRulesConfig (reconcile twoRulesConfig watchedWorld) "s1" = false ∧
    (shouldMarkForDeletion (reconcile twoRulesConfig watchedWorld) exampleSeries
      exampleLibrary).1 = (true, "Watched by all users") :=
  ⟨fun _ => rfl, by decide, by decide, by decide, by decide, by decide, by decide, by decide⟩

/-- C14: exclusion. `isExcluded` is true exactly when the name is an entry of
the list (string equality, case-sensitive). For an item whose name the library
excludes, the loop body of the Reconciler does nothing at all: the world,
history of calls included, is as before. And an item that every library listing
it excludes is left alone by the whole pass, whichever calls fail: no call of
the pass is made for it (no evaluation, no write), and its staging membership
and its tags are as before, so that it is not staged when it was not, and
stays staged with its markers when it was. -/
theorem excluded_item_is_left_alone :
    (∀ (name : String) (exclusions : List String),
      isExcluded name exclusions = true ↔ name ∈ exclusions) ∧
    (∀ (cfg : Config) (library : Library) (w : World) (item : Item),
      isExcluded item.Name library.Exclusions = true →
      processItem cfg library w item = w) ∧
    (∀ (cfg : Config) (w : World) (id : String),
      (∀ l ∈ cfg.Libraries, ∀ ids, w.libraries l.Name = some ids → id ∈ ids →
        isExcluded (toItem w id).Name l.Exclusions = true) →
      (∀ c ∈ newCalls w (reconcile cfg w), c.itemID ≠ some id) ∧
      isStaged cfg (reconcile cfg w) id = isStaged cfg w id ∧
      (reconcile cfg w).tags id = w.tags id) := by
  refine ⟨isExcluded_iff, processItem_excluded, ?_⟩
  intro cfg w id hex
  obtain ⟨⟨cs, c1, c2⟩, h2, h3⟩ := reconcile_avoids cfg w id hex
  refine ⟨?_, h2, h3⟩
  rw [newCalls_append w _ cs c1]
  exact c2

/-- C14 witness: in the example world with `s1` named `Keep`, which the library
`TV` excludes, `s1` is played by every user, staged and marked. The pass only
lists the library; `s1` stays staged with its marker. With the staging playlist
empty instead, `s1` is not staged by the pass. -/
theorem excluded_item_is_left_alone_witness :
    ((∀ c ∈ newCalls keepWorld (reconcile exampleConfig keepWorld), c.itemID ≠ some "s1") ∧
      isStaged exampleConfig (reconcile exampleConfig keepWorld) "s1"
        = isStaged exampleConfig keepWorld "s1" ∧
      (reconcile exampleConfig keepWorld).tags "s1" = keepWorld.tags "s1") ∧
    newCalls keepWorld (reconcile exampleConfig keepWorld) = [Call.GetLibraryItems "TV" true] ∧
    isStaged exampleConfig keepWorld "s1" = true ∧
    keepWorld.tags "s1" = ["Jellycleaner-Expire-2023-11-10"] ∧
    (shouldMarkForDeletion keepWorld (toItem keepWorld "s1") exampleLibrary).1.1 = true ∧
    isStaged exampleConfig
      (reconcile exampleConfig { keepWorld with playlists := fun _ => none }) "s1" = false :=
  ⟨excluded_item_is_left_alone.2.2 exampleConfig keepWorld "s1" (by
      intro l hl ids _ _
      simp only [exampleConfig, List.mem_singleton] at hl
      subst hl
      decide),
    by decide, by decide, by decide, by decide, by decide⟩

/-- A pass leaves alone an item that is staged and that the evaluator finds
eligible under every library listing it without excluding it: when no call
fails, the item stays a member of the staging playlist, its tags are as before,
and no call made for it is a write. -/
theorem reconcile_keeps_staged (cfg : Config) (w : World) (id : String)
    (hok : ∀ n, w.fault n = false) (hst : isStaged cfg w id = true)
    (hel : ∀ l ∈ cfg.Libraries, ∀ ids, w.libraries l.Name = some ids → id ∈ ids →
      isExcluded (toItem w id).Name l.Exclusions = false →
      (shouldMarkForDeletion w (toItem w id) l).1.1 = true) :
    isStaged cfg (reconcile cfg w) id = true ∧ (reconcile cfg w).tags id = w.tags id ∧
    ∃ cs, (reconcile cfg w).trace = w.trace ++ cs ∧
      ∀ c ∈ cs, c.itemID = some id → c.isMutation = false := by
  have h := reconcile_invariant cfg w
    (fun w1 => sameEnv w w1 ∧ isStaged cfg w1 id = true ∧ w1.tags id = w.tags id ∧
      ∃ cs, w1.trace = w.trace ++ cs ∧ ∀ c ∈ cs, c.itemID = some id → c.isMutation = false)
    ?_ ?_ ?_ w ⟨sameEnv_refl w, hst, rfl, [], by simp, by simp⟩
  · exact h.2
  · intro w1 h1
    exact ⟨h1.1.1, h1.1.2.1⟩
  · intro w1 name ok h1
    obtain ⟨e1, e2, e3, cs, c1, c2⟩ := h1
    refine ⟨sameEnv_trans _ _ _ e1 (sameEnv_record w1 _), e2, e3,
      cs ++ [Call.GetLibraryItems name ok], by simp [World.record, c1], ?_⟩
    intro c hc
    rcases List.mem_append.mp hc with h | h
    · exact c2 c h
    · rw [List.mem_singleton] at h
      rw [h]
      simp [Call.isMutation]
  · intro w1 l ids id1 h1 hl hids hid
    obtain ⟨e1, e2, e3, cs, c1, c2⟩ := h1
    obtain ⟨s1, ⟨cs2, s2, s3⟩, s4, s5⟩ := processItem_stepFor cfg l w1 (toItem w id1)
    rw [toItem_ID] at s3 s4 s5
    by_cases hj : id1 = id
    · subst hj
      have hok1 := sameEnv_fault w w1 e1 hok
      obtain ⟨cs3, r1, r2, _, _, r5, r6⟩ := processItem_settled cfg l w1 (toItem w id1) hok1 (by
        intro hex
        rw [toItem_ID, e2, verdict_env w w1 _ _ e1, ← shouldMarkForDeletion_verdict w _ _ hok,
          hel l hl ids hids hid hex])
      refine ⟨sameEnv_trans _ _ _ e1 s1, ?_, by rw [r6, e3],
        cs ++ cs3, by rw [r1, c1, List.append_assoc], ?_⟩
      · unfold isStaged at e2 ⊢
        rw [r5]
        exact e2
      · intro c hc hc2
        rcases List.mem_append.mp hc with h | h
        · exact c2 c h hc2
        · exact r2 c h
    · refine ⟨sameEnv_trans _ _ _ e1 s1, by rw [s4 id (Ne.symm hj), e2],
        by rw [s5 id (Ne.symm hj), e3], cs ++ cs2, by rw [s2, c1, List.append_assoc], ?_⟩
      intro c hc hc2
      rcases List.mem_append.mp hc with h | h
      · exact c2 c h hc2
      · rw [s3 c h] at hc2
        injection hc2 with hc2
        exact absurd hc2 hj

/-- C13, as the code has it: a staged item that stays eligible is left as it
is. For an item that is a member of the staging playlist and that
`shouldMarkForDeletion` finds eligible under every library that lists it
without excluding it, a pass in which no gateway call fails makes no write for
the item (no `AddToPlaylist`, `RemoveFromPlaylist`, `AddTag`, `RemoveTag`): the
item stays staged with exactly the tags it had. In particular an item staged
with no expiration marker, as a pass leaves it when `AddToPlaylist` succeeded
and `AddTag` failed, is still staged with no expiration marker after the
following pass. -/
theorem staged_eligible_item_is_not_repaired (cfg : Config) (w : World) (id : String)
    (hok : ∀ n, w.fault n = false) (hst : isStaged cfg w id = true)
    (hel : ∀ l ∈ cfg.Libraries, ∀ ids, w.libraries l.Name = some ids → id ∈ ids →
      isExcluded (toItem w id).Name l.Exclusions = false →
      (shouldMarkForDeletion w (toItem w id) l).1.1 = true) :
    isStaged cfg (reconcile cfg w) id = true ∧
    (reconcile cfg w).tags id = w.tags id ∧
    (markersOf w id = [] → markersOf (reconcile cfg w) id = []) ∧
    ∀ c ∈ newCalls w (reconcile cfg w), c.itemID = some id → c.isMutation = false := by
  obtain ⟨h1, h2, cs, c1, c2⟩ := reconcile_keeps_staged cfg w id hok hst hel
  refine ⟨h1, h2, ?_, ?_⟩
  · intro hm
    unfold markersOf at hm ⊢
    rw [h2]
    exact hm
  · rw [newCalls_append w _ cs c1]
    exact c2

/-- C13 witness: the world a pass left after `AddToPlaylist` succeeded and
`AddTag` failed for `s1`; `s1` is staged without a marker and still eligible.
After a pass in which no call fails, `s1` has no marker. -/
theorem staged_eligible_item_is_not_repaired_witness :
    isStaged exampleConfig afterPartialFailure "s1" = true ∧
    markersOf afterPartialFailure "s1" = [] ∧
    markersOf (reconcile exampleConfig afterPartialFailure) "s1" = [] :=
  ⟨by decide, by decide,
    (staged_eligible_item_is_not_repaired exampleConfig afterPartialFailure "s1"
      (fun _ => rfl) (by decide) (by
        intro l hl ids _ _ _
        simp only [exampleConfig, List.mem_singleton] at hl
        subst hl
        decide)).2.2.1 (by decide)⟩

/-- C13, the claim as written fails on the code: in the first pass
`AddToPlaylist` succeeds for the newly eligible `s1` and `AddTag` fails, so that
`s1` is staged with no marker. In the following pass eligibility is unchanged
and every call succeeds; the pass finds `s1` in the playlist and writes
nothing, and `s1` is staged with no marker, not with one. -/
theorem reconcile_does_not_repair_missing_marker :
    newCalls fifthCallFails (reconcile exampleConfig fifthCallFails)
      = [Call.GetLibraryItems "TV" true,
         Call.IsWatchedByAllUsers "s1" (some true),
         Call.IsInPlaylist "s1" "Headed Out" false,
         Call.AddToPlaylist "s1" "Headed Out" true,
         Call.AddTag "s1" "Jellycleaner-Expire-2023-11-21" false] ∧
    isStaged exampleConfig (reconcile exampleConfig fifthCallFails) "s1" = true ∧
    markersOf (reconcile exampleConfig fifthCallFails) "s1" = [] ∧
    newCalls (reconcile exampleConfig fifthCallFails)
        (reconcile exampleConfig (reconcile exampleConfig fifthCallFails))
      = [Call.GetLibraryItems "TV" true,
         Call.IsWatchedByAllUsers "s1" (some true),
         Call.IsInPlaylist "s1" "Headed Out" true] ∧
    isStaged exampleConfig
      (reconcile exampleConfig (reconcile exampleConfig fifthCallFails)) "s1" = true ∧
    (reconcile exampleConfig (reconcile exampleConfig fifthCallFails)).tags "s1" = [] ∧
    (markersOf (reconcile exampleConfig (reconcile exampleConfig fifthCallFails)) "s1").length
      ≠ 1 :=
  ⟨by decide, by decide, by decide, by decide, by decide, by decide, by decide⟩

/-- A marker written by `formatExpirationTag` starts with `expireTagConst`. -/
theorem formatExpirationTag_starts (t : Time) :
    hasPrefix (formatExpirationTag t) expireTagConst = true := by
  unfold hasPrefix formatExpirationTag
  rw [String.data_append, List.isPrefixOf_iff_prefix]
  exact List.prefix_append _ _

/-- C18, what the code does: the prefix `formatExpirationTag` writes and the
prefix `GetExpirationTags` filters by do not agree. For every world, item and
expiration time, the marker `formatExpirationTag t` is not in the list
`GetExpirationTags` returns, whatever tags the item carries; the tags it
returns start with `"Expires: "`, and none of those starts with
`expireTagConst`. -/
theorem GetExpirationTags_never_returns_marker (w : World) (id : String) (t : Time) :
    formatExpirationTag t ∉ (GetExpirationTags w id).1 ∧
    ∀ tag ∈ (GetExpirationTags w id).1,
      hasPrefix tag "Expires: " = true ∧ hasPrefix tag expireTagConst = false := by
  refine ⟨?_, ?_⟩
  · intro hm
    have h1 := GetExpirationTags_result w id _ hm
    rw [formatExpirationTag_starts t] at h1
    exact absurd h1 (by decide)
  · intro tag hm
    refine ⟨?_, GetExpirationTags_result w id tag hm⟩
    unfold GetExpirationTags at hm
    by_cases hf : w.faulty = true
    · simp [hf] at hm
    · simp only [hf, Bool.false_eq_true, if_false, List.mem_filter] at hm
      exact hm.2

/-- C18 at the failing input: `s1` carries the marker the Reconciler wrote for
2023-11-21; no call fails, and `GetExpirationTags` returns the empty list. -/
theorem GetExpirationTags_misses_written_marker :
    formatExpirationTag ⟨1700604800, 0, 0⟩ = "Jellycleaner-Expire-2023-11-21" ∧
    "Jellycleaner-Expire-2023-11-21" ∈ (stagedWorld ["Jellycleaner-Expire-2023-11-21"]).tags "s1" ∧
    (GetExpirationTags (stagedWorld ["Jellycleaner-Expire-2023-11-21"]) "s1").1 = [] ∧
    formatExpirationTag ⟨1700604800, 0, 0⟩
      ∉ (GetExpirationTags (stagedWorld ["Jellycleaner-Expire-2023-11-21"]) "s1").1 :=
  ⟨by decide, by decide, by decide,
    (GetExpirationTags_never_returns_marker (stagedWorld ["Jellycleaner-Expire-2023-11-21"])
      "s1" ⟨1700604800, 0, 0⟩).1⟩

/-! ## What `time.Parse` accepts -/

theorem isDigit_digitChar (c : Char) (h : isDigit c = true) :
    0 ≤ digitVal c ∧ digitVal c ≤ 9 ∧ digitChar (digitVal c).toNat = c := by
  unfold isDigit at h
  rw [decide_eq_true_iff] at h
  unfold digitVal digitChar
  refine ⟨by omega, by omega, ?_⟩
  have e : 48 + ((c.toNat : Int) - 48).toNat = c.toNat := by omega
  rw [e, Char.ofNat_toNat]

theorem skipDash_some (s r : List Char) (h : skipDash s = some r) : s = '-' :: r := by
  cases s with
  | nil => simp [skipDash] at h
  | cons c t =>
    unfold skipDash at h
    by_cases hc : c = '-'
    · simp only [hc, if_true, Option.some.injEq] at h
      rw [hc, h]
    · simp [hc] at h

theorem getnum_fixed_some (s r : List Char) (v : Int) (h : getnum s true = some (v, r)) :
    ∃ c0 c1, s = c0 :: c1 :: r ∧ isDigit c0 = true ∧ isDigit c1 = true ∧
      v = digitVal c0 * 10 + digitVal c1 := by
  cases s with
  | nil => simp [getnum] at h
  | cons c0 t =>
    cases t with
    | nil =>
      unfold getnum at h
      by_cases h0 : isDigit c0 = true
      · simp [h0] at h
      · simp [h0] at h
    | cons c1 t1 =>
      unfold getnum at h
      by_cases h0 : isDigit c0 = true
      · by_cases h1 : isDigit c1 = true
        · simp only [h0, h1, Bool.true_eq_false, if_false, if_true, Option.some.injEq,
            Prod.mk.injEq] at h
          exact ⟨c0, c1, by rw [h.2], h0, h1, h.1.symm⟩
        · simp [h0, h1] at h
      · simp [h0] at h

theorem getYear_some (s r : List Char) (v : Int) (h : getYear s = some (v, r)) :
    ∃ c0 c1 c2 c3, s = c0 :: c1 :: c2 :: c3 :: r ∧ isDigit c0 = true ∧ isDigit c1 = true ∧
      isDigit c2 = true ∧ isDigit c3 = true ∧
      v = digitVal c0 * 1000 + digitVal c1 * 100 + digitVal c2 * 10 + digitVal c3 := by
  rcases s with _ | ⟨c0, _ | ⟨c1, _ | ⟨c2, _ | ⟨c3, t⟩⟩⟩⟩
  · simp [getYear] at h
  · simp [getYear] at h
  · simp [getYear] at h
  · simp [getYear] at h
  · have h2 : getYear (c0 :: c1 :: c2 :: c3 :: t)
        = if isDigit c0 = true ∧ isDigit c1 = true ∧ isDigit c2 = true ∧ isDigit c3 = true then
            some (digitVal c0 * 1000 + digitVal c1 * 100 + digitVal c2 * 10 + digitVal c3, t)
          else none := rfl
    rw [h2] at h
    by_cases hd : isDigit c0 = true ∧ isDigit c1 = true ∧ isDigit c2 = true ∧ isDigit c3 = true
    · rw [if_pos hd] at h
      simp only [Option.some.injEq, Prod.mk.injEq] at h
      exact ⟨c0, c1, c2, c3, by rw [h.2], hd.1, hd.2.1, hd.2.2.1, hd.2.2.2, h.1.symm⟩
    · rw [if_neg hd] at h
      exact absurd h (by simp)

/-- What `time.Parse("2006-01-02", value)` accepts: when it returns a time, the
value is the ten characters of a valid calendar date with a year of four digits,
and the time is midnight UTC of that date. -/
theorem parseDate_some (value : String) (p : Time) (h : parseDate value = some p) :
    ∃ y m d, 0 ≤ y ∧ y ≤ 9999 ∧ 1 ≤ m ∧ m ≤ 12 ∧ 1 ≤ d ∧ d ≤ daysIn m y ∧
      value = dateString y m d ∧ p = mkDate y m d 0 0 0 := by
  unfold parseDate at h
  cases hy : getYear value.data with
  | none => rw [hy] at h; exact absurd h (by simp)
  | some yr =>
    obtain ⟨year, v1⟩ := yr
    rw [hy] at h
    simp only [] at h
    cases hs1 : skipDash v1 with
    | none => rw [hs1] at h; exact absurd h (by simp)
    | some v2 =>
      rw [hs1] at h
      simp only [] at h
      cases hm : getnum v2 true with
      | none => rw [hm] at h; exact absurd h (by simp)
      | some mr =>
        obtain ⟨month, v3⟩ := mr
        rw [hm] at h
        simp only [] at h
        by_cases hmr : month ≤ 0 ∨ 12 < month
        · rw [if_pos hmr] at h; exact absurd h (by simp)
        · rw [if_neg hmr] at h
          cases hs2 : skipDash v3 with
          | none => rw [hs2] at h; exact absurd h (by simp)
          | some v4 =>
            rw [hs2] at h
            simp only [] at h
            cases hd : getnum v4 true with
            | none => rw [hd] at h; exact absurd h (by simp)
            | some dr =>
              obtain ⟨day, v5⟩ := dr
              rw [hd] at h
              simp only [] at h
              by_cases h5 : v5 ≠ []
              · rw [if_pos h5] at h; exact absurd h (by simp)
              · rw [if_neg h5] at h
                by_cases hdr : day < 1 ∨ day > daysIn month year
                · rw [if_pos hdr] at h; exact absurd h (by simp)
                · rw [if_neg hdr] at h
                  simp only [Option.some.injEq] at h
                  have h5e : v5 = [] := by
                    by_contra hne
                    exact h5 hne
                  subst h5e
                  obtain ⟨c0, c1, c2, c3, e1, g0, g1, g2, g3, ey⟩ := getYear_some _ _ _ hy
                  obtain ⟨c4, c5, e3, g4, g5, em⟩ := getnum_fixed_some _ _ _ hm
                  obtain ⟨c6, c7, e5, g6, g7, ed⟩ := getnum_fixed_some _ _ _ hd
                  have e2 := skipDash_some _ _ hs1
                  have e4 := skipDash_some _ _ hs2
                  obtain ⟨a0, b0, k0⟩ := isDigit_digitChar c0 g0
                  obtain ⟨a1, b1, k1⟩ := isDigit_digitChar c1 g1
                  obtain ⟨a2, b2, k2⟩ := isDigit_digitChar c2 g2
                  obtain ⟨a3, b3, k3⟩ := isDigit_digitChar c3 g3
                  obtain ⟨a4, b4, k4⟩ := isDigit_digitChar c4 g4
                  obtain ⟨a5, b5, k5⟩ := isDigit_digitChar c5 g5
                  obtain ⟨a6, b6, k6⟩ := isDigit_digitChar c6 g6
                  obtain ⟨a7, b7, k7⟩ := isDigit_digitChar c7 g7
                  have hy0 : 0 ≤ year := by omega
                  have hy1 : year < 10000 := by omega
                  have hm0 : 0 ≤ month := by omega
                  have hm1 : month < 100 := by omega
                  have hd0 : 0 ≤ day := by omega
                  have hd1 : day < 100 := by omega
                  refine ⟨year, month, day, hy0, by omega, by omega, by omega, by omega,
                    by omega, ?_, h.symm⟩
                  have q0 : year.toNat / 1000 = (digitVal c0).toNat := by omega
                  have q1 : year.toNat / 100 % 10 = (digitVal c1).toNat := by omega
                  have q2 : year.toNat / 10 % 10 = (digitVal c2).toNat := by omega
                  have q3 : year.toNat % 10 = (digitVal c3).toNat := by omega
                  have q4 : month.toNat / 10 = (digitVal c4).toNat := by omega
                  have q5 : month.toNat % 10 = (digitVal c5).toNat := by omega
                  have q6 : day.toNat / 10 = (digitVal c6).toNat := by omega
                  have q7 : day.toNat % 10 = (digitVal c7).toNat := by omega
                  unfold dateString
                  rw [appendInt_four year hy0 hy1, appendInt_two month hm0 hm1,
                    appendInt_two day hd0 hd1, q0, q1, q2, q3, q4, q5, q6, q7,
                    k0, k1, k2, k3, k4, k5, k6, k7]
                  have hv : value.data
                      = [c0, c1, c2, c3, '-', c4, c5, '-', c6, c7] := by
                    rw [e1, e2, e3, e4, e5]
                  apply String.ext
                  rw [hv]
                  rfl

/-! ## The sweep on the tags the gateway returns -/

/-- A tag that `GetExpirationTags` returns does not decode: it starts with `E`,
which `strings.TrimPrefix(tag, expireTagConst)` leaves in place and which is not
the first digit of a year. -/
theorem expires_tag_does_not_decode (tag : String) (h : hasPrefix tag "Expires: " = true) :
    parseExpirationDate tag = none := by
  have hd : dateStrOf tag = tag := by
    unfold dateStrOf trimPrefix
    rw [expires_not_marker tag h]
    simp
  unfold parseExpirationDate
  rw [hd]
  unfold hasPrefix at h
  have e : ("Expires: " : String).data = 'E' :: ("xpires: " : String).data := by decide
  rw [e] at h
  unfold parseDate
  rcases hdata : tag.data with _ | ⟨c0, _ | ⟨c1, _ | ⟨c2, _ | ⟨c3, r⟩⟩⟩⟩
  · rfl
  · rfl
  · rfl
  · rfl
  · rw [hdata] at h
    simp only [List.isPrefixOf, Bool.and_eq_true, beq_iff_eq] at h
    have h0 : isDigit c0 = false := by
      rw [← h.1]
      decide
    have hy : getYear (c0 :: c1 :: c2 :: c3 :: r) = none := by
      have h2 : getYear (c0 :: c1 :: c2 :: c3 :: r)
          = if isDigit c0 = true ∧ isDigit c1 = true ∧ isDigit c2 = true ∧ isDigit c3 = true then
              some (digitVal c0 * 1000 + digitVal c1 * 100 + digitVal c2 * 10 + digitVal c3, r)
            else none := rfl
      rw [h2, if_neg]
      rw [h0]
      simp
    rw [hy]

theorem sweepTags_skip (cfg : Config) (item : Item) (tags : List String)
    (h : ∀ t ∈ tags, parseExpirationDate t = none) :
    ∀ w : World, sweepTags cfg item tags w = w := by
  induction tags with
  | nil => intro w; rfl
  | cons t rest ih =>
    intro w
    have hs : sweepTags cfg item (t :: rest) w = sweepTags cfg item rest (sweepTag cfg item w t) := by
      simp [sweepTags]
    have ht : sweepTag cfg item w t = w := by
      unfold sweepTag
      rw [h t (by simp)]
    rw [hs, ht]
    exact ih (fun x hx => h x (by simp [hx])) w

/-- The visit of a playlist item none of whose `Expires: ` tags decodes: the tags
are read and nothing else is done. -/
theorem sweepItem_skip (cfg : Config) (w : World) (item : Item)
    (h : ∀ t ∈ w.tags item.ID, hasPrefix t "Expires: " = true → parseExpirationDate t = none) :
    sweepItem cfg w item
      = w.record (Call.GetExpirationTags item.ID (GetExpirationTags w item.ID).1) := by
  unfold sweepItem
  simp only []
  rw [sweepTags_skip cfg item]
  · rfl
  · intro t ht
    unfold GetExpirationTags at ht
    by_cases hf : w.faulty = true
    · simp [hf] at ht
    · simp only [hf, Bool.false_eq_true, if_false, List.mem_filter] at ht
      exact h t ht.1 ht.2

theorem sweepItems_skip (cfg : Config) (items : List Item) (w0 : World)
    (h : ∀ id, ∀ t ∈ w0.tags id, hasPrefix t "Expires: " = true → parseExpirationDate t = none) :
    ∀ cs0 : List Call, ∃ cs,
      items.foldl (sweepItem cfg) { w0 with trace := w0.trace ++ cs0 }
        = { w0 with trace := w0.trace ++ (cs0 ++ cs) } ∧
      ∀ c ∈ cs, ∃ id r, c = Call.GetExpirationTags id r := by
  induction items with
  | nil =>
    intro cs0
    exact ⟨[], by simp, by simp⟩
  | cons item rest ih =>
    intro cs0
    simp only [List.foldl_cons]
    have hs := sweepItem_skip cfg { w0 with trace := w0.trace ++ cs0 } item (h item.ID)
    rw [hs]
    obtain ⟨cs, e, p⟩ := ih (cs0 ++ [Call.GetExpirationTags item.ID
      (GetExpirationTags { w0 with trace := w0.trace ++ cs0 } item.ID).1])
    refine ⟨Call.GetExpirationTags item.ID
      (GetExpirationTags { w0 with trace := w0.trace ++ cs0 } item.ID).1 :: cs, ?_, ?_⟩
    · have e0 : ({ w0 with trace := w0.trace ++ cs0 } : World).record
          (Call.GetExpirationTags item.ID
            (GetExpirationTags { w0 with trace := w0.trace ++ cs0 } item.ID).1)
          = { w0 with trace := w0.trace ++ (cs0 ++ [Call.GetExpirationTags item.ID
              (GetExpirationTags { w0 with trace := w0.trace ++ cs0 } item.ID).1]) } := by
        simp [World.record]
      rw [e0, e]
      simp
    · intro c hc
      rcases List.mem_cons.mp hc with hc | hc
      · exact ⟨_, _, hc⟩
      · exact p c hc

/-- A sweep over a world in which no `Expires: ` tag decodes only reads: it
returns the world it started in with a longer history, made of the reading of
the playlist and of the tags of its items. -/
theorem sweep_reads (cfg : Config) (w : World)
    (h : ∀ id, ∀ t ∈ w.tags id, hasPrefix t "Expires: " = true → parseExpirationDate t = none) :
    ∃ cs, processItemsDueForDeletion cfg w = { w with trace := w.trace ++ cs } ∧
      ∀ c ∈ cs, (∃ ok, c = Call.GetPlaylistItems cfg.HeadedOutPlaylist.Name ok) ∨
        ∃ id r, c = Call.GetExpirationTags id r := by
  unfold processItemsDueForDeletion
  by_cases hf : w.faulty = true
  · refine ⟨[Call.GetPlaylistItems cfg.HeadedOutPlaylist.Name false], ?_, ?_⟩
    · simp [GetPlaylistItems, hf, World.record]
    · intro c hc
      rw [List.mem_singleton] at hc
      exact Or.inl ⟨false, hc⟩
  · cases hp : w.playlists cfg.HeadedOutPlaylist.Name with
    | none =>
      refine ⟨[Call.GetPlaylistItems cfg.HeadedOutPlaylist.Name false], ?_, ?_⟩
      · simp [GetPlaylistItems, hf, hp, World.record]
      · intro c hc
        rw [List.mem_singleton] at hc
        exact Or.inl ⟨false, hc⟩
    | some ids =>
      have hg : GetPlaylistItems w cfg.HeadedOutPlaylist.Name
          = (some (ids.map (toItem w)),
              { w with trace := w.trace
                  ++ [Call.GetPlaylistItems cfg.HeadedOutPlaylist.Name true] }) := by
        simp [GetPlaylistItems, hf, hp, World.record]
      rw [hg]
      simp only []
      obtain ⟨cs, e, p⟩ := sweepItems_skip cfg (ids.map (toItem w)) w h
        [Call.GetPlaylistItems cfg.HeadedOutPlaylist.Name true]
      refine ⟨[Call.GetPlaylistItems cfg.HeadedOutPlaylist.Name true] ++ cs, e, ?_⟩
      intro c hc
      rcases List.mem_append.mp hc with hc | hc
      · rw [List.mem_singleton] at hc
        exact Or.inl ⟨true, hc⟩
      · exact Or.inr (p c hc)

/-- Every sweep only reads: the tags `GetExpirationTags` hands to the marker
loop start with `Expires: ` and do not decode. -/
theorem sweep_reads_only (cfg : Config) (w : World) :
    ∃ cs, processItemsDueForDeletion cfg w = { w with trace := w.trace ++ cs } ∧
      ∀ c ∈ cs, (∃ ok, c = Call.GetPlaylistItems cfg.HeadedOutPlaylist.Name ok) ∨
        ∃ id r, c = Call.GetExpirationTags id r :=
  sweep_reads cfg w (fun _ t _ ht => expires_tag_does_not_decode t ht)

theorem reads_are_harmless (cfg : Config) (cs : List Call)
    (h : ∀ c ∈ cs, (∃ ok, c = Call.GetPlaylistItems cfg.HeadedOutPlaylist.Name ok) ∨
      ∃ id r, c = Call.GetExpirationTags id r) :
    ∀ c ∈ cs, c.isCatalogDelete = false ∧ c.isBookkeeping = false ∧ c.isMutation = false := by
  intro c hc
  rcases h c hc with ⟨ok, e⟩ | ⟨id, r, e⟩ <;> rw [e] <;> exact ⟨rfl, rfl, rfl⟩

theorem newCalls_longer (w : World) (cs : List Call) :
    newCalls w { w with trace := w.trace ++ cs } = cs := by
  simp [newCalls]

/-- C15, what the code does: a marker in the format of the writer is never
swept. In a world in which every tag of every item starts with
`expireTagConst`, as `formatExpirationTag` writes them, whatever the dates of
the markers and the reading of the clock, `processItemsDueForDeletion` issues no
catalog delete and makes no bookkeeping call; playlists, tags and the two
catalogs are as before. `GetExpirationTags` hands no such marker to the loop
over the markers. -/
theorem written_markers_are_never_swept (cfg : Config) (w : World)
    (hm : ∀ id, ∀ t ∈ w.tags id, hasPrefix t expireTagConst = true) :
    (∀ c ∈ newCalls w (processItemsDueForDeletion cfg w),
      c.isCatalogDelete = false ∧ c.isBookkeeping = false) ∧
    (processItemsDueForDeletion cfg w).playlists = w.playlists ∧
    (processItemsDueForDeletion cfg w).tags = w.tags ∧
    (processItemsDueForDeletion cfg w).series = w.series ∧
    (processItemsDueForDeletion cfg w).movies = w.movies := by
  obtain ⟨cs, e, p⟩ := sweep_reads cfg w (by
    intro id t ht hx
    have h1 := expires_not_marker t hx
    rw [hm id t ht] at h1
    exact absurd h1 (by decide))
  rw [e, newCalls_longer]
  refine ⟨?_, rfl, rfl, rfl, rfl⟩
  intro c hc
  obtain ⟨h1, h2, _⟩ := reads_are_harmless cfg cs p c hc
  exact ⟨h1, h2⟩

/-- C15 at the failing input: the series `s1` (TVDB id 42, in Sonarr) is staged
and carries the marker of 2020-01-01; the clock reads 2023-11-14T22:13:20Z and no
call fails. The marker decodes and the clock is after its date, and yet the
sweep reads the playlist, reads the expiration tags of `s1` as the empty list,
and stops: no `DeleteSeries`, `s1` is still staged and marked. -/
theorem sweep_skips_due_marker :
    formatExpirationTag ⟨1577836800, 0, 0⟩ = "Jellycleaner-Expire-2020-01-01" ∧
    parseExpirationDate "Jellycleaner-Expire-2020-01-01" = some ⟨1577836800, 0, 0⟩ ∧
    (stagedWorld ["Jellycleaner-Expire-2020-01-01"]).now.After ⟨1577836800, 0, 0⟩ = true ∧
    (GetPlaylistItems (stagedWorld ["Jellycleaner-Expire-2020-01-01"]) "Headed Out").1
      = some [exampleSeries] ∧
    newCalls (stagedWorld ["Jellycleaner-Expire-2020-01-01"])
        (processItemsDueForDeletion exampleConfig
          (stagedWorld ["Jellycleaner-Expire-2020-01-01"]))
      = [Call.GetPlaylistItems "Headed Out" true, Call.GetExpirationTags "s1" []] ∧
    isStaged exampleConfig
      (processItemsDueForDeletion exampleConfig
        (stagedWorld ["Jellycleaner-Expire-2020-01-01"])) "s1" = true ∧
    (processItemsDueForDeletion exampleConfig
      (stagedWorld ["Jellycleaner-Expire-2020-01-01"])).series = [⟨7, 42⟩] ∧
    ((∀ c ∈ newCalls (stagedWorld ["Jellycleaner-Expire-2020-01-01"])
        (processItemsDueForDeletion exampleConfig
          (stagedWorld ["Jellycleaner-Expire-2020-01-01"])),
        c.isCatalogDelete = false ∧ c.isBookkeeping = false) ∧
      (processItemsDueForDeletion exampleConfig
        (stagedWorld ["Jellycleaner-Expire-2020-01-01"])).playlists
        = (stagedWorld ["Jellycleaner-Expire-2020-01-01"]).playlists ∧
      (processItemsDueForDeletion exampleConfig
        (stagedWorld ["Jellycleaner-Expire-2020-01-01"])).tags
        = (stagedWorld ["Jellycleaner-Expire-2020-01-01"]).tags ∧
      (processItemsDueForDeletion exampleConfig
        (stagedWorld ["Jellycleaner-Expire-2020-01-01"])).series
        = (stagedWorld ["Jellycleaner-Expire-2020-01-01"]).series ∧
      (processItemsDueForDeletion exampleConfig
        (stagedWorld ["Jellycleaner-Expire-2020-01-01"])).movies
        = (stagedWorld ["Jellycleaner-Expire-2020-01-01"]).movies) :=
  ⟨by decide, by decide, by decide, by decide, by decide, by decide, by decide,
    written_markers_are_never_swept exampleConfig
      (stagedWorld ["Jellycleaner-Expire-2020-01-01"]) (by
        intro id t ht
        by_cases hi : id = "s1"
        · subst hi
          have e : t = "Jellycleaner-Expire-2020-01-01" := by
            simpa [stagedWorld] using ht
          subst e
          decide
        · simp [stagedWorld, hi] at ht)⟩

/-! ## Staging an eligible item in a whole pass -/

/-- Adding days within the range of Go's times: when the seconds since year 1 of
the result fit an `int64`, `AddDate(0, 0, days)` is the instant `days` times 24
hours later, in the same location. -/
theorem AddDate_in_range (t : Time) (days : Int)
    (h0 : -9223372036854775808 ≤ t.sec + unixToInternal + 86400 * days)
    (h1 : t.sec + unixToInternal + 86400 * days < 9223372036854775808) :
    t.AddDate days = ⟨t.sec + 86400 * days, t.nsec, t.offset⟩ := by
  obtain ⟨_, _, _, _, h⟩ := civilFromDays_spec ((t.sec + t.offset) / 86400)
  have hl : daysFromCivil t.date.year t.date.month (t.date.day + days)
      = (t.sec + t.offset) / 86400 + days := by
    rw [← h]
    simp only [daysFromCivil, Time.date]
    omega
  unfold unixToInternal at h0 h1
  unfold Time.AddDate
  simp only [mkDate, hl, Time.clock, wrap64, unixToInternal, Time.mk.injEq, and_true]
  omega

theorem writesFor_of_other (id j : String) (hj : j ≠ id) (cs : List Call)
    (h : ∀ c ∈ cs, c.itemID = some j) : cs.filter (Call.writesFor id) = [] := by
  rw [List.filter_eq_nil_iff]
  intro c hc
  unfold Call.writesFor
  rw [h c hc]
  simp [hj]

theorem writesFor_of_same (id : String) (cs : List Call)
    (h : ∀ c ∈ cs, c.itemID = some id) :
    cs.filter (Call.writesFor id) = cs.filter Call.isMutation := by
  apply List.filter_congr
  intro c hc
  unfold Call.writesFor
  rw [h c hc]
  simp

theorem writesFor_of_reads (id : String) (cs : List Call)
    (h : ∀ c ∈ cs, c.isMutation = false) : cs.filter (Call.writesFor id) = [] := by
  rw [List.filter_eq_nil_iff]
  intro c hc
  unfold Call.writesFor
  rw [h c hc]
  simp

/-- A loop body met after the item has been staged leaves it staged with its
marker and makes no write for it, when no call fails and the evaluator finds the
item eligible wherever it is listed without being excluded. -/
theorem stagedWith_visit (cfg : Config) (w : World) (id marker : String)
    (hok : ∀ n, w.fault n = false) (w1 : World) (l : Library) (id1 : String)
    (hv : id1 = id → isExcluded (toItem w id).Name l.Exclusions = false →
      (shouldMarkForDeletion w (toItem w id) l).1.1 = true)
    (h1 : stagedWith cfg w id marker w1) :
    stagedWith cfg w id marker (processItem cfg l w1 (toItem w id1)) := by
  obtain ⟨e1, e2, e3, cs, c1, c2⟩ := h1
  obtain ⟨s1, ⟨cs2, s2, s3⟩, s4, s5⟩ := processItem_stepFor cfg l w1 (toItem w id1)
  rw [toItem_ID] at s3 s4 s5
  by_cases hj : id1 = id
  · subst hj
    have hok1 := sameEnv_fault w w1 e1 hok
    obtain ⟨cs3, r1, r2, _, _, r5, r6⟩ := processItem_settled cfg l w1 (toItem w id1) hok1 (by
      intro hex
      rw [toItem_ID, e2, verdict_env w w1 _ _ e1, ← shouldMarkForDeletion_verdict w _ _ hok,
        hv rfl hex])
    refine ⟨sameEnv_trans _ _ _ e1 s1, ?_, by rw [r6, e3], cs ++ cs3,
      by rw [r1, c1, List.append_assoc], ?_⟩
    · unfold isStaged at e2 ⊢
      rw [r5]
      exact e2
    · rw [List.filter_append, c2, writesFor_of_reads id1 cs3 r2, List.append_nil]
  · refine ⟨sameEnv_trans _ _ _ e1 s1, by rw [s4 id (Ne.symm hj), e2],
      by rw [s5 id (Ne.symm hj), e3], cs ++ cs2, by rw [s2, c1, List.append_assoc], ?_⟩
    rw [List.filter_append, c2, writesFor_of_other id id1 hj cs2 s3, List.append_nil]

/-- A loop body met before the item has been staged: the loop body of the item
itself, unless the library excludes it, stages it with the marker of the instant
`DeletionDelayDays` times 24 hours after the clock; every other loop body leaves
it unstaged and untouched. -/
theorem notYetStaged_visit (cfg : Config) (w : World) (id : String)
    (hok : ∀ n, w.fault n = false)
    (h0 : -9223372036854775808
      ≤ w.now.sec + unixToInternal + 86400 * cfg.HeadedOutPlaylist.DeletionDelayDays)
    (h1 : w.now.sec + unixToInternal + 86400 * cfg.HeadedOutPlaylist.DeletionDelayDays
      < 9223372036854775808)
    (w1 : World) (l : Library) (id1 : String)
    (hv : id1 = id → isExcluded (toItem w id).Name l.Exclusions = false →
      (shouldMarkForDeletion w (toItem w id) l).1.1 = true)
    (hp : notYetStaged cfg w id w1) :
    ((id1 = id ∧ isExcluded (toItem w id).Name l.Exclusions = false) →
      stagedWith cfg w id
        (formatExpirationTag ⟨w.now.sec + 86400 * cfg.HeadedOutPlaylist.DeletionDelayDays,
          w.now.nsec, w.now.offset⟩)
        (processItem cfg l w1 (toItem w id1))) ∧
    (¬ (id1 = id ∧ isExcluded (toItem w id).Name l.Exclusions = false) →
      notYetStaged cfg w id (processItem cfg l w1 (toItem w id1))) := by
  obtain ⟨e1, e2, e3, cs, c1, c2⟩ := hp
  obtain ⟨s1, ⟨cs2, s2, s3⟩, s4, s5⟩ := processItem_stepFor cfg l w1 (toItem w id1)
  rw [toItem_ID] at s3 s4 s5
  have hok1 := sameEnv_fault w w1 e1 hok
  refine ⟨?_, ?_⟩
  · rintro ⟨hj, hex⟩
    subst hj
    have hel : (shouldMarkForDeletion w1 (toItem w id1) l).1.1 = true := by
      rw [shouldMarkForDeletion_verdict w1 _ _ hok1, verdict_env w w1 _ _ e1,
        ← shouldMarkForDeletion_verdict w _ _ hok]
      exact hv rfl hex
    obtain ⟨q1, q2, _, q4⟩ := processItem_stages_eligible cfg l w1 (toItem w id1) hex hel
      (by rw [toItem_ID]; exact e2) hok1
    rw [toItem_ID] at q1 q2 q4
    have hnow : w1.now = w.now := e1.2.2.2.2.2.1
    rw [hnow, AddDate_in_range w.now _ h0 h1] at q2 q4
    refine ⟨sameEnv_trans _ _ _ e1 s1, q1, by rw [q2, e3], cs ++ cs2,
      by rw [s2, c1, List.append_assoc], ?_⟩
    rw [newCalls_append w1 _ cs2 s2] at q4
    rw [List.filter_append, c2, writesFor_of_same id1 cs2 s3, q4, List.nil_append]
  · intro hn
    by_cases hj : id1 = id
    · subst hj
      have hex : isExcluded (toItem w id1).Name l.Exclusions = true := by
        cases hx : isExcluded (toItem w id1).Name l.Exclusions with
        | true => rfl
        | false => exact absurd ⟨rfl, hx⟩ hn
      rw [processItem_excluded cfg l w1 _ hex]
      exact ⟨e1, e2, e3, cs, c1, c2⟩
    · refine ⟨sameEnv_trans _ _ _ e1 s1, by rw [s4 id (Ne.symm hj), e2],
        by rw [s5 id (Ne.symm hj), e3], cs ++ cs2, by rw [s2, c1, List.append_assoc], ?_⟩
      rw [List.filter_append, c2, writesFor_of_other id id1 hj cs2 s3, List.append_nil]

/-- The Reconciler pass on an item that is not staged, that some configured
library lists without excluding it, and that the evaluator finds eligible
wherever it is so listed: when no call fails and the delay stays within the
range of Go's times, the pass ends with the item staged with one new marker. -/
theorem reconcile_stages (cfg : Config) (w : World) (id : String)
    (hok : ∀ n, w.fault n = false)
    (h0 : -9223372036854775808
      ≤ w.now.sec + unixToInternal + 86400 * cfg.HeadedOutPlaylist.DeletionDelayDays)
    (h1 : w.now.sec + unixToInternal + 86400 * cfg.HeadedOutPlaylist.DeletionDelayDays
      < 9223372036854775808)
    (hns : isStaged cfg w id = false)
    (library : Library) (hlib : library ∈ cfg.Libraries) (ids : List String)
    (hids : w.libraries library.Name = some ids) (hid : id ∈ ids)
    (hex : isExcluded (toItem w id).Name library.Exclusions = false)
    (hel : ∀ l ∈ cfg.Libraries, ∀ ids1, w.libraries l.Name = some ids1 → id ∈ ids1 →
      isExcluded (toItem w id).Name l.Exclusions = false →
      (shouldMarkForDeletion w (toItem w id) l).1.1 = true) :
    stagedWith cfg w id
      (formatExpirationTag ⟨w.now.sec + 86400 * cfg.HeadedOutPlaylist.DeletionDelayDays,
        w.now.nsec, w.now.offset⟩)
      (reconcile cfg w) := by
  refine reconcile_reaches cfg w
    (fun w1 => notYetStaged cfg w id w1 ∨ stagedWith cfg w id
      (formatExpirationTag ⟨w.now.sec + 86400 * cfg.HeadedOutPlaylist.DeletionDelayDays,
        w.now.nsec, w.now.offset⟩) w1)
    (fun w1 => stagedWith cfg w id
      (formatExpirationTag ⟨w.now.sec + 86400 * cfg.HeadedOutPlaylist.DeletionDelayDays,
        w.now.nsec, w.now.offset⟩) w1)
    library ids id hlib hids hid ?_ ?_ ?_ ?_ ?_ ?_ ?_ w
    (Or.inl ⟨sameEnv_refl w, hns, rfl, [], by simp, rfl⟩)
  · intro w1 hq
    have he : sameEnv w w1 := by
      rcases hq with h | h
      · exact h.1
      · exact h.1
    exact ⟨he.1, he.2.1, faulty_false w1 (sameEnv_fault w w1 he hok)⟩
  · intro w1 hq
    exact ⟨hq.1.1, hq.1.2.1⟩
  · intro w1 name ok hq
    rcases hq with ⟨e1, e2, e3, cs, c1, c2⟩ | ⟨e1, e2, e3, cs, c1, c2⟩
    · left
      exact ⟨sameEnv_trans _ _ _ e1 (sameEnv_record w1 _), e2, e3,
        cs ++ [Call.GetLibraryItems name ok], by simp [World.record, c1],
        by rw [List.filter_append, c2]; rfl⟩
    · right
      exact ⟨sameEnv_trans _ _ _ e1 (sameEnv_record w1 _), e2, e3,
        cs ++ [Call.GetLibraryItems name ok], by simp [World.record, c1],
        by rw [List.filter_append, c2]; rfl⟩
  · intro w1 name ok ⟨e1, e2, e3, cs, c1, c2⟩
    exact ⟨sameEnv_trans _ _ _ e1 (sameEnv_record w1 _), e2, e3,
      cs ++ [Call.GetLibraryItems name ok], by simp [World.record, c1],
      by rw [List.filter_append, c2]; rfl⟩
  · intro w1 l ids1 id1 hq hl hids1 hid1
    have hv : id1 = id → isExcluded (toItem w id).Name l.Exclusions = false →
        (shouldMarkForDeletion w (toItem w id) l).1.1 = true :=
      fun hj hx => hel l hl ids1 hids1 (hj ▸ hid1) hx
    rcases hq with hq | hq
    · obtain ⟨v1, v2⟩ := notYetStaged_visit cfg w id hok h0 h1 w1 l id1 hv hq
      by_cases hc : id1 = id ∧ isExcluded (toItem w id).Name l.Exclusions = false
      · exact Or.inr (v1 hc)
      · exact Or.inl (v2 hc)
    · exact Or.inr (stagedWith_visit cfg w id _ hok w1 l id1 hv hq)
  · intro w1 l ids1 id1 hq hl hids1 hid1
    exact stagedWith_visit cfg w id _ hok w1 l id1
      (fun hj hx => hel l hl ids1 hids1 (hj ▸ hid1) hx) hq
  · intro w1 hq
    rcases hq with hq | hq
    · exact (notYetStaged_visit cfg w id hok h0 h1 w1 library id
        (fun _ hx => hel library hlib ids hids hid hx) hq).1 ⟨rfl, hex⟩
    · exact stagedWith_visit cfg w id _ hok w1 library id
        (fun _ hx => hel library hlib ids hids hid hx) hq

/-- C8, as the code has it: the transition from unstaged and eligible, for a
whole pass. Take an item that is not a member of the staging playlist, that
some configured library lists without excluding it, and that
`shouldMarkForDeletion` finds eligible under every configured library that
lists it without excluding it. When no gateway call fails and the instant `DeletionDelayDays`
times 24 hours after the clock is within the range of Go's times (its seconds
since year 1 fit an `int64`), one Reconciler pass, and one run of
`processContent`, leave the item a member of the staging playlist with one tag
appended to its tags, the marker `formatExpirationTag` of that instant; the
writes made for the item are one `AddToPlaylist` and one `AddTag` of that
marker. -/
theorem pass_stages_eligible (cfg : Config) (w : World) (id : String)
    (hok : ∀ n, w.fault n = false)
    (h0 : -9223372036854775808
      ≤ w.now.sec + unixToInternal + 86400 * cfg.HeadedOutPlaylist.DeletionDelayDays)
    (h1 : w.now.sec + unixToInternal + 86400 * cfg.HeadedOutPlaylist.DeletionDelayDays
      < 9223372036854775808)
    (hns : isStaged cfg w id = false)
    (library : Library) (hlib : library ∈ cfg.Libraries) (ids : List String)
    (hids : w.libraries library.Name = some ids) (hid : id ∈ ids)
    (hex : isExcluded (toItem w id).Name library.Exclusions = false)
    (hel : ∀ l ∈ cfg.Libraries, ∀ ids1, w.libraries l.Name = some ids1 → id ∈ ids1 →
      isExcluded (toItem w id).Name l.Exclusions = false →
      (shouldMarkForDeletion w (toItem w id) l).1.1 = true) :
    (isStaged cfg (reconcile cfg w) id = true ∧
      (reconcile cfg w).tags id
        = w.tags id ++ [formatExpirationTag
            ⟨w.now.sec + 86400 * cfg.HeadedOutPlaylist.DeletionDelayDays,
              w.now.nsec, w.now.offset⟩] ∧
      (newCalls w (reconcile cfg w)).filter (Call.writesFor id)
        = [Call.AddToPlaylist id cfg.HeadedOutPlaylist.Name true,
           Call.AddTag id (formatExpirationTag
             ⟨w.now.sec + 86400 * cfg.HeadedOutPlaylist.DeletionDelayDays,
               w.now.nsec, w.now.offset⟩) true]) ∧
    (isStaged cfg (processContent cfg w) id = true ∧
      (processContent cfg w).tags id
        = w.tags id ++ [formatExpirationTag
            ⟨w.now.sec + 86400 * cfg.HeadedOutPlaylist.DeletionDelayDays,
              w.now.nsec, w.now.offset⟩] ∧
      (newCalls w (processContent cfg w)).filter (Call.writesFor id)
        = [Call.AddToPlaylist id cfg.HeadedOutPlaylist.Name true,
           Call.AddTag id (formatExpirationTag
             ⟨w.now.sec + 86400 * cfg.HeadedOutPlaylist.DeletionDelayDays,
               w.now.nsec, w.now.offset⟩) true]) := by
  obtain ⟨_, e2, e3, cs, c1, c2⟩ :=
    reconcile_stages cfg w id hok h0 h1 hns library hlib ids hids hid hex hel
  refine ⟨⟨e2, e3, by rw [newCalls_append w _ cs c1]; exact c2⟩, ?_⟩
  obtain ⟨cs2, s1, s2⟩ := sweep_reads_only cfg (reconcile cfg w)
  unfold processContent
  rw [s1]
  refine ⟨e2, e3, ?_⟩
  have ht : ({ reconcile cfg w with trace := (reconcile cfg w).trace ++ cs2 } : World).trace
      = w.trace ++ (cs ++ cs2) := by
    simp [c1]
  rw [newCalls_append w _ _ ht, List.filter_append, c2,
    writesFor_of_reads id cs2 (fun c hc => (reads_are_harmless cfg cs2 s2 c hc).2.2),
    List.append_nil]

/-- C8 witness: in the example world with nothing staged and `s1` played by
every user, at 2023-11-14T22:13:20Z with a delay of 7 days, one run of
`processContent` stages `s1` with the marker of 2023-11-21. -/
theorem pass_stages_eligible_witness :
    (processContent exampleConfig watchedWorld).tags "s1"
      = watchedWorld.tags "s1" ++ [formatExpirationTag
          ⟨watchedWorld.now.sec + 86400 * exampleConfig.HeadedOutPlaylist.DeletionDelayDays,
            watchedWorld.now.nsec, watchedWorld.now.offset⟩] ∧
    (processContent exampleConfig watchedWorld).tags "s1" = ["Jellycleaner-Expire-2023-11-21"] ∧
    isStaged exampleConfig (processContent exampleConfig watchedWorld) "s1" = true :=
  ⟨(pass_stages_eligible exampleConfig watchedWorld "s1" (fun _ => rfl) (by decide) (by decide)
      (by decide) exampleLibrary (by decide) ["s1"] (by decide) (by decide) (by decide)
      (by
        intro l hl _ _ _ _
        simp only [exampleConfig, List.mem_singleton] at hl
        subst hl
        decide)).2.2.1,
    by decide, by decide⟩

/-- C8, the claim as written fails in two ways. When two libraries of the
configuration list an item under rules that disagree on it, the item is not
excluded, eligible under the first rule and unstaged, no call fails, and the
pass stages it under the first library and unstages it under the second: after
the pass it is not a member of the staging playlist. And with a delay of
200000000000000 days `time.Date` overflows its 64-bit seconds: the marker
written is that of the year -36972645833, not that of the instant
`DeletionDelayDays` days after the clock, in the year 547581403421. -/
theorem pass_stages_eligible_fails :
    (∀ n, watchedWorld.fault n = false) ∧
    isExcluded exampleSeries.Name exampleLibrary.Exclusions = false ∧
    exampleLibrary ∈ twoRulesConfig.Libraries ∧
    (shouldMarkForDeletion watchedWorld exampleSeries exampleLibrary).1
      = (true, "Watched by all users") ∧
    isStaged twoRulesConfig watchedWorld "s1" = false ∧
    isStaged twoRulesConfig (reconcile twoRulesConfig watchedWorld) "s1" = false ∧
    isStaged twoRulesConfig (processContent twoRulesConfig watchedWorld) "s1" = false ∧
    (processContent farDelayConfig watchedWorld).tags "s1"
      = ["Jellycleaner-Expire--36972645833-09-19"] ∧
    formatExpirationTag ⟨watchedWorld.now.sec + 86400 * 200000000000000, 0, 0⟩
      = "Jellycleaner-Expire-547581403421-07-28" :=
  ⟨fun _ => rfl, by decide, by decide, by decide, by decide, by decide, by decide, by decide,
    by decide⟩

end Jellycleaner
